import Mathlib

/-!
# GBA Pong (`Source.c`): shallow embedding and verification

The C program drives a Game Boy Advance in graphics mode 4: two 240x160
indexed-colour buffers in video memory, two pixels per 16-bit halfword, a
display-control register whose bit 4 selects the displayed buffer, and a frame
loop that erases, simulates, draws and flips.

Conventions of the embedding

* Halfword memory (`volatile unsigned short*`) is one flat map from byte
  addresses to numbers; `buffer[offset]` is the cell at `buffer + 2 * offset`.
  A load and a store truncate to 16 bits.  Distinct addresses are distinct
  cells: a store outside the two pixel grids changes no pixel of either grid.
* `unsigned short` fields are natural numbers, reduced modulo `65536` wherever
  the program stores into them.
* `int` is the 32-bit two's complement type of the ARM target.  The fields of
  a `ball` and the other `int` variables are integers, and every `int`
  addition, subtraction, negation and multiplication on them is followed by
  `to_int`, which keeps the low 32 bits as the compiled program does.  An
  operation whose operands are promoted `unsigned short` or `short` values and
  small constants cannot leave the `int` range and is written without it.
  `>>` on a negative `int` is the arithmetic shift and `&` acts on the two's
  complement representation.
* The score counters `player_score` and `ai_score` are integers, and
  `score++` adds one: this is the new `int` value for every score below the
  `int` maximum.
* `short` loop counters wrap into `[-32768, 32767]` on every assignment.  A
  loop is run with a fuel that no terminating run can exhaust; the result
  `none` stands for a loop that never exits.
* The volatile button register is read once per `button_pressed` call; each
  read is an explicit argument.
* `wait_vblank` polls the scanline counter until the hardware reaches line
  160; it changes nothing the program keeps and is left out of the frame loop.
-/

namespace Pong

/-! ## Constants -/

/-- Source: `#define WIDTH 240`. -/
def WIDTH : Int := 240

/-- Source: `#define HEIGHT 160`. -/
def HEIGHT : Int := 160

/-- Source: `#define MODE4 0x0004`. -/
def MODE4 : Nat := 0x0004

/-- Source: `#define BG2 0x0400`. -/
def BG2 : Nat := 0x0400

/-- Source: `#define SHOW_BACK 0x10;` (bit 4 of the display control). -/
def SHOW_BACK : Nat := 0x10

/-- Source: `front_buffer = (volatile unsigned short*) 0x6000000`. -/
def front_buffer : Nat := 0x6000000

/-- Source: `back_buffer = (volatile unsigned short*) 0x600A000`. -/
def back_buffer : Nat := 0x600A000

/-- Source: `palette = (volatile unsigned short*) 0x5000000`. -/
def palette : Nat := 0x5000000

/-- Source: `#define BUTTON_UP (1 << 6)`. -/
def BUTTON_UP : Nat := 1 <<< 6

/-- Source: `#define BUTTON_DOWN (1 << 7)`. -/
def BUTTON_DOWN : Nat := 1 <<< 7

/-! ## Machine arithmetic and memory -/

/-- Conversion of an `int` value to `short` (two's complement wrap). -/
def to_short (n : Int) : Int := (n + 32768) % 65536 - 32768

/-- Conversion of an `int` value to `unsigned short`. -/
def to_ushort (n : Int) : Nat := (n % 65536).toNat

/-- Result of an `int` operation whose exact value is `n`: the low 32 bits of
`n`, read in two's complement. -/
def to_int (n : Int) : Int := (n + 2147483648) % 4294967296 - 2147483648

/-- Halfword memory, indexed by byte address. -/
abbrev Mem := Nat → Nat

/-- Read of a `volatile unsigned short` cell. -/
def load (mem : Mem) (addr : Nat) : Nat := mem addr % 65536

/-- Write of a `volatile unsigned short` cell. -/
def store (mem : Mem) (addr : Nat) (v : Nat) : Mem :=
  fun a => if a = addr then v % 65536 else mem a

/-- Upper bound on the iterations of a terminating loop whose counter is a
16-bit variable compared against a fixed bound: after `65536` iterations a
counter value has repeated, and the loop then never exits. -/
def LOOP_FUEL : Nat := 65537

/-- The C loop `for (v = init; v < bound; v = next v) body`, started at counter
value `v`.  `none` means the fuel ran out. -/
def for_loop {σ : Type} (next : Int → Int) (body : Int → σ → Option σ) (bound : Int) :
    Nat → Int → σ → Option σ
  | 0, _, _ => none
  | fuel + 1, v, s =>
    if v < bound then
      (body v s).bind (fun s' => for_loop next body bound fuel (next v) s')
    else some s

/-- Step `v++` of a `short` counter. -/
def short_incr (v : Int) : Int := to_short (v + 1)

/-- Step `v++` of an `unsigned short` counter. -/
def ushort_incr (v : Int) : Int := (v + 1) % 65536

/-! ## Data model -/

/-- Source: `struct paddle { unsigned short x, y, width, height; unsigned char color; }`. -/
structure paddle where
  x : Nat
  y : Nat
  width : Nat
  height : Nat
  color : Nat
  deriving DecidableEq

/-- Source: `struct ball { int x, y, size, dx, dy; unsigned char color; }`. -/
structure ball where
  x : Int
  y : Int
  size : Int
  dx : Int
  dy : Int
  color : Nat
  deriving DecidableEq

/-! ## Functions of `Source.c` -/

/-- Source: `button_pressed`.  `reg` is the value read from `*buttons`. -/
def button_pressed (reg : Nat) (button : Nat) : Nat :=
  let pressed := (reg &&& button) % 65536
  if pressed = 0 then 1 else 0

/-- Source: `add_color`.  Takes and returns the memory and the global
`next_palette_index`; the third component is the returned index.  The cell
`palette[next_palette_index]` lies at the 32-bit address
`palette + 2 * next_palette_index`. -/
def add_color (mem : Mem) (next_palette_index : Int) (r g b : Nat) : Mem × Int × Nat :=
  let color := (b <<< 10) % 65536
  let color := (color + (g <<< 5)) % 65536
  let color := (color + r) % 65536
  let mem := store mem (((palette : Int) + 2 * next_palette_index) % 4294967296).toNat color
  let next_palette_index := to_int (next_palette_index + 1)
  (mem, next_palette_index, (to_int (next_palette_index - 1) % 256).toNat)

/-- Source: `put_pixel`.  The parameter `color` is an `unsigned char`; the
offset is an `unsigned short`, so it is taken modulo `65536`. -/
def put_pixel (mem : Mem) (buffer : Nat) (row col : Int) (color : Nat) : Mem :=
  let color := color % 256
  let offset : Nat := to_ushort (to_int (to_int (row * WIDTH) + col) >>> (1 : Nat))
  let pixel := load mem (buffer + 2 * offset)
  if Int.land col 1 ≠ 0 then
    store mem (buffer + 2 * offset) ((color <<< 8) ||| (pixel &&& 0x00ff))
  else
    store mem (buffer + 2 * offset) ((pixel &&& 0xff00) ||| color)

/-- Source: `update_screen`, the four clearing loops: around the player paddle,
around the AI paddle, around the ball, and the left and right edges. -/
def update_screen_clear (mem : Mem) (buffer : Nat) (color : Nat) (p ai_paddle : paddle)
    (b : ball) : Option Mem := do
  let mem ← for_loop short_incr (fun row mem =>
      for_loop short_incr (fun col mem => some (put_pixel mem buffer row col color))
        ((p.x : Int) + p.width + 3) LOOP_FUEL (to_short ((p.x : Int) - 3)) mem)
    ((p.y : Int) + p.height + 3) LOOP_FUEL (to_short ((p.y : Int) - 3)) mem
  let mem ← for_loop short_incr (fun row mem =>
      for_loop short_incr (fun col mem => some (put_pixel mem buffer row col color))
        ((ai_paddle.x : Int) + ai_paddle.width + 3) LOOP_FUEL
        (to_short ((ai_paddle.x : Int) - 3)) mem)
    ((ai_paddle.y : Int) + ai_paddle.height + 3) LOOP_FUEL
    (to_short ((ai_paddle.y : Int) - 3)) mem
  let mem ← for_loop short_incr (fun row mem =>
      for_loop short_incr (fun col mem => some (put_pixel mem buffer row col color))
        (to_int (to_int (b.x + b.size) + 3)) LOOP_FUEL (to_short (to_int (b.x - 3))) mem)
    (to_int (to_int (b.y + b.size) + 3)) LOOP_FUEL (to_short (to_int (b.y - 3))) mem
  for_loop short_incr (fun row mem =>
      for_loop short_incr (fun col mem =>
          some (put_pixel (put_pixel mem buffer row col color) buffer row (WIDTH - 1 - col) color))
        3 LOOP_FUEL 0 mem)
    HEIGHT LOOP_FUEL 0 mem

/-- Source: `update_screen`, its last loop, "Draw the net down the middle of the
screen": `for (row = 0; row < HEIGHT; row += 4) put_pixel(buffer, row, WIDTH / 2, net_color)`. -/
def update_screen_net (mem : Mem) (buffer : Nat) (net_color : Nat) : Option Mem :=
  for_loop (fun row => to_short (row + 4))
    (fun row mem => some (put_pixel mem buffer row (WIDTH / 2) net_color))
    HEIGHT LOOP_FUEL 0 mem

/-- Source: `update_screen`: the clearing loops, then the net loop. -/
def update_screen (mem : Mem) (buffer : Nat) (color : Nat) (p ai_paddle : paddle)
    (net_color : Nat) (b : ball) : Option Mem := do
  let mem ← update_screen_clear mem buffer color p ai_paddle b
  update_screen_net mem buffer net_color

/-- Source: `flip_buffers`.  Takes and returns the display control
(a 32-bit `unsigned long`); the second component is the returned pointer. -/
def flip_buffers (display_control : Nat) (buffer : Nat) : Nat × Nat :=
  if buffer = front_buffer then
    (display_control &&& (2 ^ 32 - 1 - SHOW_BACK), back_buffer)
  else
    ((display_control ||| SHOW_BACK) % 2 ^ 32, front_buffer)

/-- Source: `handle_buttons`.  `down_read` and `up_read` are the values of
`*buttons` seen by the first and the second `button_pressed` call. -/
def handle_buttons (p : paddle) (down_read up_read : Nat) : paddle :=
  let p :=
    if button_pressed down_read BUTTON_DOWN ≠ 0 ∧ (p.y : Int) + p.height < HEIGHT then
      { p with y := to_ushort ((p.y : Int) + 1) }
    else p
  if button_pressed up_read BUTTON_UP ≠ 0 ∧ (p.y : Int) > 0 then
    { p with y := to_ushort ((p.y : Int) - 1) }
  else p

/-- Source: `clear_screen`. -/
def clear_screen (mem : Mem) (buffer : Nat) (color : Nat) : Option Mem :=
  for_loop ushort_incr (fun row mem =>
      for_loop ushort_incr (fun col mem => some (put_pixel mem buffer row col color))
        WIDTH LOOP_FUEL 0 mem)
    HEIGHT LOOP_FUEL 0 mem

/-- Source: `draw_paddle`. -/
def draw_paddle (mem : Mem) (buffer : Nat) (p : paddle) : Option Mem :=
  for_loop short_incr (fun row mem =>
      for_loop short_incr (fun col mem => some (put_pixel mem buffer row col p.color))
        ((p.x : Int) + p.width) LOOP_FUEL (to_short p.x) mem)
    ((p.y : Int) + p.height) LOOP_FUEL (to_short p.y) mem

/-- Source: `update_ai_paddle`.  Takes and returns the paddle and the static
variable `ai_direction`. -/
def update_ai_paddle (ai_paddle : paddle) (ai_direction : Int) : paddle × Int :=
  let ai_paddle := { ai_paddle with y := to_ushort (to_int ((ai_paddle.y : Int) + ai_direction)) }
  if (ai_paddle.y : Int) ≤ 0 then
    (ai_paddle, 1)
  else if (ai_paddle.y : Int) + ai_paddle.height ≥ HEIGHT then
    (ai_paddle, -1)
  else
    (ai_paddle, ai_direction)

/-- Source: `draw_ball`. -/
def draw_ball (mem : Mem) (buffer : Nat) (b : ball) : Mem :=
  put_pixel mem buffer b.y b.x b.color

/-- The globals `player_score` and `ai_score`, as integers: `update_ball` adds
one to a score, and the sum is the new `int` value for every score below the
`int` maximum. -/
structure scores where
  player_score : Int
  ai_score : Int
  deriving DecidableEq

/-- Source: `update_ball`, "Update position":
`b->x += b->dx; b->y += b->dy;`. -/
def ball_move (b : ball) : ball :=
  { b with x := to_int (b.x + b.dx), y := to_int (b.y + b.dy) }

/-- Source: `update_ball`, "Check collision with top and bottom". -/
def ball_wall (b : ball) : ball :=
  if b.y ≤ 0 ∨ b.y ≥ HEIGHT then { b with dy := to_int (-b.dy) } else b

/-- Source: `update_ball`, `if (b->x <= 0)`, "AI scores". -/
def ball_score_ai (b : ball) (sc : scores) : ball × scores :=
  if b.x ≤ 0 then
    ({ b with x := WIDTH / 2, y := HEIGHT / 2 }, { sc with ai_score := sc.ai_score + 1 })
  else (b, sc)

/-- Source: `update_ball`, `if (b->x >= WIDTH)`, "Player scores". -/
def ball_score_player (b : ball) (sc : scores) : ball × scores :=
  if b.x ≥ WIDTH then
    ({ b with x := WIDTH / 2, y := HEIGHT / 2 },
      { sc with player_score := sc.player_score + 1 })
  else (b, sc)

/-- Source: `update_ball`, "Player paddle collision (left paddle)". -/
def ball_hit_player (b : ball) (player : paddle) : ball :=
  if b.x ≤ (player.x : Int) + player.width ∧ b.x ≥ (player.x : Int) ∧
      b.y ≥ (player.y : Int) ∧ b.y ≤ (player.y : Int) + player.height then
    { b with dx := to_int (-b.dx) }
  else b

/-- Source: `update_ball`, "AI paddle collision (right paddle)". -/
def ball_hit_ai (b : ball) (ai_paddle : paddle) : ball :=
  if to_int (b.x + b.size) ≥ (ai_paddle.x : Int) ∧
      b.x ≤ (ai_paddle.x : Int) + ai_paddle.width ∧
      b.y ≥ (ai_paddle.y : Int) ∧ b.y ≤ (ai_paddle.y : Int) + ai_paddle.height then
    { b with dx := to_int (-b.dx) }
  else b

/-- Source: `update_ball`: its six blocks in program order.  Takes and returns
the ball and the two score globals; the paddles are only read. -/
def update_ball (b : ball) (player ai_paddle : paddle) (sc : scores) : ball × scores :=
  let b := ball_move b
  let b := ball_wall b
  let r := ball_score_ai b sc
  let r := ball_score_player r.1 r.2
  let b := ball_hit_player r.1 player
  let b := ball_hit_ai b ai_paddle
  (b, r.2)

/-! ## The program `main` -/

/-- Everything `main` and the functions it calls keep between statements:
video and palette memory, the display control, the locals of `main`, the static
`ai_direction`, and the globals. -/
structure State where
  mem : Mem
  display_control : Nat
  buffer : Nat
  player : paddle
  ai_paddle : paddle
  b : ball
  black : Nat
  net_color : Nat
  ai_direction : Int
  sc : scores
  next_palette_index : Int

/-- Source: `main`, from its first statement up to the `while (1)`. -/
def main_init (mem : Mem) : Option State := do
  let display_control := MODE4 ||| BG2
  let c := add_color mem 0 15 15 15
  let player : paddle := ⟨20, 60, 5, 25, c.2.2⟩
  let c := add_color c.1 c.2.1 15 15 15
  let ai_paddle : paddle := ⟨to_ushort (WIDTH - 15), 10, 5, 30, c.2.2⟩
  let c := add_color c.1 c.2.1 15 15 15
  let b : ball := ⟨WIDTH / 2, HEIGHT / 2, 5, 1, 1, c.2.2⟩
  let c := add_color c.1 c.2.1 0 0 0
  let black := c.2.2
  let c := add_color c.1 c.2.1 15 15 15
  let net_color := c.2.2
  let buffer := front_buffer
  let mem ← clear_screen c.1 front_buffer black
  let mem ← clear_screen mem back_buffer black
  some ⟨mem, display_control, buffer, player, ai_paddle, b, black, net_color, 1, ⟨0, 0⟩, c.2.1⟩

/-- Source: the body of `while (1)` in `main`, from `update_screen` to
`draw_ball`: the state at the end of the draw phase.  `reads` are the two
button-register values seen by `handle_buttons`. -/
def draw_phase (s : State) (reads : Nat × Nat) : Option State := do
  let mem ← update_screen s.mem s.buffer s.black s.player s.ai_paddle s.net_color s.b
  let player := handle_buttons s.player reads.1 reads.2
  let a := update_ai_paddle s.ai_paddle s.ai_direction
  let u := update_ball s.b player a.1 s.sc
  let mem ← draw_paddle mem s.buffer player
  let mem ← draw_paddle mem s.buffer a.1
  let mem := draw_ball mem s.buffer u.1
  some { s with mem := mem, player := player, ai_paddle := a.1, ai_direction := a.2,
                b := u.1, sc := u.2 }

/-- Source: one full pass through the body of `while (1)`.  `wait_vblank`
busy-waits on the scanline counter and changes nothing the program keeps. -/
def iteration (s : State) (reads : Nat × Nat) : Option State := do
  let s ← draw_phase s reads
  let f := flip_buffers s.display_control s.buffer
  some { s with display_control := f.1, buffer := f.2 }

/-- State of `main` at the top of the loop after `n` complete iterations, the
`k`-th of which sees the button reads `inputs k`. -/
def main_loop (mem : Mem) (inputs : Nat → Nat × Nat) : Nat → Option State
  | 0 => main_init mem
  | n + 1 => (main_loop mem inputs n).bind (fun s => iteration s (inputs n))

/-! ## Observations used to state the properties -/

/-- Colour index the display shows for pixel `(r, c)` of the mode-4 buffer at
`buffer`: the low byte of halfword `(r * 240 + c) / 2` for an even column, the
high byte for an odd one. -/
def pixel_at (mem : Mem) (buffer : Nat) (r c : Nat) : Nat :=
  let hw := load mem (buffer + 2 * ((r * 240 + c) / 2))
  if c % 2 = 0 then hw % 256 else hw / 256

/-- Buffer the display shows: the back buffer when bit 4 (`SHOW_BACK`) of the
display control is set, the front buffer otherwise. -/
def displayed_buffer (display_control : Nat) : Nat :=
  if display_control &&& SHOW_BACK ≠ 0 then back_buffer else front_buffer

/-- `k`-th byte of the halfword array at `base` (little endian). -/
def byte_at (mem : Mem) (base : Nat) (k : Nat) : Nat :=
  let hw := load mem (base + 2 * (k / 2))
  if k % 2 = 0 then hw % 256 else hw / 256

/-- Position test of the first paddle `if` of `update_ball`, in the order the
specification writes it: the point `(x, y)` lies in the closed rectangle of `p`. -/
def in_paddle_rect (x y : Int) (p : paddle) : Prop :=
  (p.x : Int) ≤ x ∧ x ≤ (p.x : Int) + p.width ∧ (p.y : Int) ≤ y ∧ y ≤ (p.y : Int) + p.height

instance (x y : Int) (p : paddle) : Decidable (in_paddle_rect x y p) := by
  unfold in_paddle_rect; infer_instance

/-- Position test of the second paddle `if` of `update_ball`: as `in_paddle_rect`,
with the ball's size added on the left-edge comparison only. -/
def ai_paddle_hit (x y size : Int) (p : paddle) : Prop :=
  x + size ≥ (p.x : Int) ∧ x ≤ (p.x : Int) + p.width ∧ (p.y : Int) ≤ y ∧
    y ≤ (p.y : Int) + p.height

instance (x y size : Int) (p : paddle) : Decidable (ai_paddle_hit x y size p) := by
  unfold ai_paddle_hit; infer_instance

/-- The value `n` is representable as an `int`: an `int` operation whose exact
result is `n` does not overflow. -/
def is_int (n : Int) : Prop := -2147483648 ≤ n ∧ n ≤ 2147483647

instance (n : Int) : Decidable (is_int n) := by
  unfold is_int; infer_instance

/-- Abscissa of the ball after the move and any scoring reset of one tick, with
the sum `x + dx` taken in exact arithmetic, as the specification writes it. -/
def moved_x (b : ball) : Int :=
  if b.x + b.dx ≤ 0 ∨ b.x + b.dx ≥ 240 then 120 else b.x + b.dx

/-- Ordinate of the ball after the move and any scoring reset of one tick, with
the sums `x + dx` and `y + dy` taken in exact arithmetic. -/
def moved_y (b : ball) : Int :=
  if b.x + b.dx ≤ 0 ∨ b.x + b.dx ≥ 240 then 80 else b.y + b.dy

/-- Abscissa of the ball after the move and any scoring reset of one tick, as
the program computes it. -/
def next_x (b : ball) : Int :=
  if to_int (b.x + b.dx) ≤ 0 ∨ to_int (b.x + b.dx) ≥ 240 then 120 else to_int (b.x + b.dx)

/-- Ordinate of the ball after the move and any scoring reset of one tick, as
the program computes it. -/
def next_y (b : ball) : Int :=
  if to_int (b.x + b.dx) ≤ 0 ∨ to_int (b.x + b.dx) ≥ 240 then 80 else to_int (b.y + b.dy)

/-- Position test of the second paddle `if` of `update_ball` as the program
computes it: `ai_paddle_hit` with the sum `x + size` taken in `int`. -/
def ai_paddle_test (x y size : Int) (p : paddle) : Prop :=
  to_int (x + size) ≥ (p.x : Int) ∧ x ≤ (p.x : Int) + p.width ∧ (p.y : Int) ≤ y ∧
    y ≤ (p.y : Int) + p.height

instance (x y size : Int) (p : paddle) : Decidable (ai_paddle_test x y size p) := by
  unfold ai_paddle_test; infer_instance

/-- Display control and draw target after `n` calls of `flip_buffers`, each
applied to the pointer the previous call returned, from the state `main` sets
up (`*display_control = MODE4 | BG2`, `buffer = front_buffer`). -/
def flip_run : Nat → Nat × Nat
  | 0 => (MODE4 ||| BG2, front_buffer)
  | n + 1 => flip_buffers (flip_run n).1 (flip_run n).2

/-- Paddle and `ai_direction` after `n` calls of `update_ai_paddle`, from a
paddle `p` and the initial value `1` of the static variable. -/
def ai_run (p : paddle) : Nat → paddle × Int
  | 0 => (p, 1)
  | n + 1 => update_ai_paddle (ai_run p n).1 (ai_run p n).2

/-- Ball and scores after `n` calls of `update_ball`, the `k`-th call seeing the
paddles `pl k` and `ai k`. -/
def ball_run (pl ai : Nat → paddle) (b : ball) (sc : scores) : Nat → ball × scores
  | 0 => (b, sc)
  | n + 1 => update_ball (ball_run pl ai b sc n).1 (pl n) (ai n) (ball_run pl ai b sc n).2

/-- The memory `m'` differs from `m`, on the bytes of the halfword array at
`base`, exactly by the bytes in `W`, which all hold `color`. -/
def Paints (m m' : Mem) (base color : Nat) (W : Nat → Prop) : Prop :=
  ∀ k, (W k → byte_at m' base k = color) ∧ (¬ W k → byte_at m' base k = byte_at m base k)

/-- Index, in the halfword array at `base`, of the byte that `put_pixel`
writes for `(row, col)` on the buffer at `base + 2 * d`. -/
def pixel_index (d : Nat) (row col : Int) : Nat :=
  2 * d + ((row * 240 + col) % 131072).toNat

/-- Pixel `(r, c)` is a dash of the net: column 120, every fourth row. -/
def net_pixel (r c : Nat) : Prop := c = 120 ∧ r % 4 = 0

instance (r c : Nat) : Decidable (net_pixel r c) := by
  unfold net_pixel; infer_instance

/-- Pixel `(r, c)` lies in the rectangle that `draw_paddle` fills for `p`. -/
def in_paddle (p : paddle) (r c : Nat) : Prop :=
  p.y ≤ r ∧ r < p.y + p.height ∧ p.x ≤ c ∧ c < p.x + p.width

instance (p : paddle) (r c : Nat) : Decidable (in_paddle p r c) := by
  unfold in_paddle; infer_instance

/-- Pixel `(r, c)` is the one `draw_ball` writes for `b`. -/
def is_ball_pixel (b : ball) (r c : Nat) : Prop := (r : Int) = b.y ∧ (c : Int) = b.x

instance (b : ball) (r c : Nat) : Decidable (is_ball_pixel b r c) := by
  unfold is_ball_pixel; infer_instance

/-- Pixel `(r, c)` lies in the rectangle an erase loop of `update_screen`
covers for an entity at `(x, y)` of extent `w` by `h`: three more on every side. -/
def in_halo (x y w h : Int) (r c : Nat) : Prop :=
  y - 3 ≤ r ∧ (r : Int) < y + h + 3 ∧ x - 3 ≤ c ∧ (c : Int) < x + w + 3

/-- Pixel `(r, c)` is covered by one of the four erase passes of
`update_screen` run on the entities of `s`. -/
def erased (s : State) (r c : Nat) : Prop :=
  in_halo s.player.x s.player.y s.player.width s.player.height r c ∨
  in_halo s.ai_paddle.x s.ai_paddle.y s.ai_paddle.width s.ai_paddle.height r c ∨
  in_halo s.b.x s.b.y s.b.size s.b.size r c ∨ c < 3 ∨ 237 ≤ c

/-- The buffer that is not `buffer`. -/
def other_buffer (buffer : Nat) : Nat :=
  if buffer = front_buffer then back_buffer else front_buffer

/-- Facts about the entities that hold at the top of every iteration of the
frame loop of `main`. -/
structure Entities_ok (s : State) : Prop where
  player_x : s.player.x = 20
  player_width : s.player.width = 5
  player_height : s.player.height = 25
  player_y : s.player.y ≤ 135
  player_color : s.player.color < 256
  ai_x : s.ai_paddle.x = 225
  ai_width : s.ai_paddle.width = 5
  ai_height : s.ai_paddle.height = 30
  ai_color : s.ai_paddle.color < 256
  ai_y : (s.ai_direction = 1 ∧ s.ai_paddle.y ≤ 129) ∨
    (s.ai_direction = -1 ∧ 1 ≤ s.ai_paddle.y ∧ s.ai_paddle.y ≤ 130)
  ball_size : s.b.size = 5
  ball_color : s.b.color < 256
  ball_x : 1 ≤ s.b.x ∧ s.b.x ≤ 239
  ball_y : 0 ≤ s.b.y ∧ s.b.y ≤ 160
  ball_dx : s.b.dx = 1 ∨ s.b.dx = -1
  ball_dy : s.b.dy = 1 ∨ s.b.dy = -1
  ball_top : s.b.y = 0 → s.b.dy = 1
  ball_bottom : s.b.y = 160 → s.b.dy = -1
  black_eq : s.black = 3
  net_eq : s.net_color = 4
  buffer_eq : s.buffer = front_buffer ∨ s.buffer = back_buffer

/-- Invariant of the frame loop of `main`: the entity facts, and what the two
buffers hold.  The buffer drawn in the previous iteration holds the background
outside the current entities and the net; the buffer about to be drawn holds
the background outside the net and the region the erase passes will cover. -/
structure Loop_inv (s : State) : Prop where
  ent : Entities_ok s
  shown : ∀ r c, r < 160 → c < 240 → ¬ net_pixel r c → ¬ in_paddle s.player r c →
    ¬ in_paddle s.ai_paddle r c → ¬ is_ball_pixel s.b r c →
    pixel_at s.mem (other_buffer s.buffer) r c = s.black
  target : ∀ r c, r < 160 → c < 240 → ¬ net_pixel r c → ¬ erased s r c →
    pixel_at s.mem s.buffer r c = s.black

/-! ## Bytes of a halfword -/

theorem tb_small {c i n : Nat} (h : c < 2 ^ n) (hi : n ≤ i) : c.testBit i = false := by
  apply Nat.testBit_lt_two_pow
  exact lt_of_lt_of_le h (Nat.pow_le_pow_right (by norm_num) hi)

theorem tb_ff (i : Nat) : Nat.testBit 0xff i = decide (i < 8) := by
  have : (0xff : Nat) = 2 ^ 8 - 1 := by norm_num
  rw [this, Nat.testBit_two_pow_sub_one]

theorem tb_ff00 (i : Nat) : Nat.testBit 0xff00 i = (decide (8 ≤ i) && decide (i < 16)) := by
  have : (0xff00 : Nat) = (2 ^ 8 - 1) <<< 8 := by decide
  rw [this, Nat.testBit_shiftLeft, Nat.testBit_two_pow_sub_one]
  by_cases h : 8 ≤ i <;> simp [h]; omega

theorem hw_odd_low (p c : Nat) :
    ((c <<< 8) ||| (p &&& 0x00ff)) % 65536 % 256 = p % 256 := by
  apply Nat.eq_of_testBit_eq
  intro i
  have e1 : (256:Nat) = 2^8 := by norm_num
  have e2 : (65536:Nat) = 2^16 := by norm_num
  rw [e1, e2]
  simp only [Nat.testBit_mod_two_pow, Nat.testBit_or, Nat.testBit_and, Nat.testBit_shiftLeft, tb_ff]
  by_cases h8 : i < 8
  · have : i < 16 := by omega
    have : ¬ (i ≥ 8) := by omega
    simp [*]
  · simp [h8]

theorem hw_odd_high (p c : Nat) (h : c < 256) :
    ((c <<< 8) ||| (p &&& 0x00ff)) % 65536 / 256 = c := by
  apply Nat.eq_of_testBit_eq
  intro i
  have e1 : (256:Nat) = 2^8 := by norm_num
  have e2 : (65536:Nat) = 2^16 := by norm_num
  rw [e1, e2, ← Nat.shiftRight_eq_div_pow]
  simp only [Nat.testBit_shiftRight, Nat.testBit_mod_two_pow, Nat.testBit_or, Nat.testBit_and, Nat.testBit_shiftLeft, tb_ff]
  by_cases h8 : i < 8
  · have : 8 + i < 16 := by omega
    have : ¬ (8 + i < 8) := by omega
    simp [*]
  · have : ¬ (8 + i < 16) := by omega
    have : c.testBit i = false := tb_small (n := 8) (by omega) (by omega)
    simp [*]

theorem hw_even_low (p c : Nat) (h : c < 256) :
    ((p &&& 0xff00) ||| c) % 65536 % 256 = c := by
  apply Nat.eq_of_testBit_eq
  intro i
  have e1 : (256:Nat) = 2^8 := by norm_num
  have e2 : (65536:Nat) = 2^16 := by norm_num
  rw [e1, e2]
  simp only [Nat.testBit_mod_two_pow, Nat.testBit_or, Nat.testBit_and, tb_ff00]
  by_cases h8 : i < 8
  · have : i < 16 := by omega
    have : ¬ (8 ≤ i) := by omega
    simp [*]
  · have : c.testBit i = false := tb_small (n := 8) (by omega) (by omega)
    simp [*]

theorem hw_even_high (p c : Nat) (h : c < 256) :
    ((p &&& 0xff00) ||| c) % 65536 / 256 = p % 65536 / 256 := by
  apply Nat.eq_of_testBit_eq
  intro i
  have e1 : (256:Nat) = 2^8 := by norm_num
  have e2 : (65536:Nat) = 2^16 := by norm_num
  rw [e1, e2, ← Nat.shiftRight_eq_div_pow, ← Nat.shiftRight_eq_div_pow]
  simp only [Nat.testBit_shiftRight, Nat.testBit_mod_two_pow, Nat.testBit_or, Nat.testBit_and, tb_ff00]
  have : c.testBit (8 + i) = false := tb_small (n := 8) (by omega) (by omega)
  by_cases h8 : i < 8
  · have : 8 + i < 16 := by omega
    have : 8 ≤ 8 + i := by omega
    simp [*]
  · have : ¬ (8 + i < 16) := by omega
    simp [*]

theorem land_one (c : Int) : Int.land c 1 = c % 2 := by
  cases c with
  | ofNat n =>
    show Int.ofNat (n &&& 1) = _
    rw [Nat.and_one_is_mod]
    simp
  | negSucc n =>
    show Int.ofNat (Nat.ldiff 1 n) = _
    have h : Nat.ldiff 1 n = (n + 1) % 2 := by
      apply Nat.eq_of_testBit_eq
      intro i
      rw [Nat.testBit_ldiff]
      cases i with
      | zero =>
        simp only [Nat.testBit_zero]
        rcases Nat.mod_two_eq_zero_or_one n with h | h <;>
          simp [h, Nat.add_mod]
      | succ i =>
        have : ((n + 1) % 2).testBit (i + 1) = false :=
          tb_small (n := 1) (by omega) (by omega)
        rw [this]
        simp [Nat.testBit_succ]
    rw [h]
    simp [Int.negSucc_eq]
    omega

theorem load_store (mem : Mem) (a v a' : Nat) :
    load (store mem a v) a' = if a' = a then v % 65536 else load mem a' := by
  unfold load store
  by_cases h : a' = a <;> simp [h]

/-- Byte written by `put_pixel`: it sets byte `(row * 240 + col) mod 2^17` of
the buffer to the colour and changes no other byte. -/
theorem put_pixel_byte (mem : Mem) (base d : Nat) (row col : Int) (color k : Nat) :
    byte_at (put_pixel mem (base + 2 * d) row col color) base k =
      if k = 2 * d + ((row * 240 + col) % 131072).toNat then color % 256
      else byte_at mem base k := by
  have hc : color % 256 < 256 := Nat.mod_lt _ (by norm_num)
  have hM : (row * 240 + col) % 131072 = to_int (to_int (row * 240) + col) % 131072 := by
    unfold to_int; omega
  have hpar : col % 2 = to_int (to_int (row * 240) + col) % 2 := by
    unfold to_int; omega
  have hsh : to_int (to_int (row * 240) + col) >>> (1 : Nat) =
      to_int (to_int (row * 240) + col) / 2 := by
    rw [Int.shiftRight_eq_div_pow]; norm_num
  rw [hM]
  simp only [put_pixel, byte_at, land_one, WIDTH, to_ushort, hsh]
  rw [hpar]
  generalize to_int (to_int (row * 240) + col) = L
  generalize ho : (L / 2 % 65536).toNat = o
  have hk0 : (L % 131072).toNat = 2 * o + (L % 2).toNat := by omega
  rw [hk0]
  by_cases hodd : L % 2 = 0
  · simp only [hodd, ne_eq, not_true_eq_false, if_false, load_store]
    by_cases ha : base + 2 * (k / 2) = base + 2 * d + 2 * o
    · simp only [ha, if_true]
      by_cases hk : k % 2 = 0
      · have : k = 2 * d + (2 * o + (0 : Int).toNat) := by simp; omega
        simp only [hk, if_true, ← this]
        rw [hw_even_low _ _ hc]
      · have : ¬ (k = 2 * d + (2 * o + (0 : Int).toNat)) := by simp; omega
        simp only [hk, if_false, this]
        rw [hw_even_high _ _ hc]
        simp [load]
    · have : ¬ (k = 2 * d + (2 * o + (0 : Int).toNat)) := by simp; omega
      simp only [ha, if_false, this]
  · have h1 : L % 2 = 1 := by omega
    simp only [h1, ne_eq, one_ne_zero, not_false_eq_true, if_true, load_store]
    by_cases ha : base + 2 * (k / 2) = base + 2 * d + 2 * o
    · simp only [ha, if_true]
      by_cases hk : k % 2 = 0
      · have : ¬ (k = 2 * d + (2 * o + (1 : Int).toNat)) := by simp; omega
        simp only [hk, if_true, this, if_false]
        rw [hw_odd_low]
      · have : k = 2 * d + (2 * o + (1 : Int).toNat) := by simp; omega
        simp only [hk, if_false, ← this, if_true]
        rw [hw_odd_high _ _ hc]
    · have : ¬ (k = 2 * d + (2 * o + (1 : Int).toNat)) := by simp; omega
      simp only [ha, if_false, this]

theorem pixel_at_eq_byte_at (mem : Mem) (buffer r c : Nat) :
    pixel_at mem buffer r c = byte_at mem buffer (r * 240 + c) := by
  unfold pixel_at byte_at
  have : (r * 240 + c) % 2 = c % 2 := by omega
  rw [this]

/-! ## Pixel surface -/

/-- C1: for every memory content, every buffer, every row in [0,160), column in
[0,240) and colour in [0,255], after `put_pixel` the pixel (row, col) reads the
colour (it is the low byte of halfword `(row*240+col)/2` for an even column, the
high byte for an odd one) and every other pixel of the 240x160 grid, the one
sharing the halfword included, reads what it read before. -/
theorem C1_put_pixel_writes_exactly_one_pixel (mem : Mem) (buffer row col c : Nat)
    (hrow : row < 160) (hcol : col < 240) (hc : c ≤ 255) :
    pixel_at (put_pixel mem buffer row col c) buffer row col = c ∧
    (col % 2 = 0 →
      load (put_pixel mem buffer row col c) (buffer + 2 * ((row * 240 + col) / 2)) % 256 = c) ∧
    (col % 2 = 1 →
      load (put_pixel mem buffer row col c) (buffer + 2 * ((row * 240 + col) / 2)) / 256 = c) ∧
    ∀ r' c', r' < 160 → c' < 240 → (r', c') ≠ (row, col) →
      pixel_at (put_pixel mem buffer row col c) buffer r' c' = pixel_at mem buffer r' c' := by
  have key : ∀ r' c', r' < 160 → c' < 240 →
      pixel_at (put_pixel mem buffer row col c) buffer r' c' =
        if (r', c') = (row, col) then c else pixel_at mem buffer r' c' := by
    intro r' c' hr' hc'
    rw [pixel_at_eq_byte_at, pixel_at_eq_byte_at]
    have h := put_pixel_byte mem buffer 0 row col c (r' * 240 + c')
    simp only [Nat.mul_zero, Nat.add_zero, Nat.zero_add] at h
    rw [h]
    have hcm : c % 256 = c := by omega
    have hm : ((row : Int) * 240 + col) % 131072 = (row : Int) * 240 + col :=
      Int.emod_eq_of_lt (by omega) (by omega)
    rw [hm]
    by_cases hp : (r', c') = (row, col)
    · have h1 : r' = row := congrArg Prod.fst hp
      have h2 : c' = col := congrArg Prod.snd hp
      have : r' * 240 + c' = ((row : Int) * 240 + col).toNat := by omega
      simp [hp, ← this, hcm]
    · have : ¬ (r' * 240 + c' = ((row : Int) * 240 + col).toNat) := by
        intro he
        apply hp
        have : r' = row ∧ c' = col := by omega
        rw [this.1, this.2]
      simp [hp, this]
  have h0 := key row col hrow hcol
  simp only [if_true] at h0
  refine ⟨h0, ?_, ?_, ?_⟩
  · intro he
    simpa [pixel_at, he] using h0
  · intro ho
    have : ¬ (col % 2 = 0) := by omega
    simpa [pixel_at, this] using h0
  · intro r' c' hr' hc' hne
    rw [key r' c' hr' hc']
    simp [hne]

/-- C1 at a concrete input: pixel (1, 1) of the front buffer, an odd column. -/
theorem C1_put_pixel_witness :
    (1 < 160 ∧ 1 < 240 ∧ 7 ≤ 255) ∧
    pixel_at (put_pixel (fun _ => 513) front_buffer 1 1 7) front_buffer 1 1 = 7 ∧
    pixel_at (put_pixel (fun _ => 513) front_buffer 1 1 7) front_buffer 1 0 =
      pixel_at (fun _ => 513) front_buffer 1 0 :=
  ⟨by decide,
   (C1_put_pixel_writes_exactly_one_pixel (fun _ => 513) front_buffer 1 1 7
      (by decide) (by decide) (by decide)).1,
   (C1_put_pixel_writes_exactly_one_pixel (fun _ => 513) front_buffer 1 1 7
      (by decide) (by decide) (by decide)).2.2.2 1 0 (by decide) (by decide) (by decide)⟩

/-! ## Ball dynamics: one tick -/

theorem to_int_of_is_int {n : Int} (h : is_int n) : to_int n = n := by
  unfold is_int at h
  unfold to_int
  omega

theorem to_int_range (n : Int) : is_int (to_int n) := by
  unfold is_int to_int
  omega

theorem to_ushort_to_int (n : Int) : to_ushort (to_int n) = to_ushort n := by
  unfold to_ushort to_int
  congr 1
  omega

theorem to_short_to_int (n : Int) : to_short (to_int n) = to_short n := by
  unfold to_short to_int
  omega

/-- Ball after the move, the wall check and the two scoring checks. -/
theorem ball_after_scoring (b : ball) (sc : scores) :
    (ball_score_player (ball_score_ai (ball_wall (ball_move b)) sc).1
        (ball_score_ai (ball_wall (ball_move b)) sc).2) =
      (⟨next_x b, next_y b, b.size, b.dx,
          if to_int (b.y + b.dy) ≤ 0 ∨ to_int (b.y + b.dy) ≥ 160 then to_int (-b.dy) else b.dy,
          b.color⟩,
        ⟨sc.player_score + (if to_int (b.x + b.dx) ≥ 240 then 1 else 0),
          sc.ai_score + (if to_int (b.x + b.dx) ≤ 0 then 1 else 0)⟩) := by
  by_cases hw : to_int (b.y + b.dy) ≤ 0 ∨ to_int (b.y + b.dy) ≥ 160 <;>
  by_cases h0 : to_int (b.x + b.dx) ≤ 0 <;>
  by_cases h1 : to_int (b.x + b.dx) ≥ 240 <;>
  simp [ball_score_player, ball_score_ai, ball_wall, ball_move, next_x, next_y, WIDTH, HEIGHT,
    hw, h0, h1] <;> omega

theorem ball_hit_player_eq (b : ball) (p : paddle) :
    ball_hit_player b p =
      if in_paddle_rect b.x b.y p then { b with dx := to_int (-b.dx) } else b := by
  unfold ball_hit_player in_paddle_rect
  refine if_congr ?_ rfl rfl
  constructor <;> intro h <;> refine ⟨?_, ?_, ?_, ?_⟩ <;> omega

theorem ball_hit_ai_eq (b : ball) (p : paddle) :
    ball_hit_ai b p =
      if ai_paddle_test b.x b.y b.size p then { b with dx := to_int (-b.dx) } else b := by
  unfold ball_hit_ai ai_paddle_test
  refine if_congr ?_ rfl rfl
  constructor <;> intro h <;> refine ⟨?_, ?_, ?_, ?_⟩ <;> omega

/-- Result of one `update_ball` call, field by field, as the program computes
it. -/
theorem update_ball_wrap (b : ball) (player ai_paddle : paddle) (sc : scores) :
    update_ball b player ai_paddle sc =
      (⟨next_x b, next_y b, b.size,
          (if ai_paddle_test (next_x b) (next_y b) b.size ai_paddle then
            to_int (-(if in_paddle_rect (next_x b) (next_y b) player then to_int (-b.dx)
              else b.dx))
           else (if in_paddle_rect (next_x b) (next_y b) player then to_int (-b.dx) else b.dx)),
          if to_int (b.y + b.dy) ≤ 0 ∨ to_int (b.y + b.dy) ≥ 160 then to_int (-b.dy) else b.dy,
          b.color⟩,
        ⟨sc.player_score + (if to_int (b.x + b.dx) ≥ 240 then 1 else 0),
          sc.ai_score + (if to_int (b.x + b.dx) ≤ 0 then 1 else 0)⟩) := by
  unfold update_ball
  simp only [ball_after_scoring, ball_hit_player_eq, ball_hit_ai_eq]
  by_cases hp : in_paddle_rect (next_x b) (next_y b) player <;>
  by_cases ha : ai_paddle_test (next_x b) (next_y b) b.size ai_paddle <;>
  simp [hp, ha]

theorem next_x_eq (b : ball) (hx : is_int (b.x + b.dx)) : next_x b = moved_x b := by
  unfold next_x moved_x
  rw [to_int_of_is_int hx]

theorem next_y_eq (b : ball) (hx : is_int (b.x + b.dx)) (hy : is_int (b.y + b.dy)) :
    next_y b = moved_y b := by
  unfold next_y moved_y
  rw [to_int_of_is_int hx, to_int_of_is_int hy]

theorem ai_paddle_test_iff (x y size : Int) (p : paddle) (hs : is_int (x + size)) :
    ai_paddle_test x y size p ↔ ai_paddle_hit x y size p := by
  unfold ai_paddle_test ai_paddle_hit
  rw [to_int_of_is_int hs]

/-- Result of one `update_ball` call in which no `int` operation overflows,
field by field, in exact arithmetic. -/
theorem update_ball_eq (b : ball) (player ai_paddle : paddle) (sc : scores)
    (hx : is_int (b.x + b.dx)) (hy : is_int (b.y + b.dy))
    (hs : is_int (moved_x b + b.size)) (hd : is_int b.dx) (hdx : is_int (-b.dx))
    (hdy : is_int (-b.dy)) :
    update_ball b player ai_paddle sc =
      (⟨moved_x b, moved_y b, b.size,
          (if ai_paddle_hit (moved_x b) (moved_y b) b.size ai_paddle then
            -(if in_paddle_rect (moved_x b) (moved_y b) player then -b.dx else b.dx)
           else (if in_paddle_rect (moved_x b) (moved_y b) player then -b.dx else b.dx)),
          if b.y + b.dy ≤ 0 ∨ b.y + b.dy ≥ 160 then -b.dy else b.dy, b.color⟩,
        ⟨sc.player_score + (if b.x + b.dx ≥ 240 then 1 else 0),
          sc.ai_score + (if b.x + b.dx ≤ 0 then 1 else 0)⟩) := by
  have hdd : to_int (- -b.dx) = - -b.dx := to_int_of_is_int (by rw [neg_neg]; exact hd)
  rw [update_ball_wrap, next_x_eq b hx, next_y_eq b hx hy, to_int_of_is_int hx,
    to_int_of_is_int hy, to_int_of_is_int hdx, to_int_of_is_int hdy]
  by_cases hp : in_paddle_rect (moved_x b) (moved_y b) player <;>
  by_cases ha : ai_paddle_hit (moved_x b) (moved_y b) b.size ai_paddle <;>
  simp [hp, ha, ai_paddle_test_iff _ _ _ _ hs, hdd, to_int_of_is_int hdx, to_int_of_is_int hd]

/-- Result of one `update_ball` call on a ball of the frame loop of `main`: the
values are small and no `int` operation overflows. -/
theorem update_ball_in_frame (b : ball) (player ai_paddle : paddle) (sc : scores)
    (hx : 1 ≤ b.x ∧ b.x ≤ 239) (hy : 0 ≤ b.y ∧ b.y ≤ 160)
    (hdx : b.dx = 1 ∨ b.dx = -1) (hdy : b.dy = 1 ∨ b.dy = -1) (hs : b.size = 5) :
    update_ball b player ai_paddle sc =
      (⟨moved_x b, moved_y b, b.size,
          (if ai_paddle_hit (moved_x b) (moved_y b) b.size ai_paddle then
            -(if in_paddle_rect (moved_x b) (moved_y b) player then -b.dx else b.dx)
           else (if in_paddle_rect (moved_x b) (moved_y b) player then -b.dx else b.dx)),
          if b.y + b.dy ≤ 0 ∨ b.y + b.dy ≥ 160 then -b.dy else b.dy, b.color⟩,
        ⟨sc.player_score + (if b.x + b.dx ≥ 240 then 1 else 0),
          sc.ai_score + (if b.x + b.dx ≤ 0 then 1 else 0)⟩) := by
  apply update_ball_eq
  · unfold is_int; omega
  · unfold is_int; omega
  · unfold is_int moved_x; split_ifs <;> omega
  · unfold is_int; omega
  · unfold is_int; omega
  · unfold is_int; omega

theorem moved_x_range (b : ball) : 1 ≤ moved_x b ∧ moved_x b ≤ 239 := by
  unfold moved_x
  split_ifs <;> omega

/-- The AI-paddle test of the program fails wherever the test in exact
arithmetic fails at a point with `1 <= x <= 239` for a ball whose size is an
`int` value: a sum `x + size` below `ai.x` is then representable. -/
theorem ai_paddle_test_of_hit (x y size : Int) (p : paddle) (hx : 1 ≤ x ∧ x ≤ 239)
    (hs : is_int size) (h : ai_paddle_test x y size p) : ai_paddle_hit x y size p := by
  unfold ai_paddle_test at h
  unfold ai_paddle_hit
  unfold is_int at hs
  refine ⟨?_, h.2.1, h.2.2.1, h.2.2.2⟩
  have h1 := h.1
  unfold to_int at h1
  omega

/-- C5, as stated, fails: the claim speaks of every ball state and of the sums
`y + dy`, but the program computes in 32-bit `int`.  For the ball
`y = -2147483648`, `dy = -2147483647` the sum `y + dy` is `<= 0`, so the claim
has `dy` negated, while the program's moved ordinate is 1 and it keeps `dy`.
For `y = 0`, `dy = -2147483648` the moved ordinate is `<= 0` and the program
executes `dy = -dy`, whose 32-bit result is again `-2147483648`, not `-dy`. -/
theorem C5_counterexample_int_overflow :
    ¬ (((-2147483648 : Int) + (-2147483647) ≤ 0 ∨ (-2147483648 : Int) + (-2147483647) ≥ 160) →
        (update_ball ⟨100, -2147483648, 5, 1, -2147483647, 2⟩ ⟨20, 60, 5, 25, 0⟩
          ⟨225, 10, 5, 30, 1⟩ ⟨0, 0⟩).1.dy = -(-2147483647)) ∧
    (update_ball ⟨100, -2147483648, 5, 1, -2147483647, 2⟩ ⟨20, 60, 5, 25, 0⟩
      ⟨225, 10, 5, 30, 1⟩ ⟨0, 0⟩).1 = ⟨101, 1, 5, 1, -2147483647, 2⟩ ∧
    ¬ (((0 : Int) + (-2147483648) ≤ 0 ∨ (0 : Int) + (-2147483648) ≥ 160) →
        (update_ball ⟨100, 0, 5, 1, -2147483648, 2⟩ ⟨20, 60, 5, 25, 0⟩
          ⟨225, 10, 5, 30, 1⟩ ⟨0, 0⟩).1.dy = -(-2147483648)) ∧
    (update_ball ⟨100, 0, 5, 1, -2147483648, 2⟩ ⟨20, 60, 5, 25, 0⟩
      ⟨225, 10, 5, 30, 1⟩ ⟨0, 0⟩).1 = ⟨101, -2147483648, 5, 1, -2147483648, 2⟩ := by
  decide

/-- C5, amended: for every ball state in which `y + dy` and `-dy` are
representable as `int`, and any paddles, `update_ball` negates `dy` exactly once
when the moved ordinate `y + dy` is `<= 0` or `>= 160` and leaves it unchanged
otherwise; the position is not clamped: the new `y` is `y + dy` or the reset
value 80, it is `y + dy` when `0 < x + dx < 240`, and 80 otherwise (for a
representable `x + dx`).  At `y = 0`, `dy = -1` one tick gives `dy = 1`. -/
theorem C5_wall_rule_negates_dy_once (b : ball) (player ai_paddle : paddle) (sc : scores)
    (hy : is_int (b.y + b.dy)) (hdy : is_int (-b.dy)) :
    ((b.y + b.dy ≤ 0 ∨ b.y + b.dy ≥ 160) →
      (update_ball b player ai_paddle sc).1.dy = -b.dy) ∧
    (¬ (b.y + b.dy ≤ 0 ∨ b.y + b.dy ≥ 160) →
      (update_ball b player ai_paddle sc).1.dy = b.dy) ∧
    ((0 < b.x + b.dx ∧ b.x + b.dx < 240) →
      (update_ball b player ai_paddle sc).1.y = b.y + b.dy) ∧
    (is_int (b.x + b.dx) → ¬ (0 < b.x + b.dx ∧ b.x + b.dx < 240) →
      (update_ball b player ai_paddle sc).1.y = 80) ∧
    ((update_ball b player ai_paddle sc).1.y = b.y + b.dy ∨
      (update_ball b player ai_paddle sc).1.y = 80) ∧
    (b.y = 0 → b.dy = -1 → (update_ball b player ai_paddle sc).1.dy = 1) := by
  rw [update_ball_wrap, to_int_of_is_int hy, to_int_of_is_int hdy]
  have hny : next_y b = if to_int (b.x + b.dx) ≤ 0 ∨ to_int (b.x + b.dx) ≥ 240 then 80
      else b.y + b.dy := by
    unfold next_y
    rw [to_int_of_is_int hy]
  refine ⟨?_, ?_, ?_, ?_, ?_, ?_⟩
  · intro h; simp [h]
  · intro h; simp [h]
  · intro h
    have hx : is_int (b.x + b.dx) := by unfold is_int; omega
    have : ¬ (b.x + b.dx ≤ 0 ∨ b.x + b.dx ≥ 240) := by omega
    show next_y b = _
    rw [hny, to_int_of_is_int hx, if_neg this]
  · intro hx h
    have : b.x + b.dx ≤ 0 ∨ b.x + b.dx ≥ 240 := by omega
    show next_y b = _
    rw [hny, to_int_of_is_int hx, if_pos this]
  · show next_y b = _ ∨ next_y b = _
    rw [hny]
    split_ifs
    · exact Or.inr rfl
    · exact Or.inl rfl
  · intro hy hd
    simp [hy, hd]

/-- C5 at the specification's test input: a ball at `y = 0` with `dy = -1`. -/
theorem C5_wall_rule_witness :
    (is_int ((0 : Int) + (-1)) ∧ is_int (-(-1 : Int))) ∧
    (update_ball ⟨100, 0, 5, 1, -1, 2⟩ ⟨20, 60, 5, 25, 0⟩ ⟨225, 10, 5, 30, 1⟩ ⟨0, 0⟩).1.dy = 1 ∧
    (update_ball ⟨100, 0, 5, 1, -1, 2⟩ ⟨20, 60, 5, 25, 0⟩ ⟨225, 10, 5, 30, 1⟩ ⟨0, 0⟩).1.y
      = 0 + (-1) :=
  ⟨by decide,
   (C5_wall_rule_negates_dy_once ⟨100, 0, 5, 1, -1, 2⟩ ⟨20, 60, 5, 25, 0⟩ ⟨225, 10, 5, 30, 1⟩
      ⟨0, 0⟩ (by decide) (by decide)).2.2.2.2.2 rfl rfl,
   (C5_wall_rule_negates_dy_once ⟨100, 0, 5, 1, -1, 2⟩ ⟨20, 60, 5, 25, 0⟩ ⟨225, 10, 5, 30, 1⟩
      ⟨0, 0⟩ (by decide) (by decide)).2.2.1 (by decide)⟩

/-- C6, as stated, fails: the claim speaks of every ball state with
`x + dx >= 240`, but the program computes the move in 32-bit `int`.  For the
ball `x = 2147483647`, `dx = 1`, with the geometry of `main`, the sum is
`>= 240`, so the claim gives the point to the player; the program's moved
abscissa is `-2147483648`, and it gives the point to the AI. -/
theorem C6_counterexample_int_overflow :
    ((20 : Nat) = 20 ∧ (5 : Nat) = 5 ∧ (225 : Nat) = 225 ∧ (5 : Int) = 5) ∧
    ¬ ((2147483647 : Int) + 1 ≥ 240 →
        (update_ball ⟨2147483647, 50, 5, 1, 1, 2⟩ ⟨20, 60, 5, 25, 0⟩ ⟨225, 10, 5, 30, 1⟩
          ⟨0, 0⟩).2.player_score = 0 + 1 ∧
        (update_ball ⟨2147483647, 50, 5, 1, 1, 2⟩ ⟨20, 60, 5, 25, 0⟩ ⟨225, 10, 5, 30, 1⟩
          ⟨0, 0⟩).2.ai_score = 0) ∧
    (update_ball ⟨2147483647, 50, 5, 1, 1, 2⟩ ⟨20, 60, 5, 25, 0⟩ ⟨225, 10, 5, 30, 1⟩
      ⟨0, 0⟩).2 = ⟨0, 1⟩ := by
  decide

/-- C6, amended: with the geometry `main` creates (player paddle x = 20 width 5,
AI paddle x = 225 width 5, ball size 5), for every ball state in which `x + dx`
is representable as `int` and both scores are below the `int` maximum, a ball
with `x + dx <= 0` gives the AI exactly one point, leaves the player's score,
puts the ball at (120, 80), keeps `dx`, and changes `dy` by the wall rule only
(`dy` is unchanged when `0 < y + dy < 160`, and is the wall rule's value
whenever `y + dy` and `-dy` are representable); a ball with `x + dx >= 240` does
the same for the player's score; the new scores are representable.  At
`x = -1`, `dx = -1`: AI score + 1, ball at the centre, `dx` still -1. -/
theorem C6_scoring_resets_to_centre_keeping_dx (b : ball) (player ai_paddle : paddle)
    (sc : scores) (hpx : player.x = 20) (hpw : player.width = 5) (hax : ai_paddle.x = 225)
    (haw : ai_paddle.width = 5) (hs : b.size = 5) (hx : is_int (b.x + b.dx))
    (hsp : sc.player_score < 2147483647) (hsa : sc.ai_score < 2147483647) :
    (b.x + b.dx ≤ 0 →
      (update_ball b player ai_paddle sc).2.ai_score = sc.ai_score + 1 ∧
      (update_ball b player ai_paddle sc).2.player_score = sc.player_score ∧
      (update_ball b player ai_paddle sc).1.x = 120 ∧
      (update_ball b player ai_paddle sc).1.y = 80 ∧
      (update_ball b player ai_paddle sc).1.dx = b.dx ∧
      (is_int (b.y + b.dy) → is_int (-b.dy) →
        (update_ball b player ai_paddle sc).1.dy =
          (if b.y + b.dy ≤ 0 ∨ b.y + b.dy ≥ 160 then -b.dy else b.dy)) ∧
      ((0 < b.y + b.dy ∧ b.y + b.dy < 160) →
        (update_ball b player ai_paddle sc).1.dy = b.dy)) ∧
    (b.x + b.dx ≥ 240 →
      (update_ball b player ai_paddle sc).2.player_score = sc.player_score + 1 ∧
      (update_ball b player ai_paddle sc).2.ai_score = sc.ai_score ∧
      (update_ball b player ai_paddle sc).1.x = 120 ∧
      (update_ball b player ai_paddle sc).1.y = 80 ∧
      (update_ball b player ai_paddle sc).1.dx = b.dx ∧
      (is_int (b.y + b.dy) → is_int (-b.dy) →
        (update_ball b player ai_paddle sc).1.dy =
          (if b.y + b.dy ≤ 0 ∨ b.y + b.dy ≥ 160 then -b.dy else b.dy)) ∧
      ((0 < b.y + b.dy ∧ b.y + b.dy < 160) →
        (update_ball b player ai_paddle sc).1.dy = b.dy)) ∧
    (b.x = -1 → b.dx = -1 →
      (update_ball b player ai_paddle sc).2.ai_score = sc.ai_score + 1 ∧
      (update_ball b player ai_paddle sc).1.x = 120 ∧
      (update_ball b player ai_paddle sc).1.y = 80 ∧
      (update_ball b player ai_paddle sc).1.dx = -1) ∧
    (update_ball b player ai_paddle sc).2.player_score ≤ 2147483647 ∧
    (update_ball b player ai_paddle sc).2.ai_score ≤ 2147483647 := by
  rw [update_ball_wrap]
  have hX : to_int (b.x + b.dx) = b.x + b.dx := to_int_of_is_int hx
  have reset : (b.x + b.dx ≤ 0 ∨ b.x + b.dx ≥ 240) →
      next_x b = 120 ∧ next_y b = 80 ∧
      ¬ in_paddle_rect (next_x b) (next_y b) player ∧
      ¬ ai_paddle_test (next_x b) (next_y b) b.size ai_paddle := by
    intro h
    have hx : next_x b = 120 := by simp [next_x, hX, h]
    have hy : next_y b = 80 := by simp [next_y, hX, h]
    refine ⟨hx, hy, ?_, ?_⟩
    · rw [hx, hy]; unfold in_paddle_rect; rw [hpx, hpw]; omega
    · rw [hx, hy]; unfold ai_paddle_test; rw [hax, haw, hs]
      have : to_int (120 + 5) = 125 := by decide
      rw [this]; omega
  have hdy1 : is_int (b.y + b.dy) → is_int (-b.dy) →
      (if to_int (b.y + b.dy) ≤ 0 ∨ to_int (b.y + b.dy) ≥ 160 then to_int (-b.dy) else b.dy) =
        (if b.y + b.dy ≤ 0 ∨ b.y + b.dy ≥ 160 then -b.dy else b.dy) := by
    intro h1 h2
    rw [to_int_of_is_int h1, to_int_of_is_int h2]
  have hdy2 : (0 < b.y + b.dy ∧ b.y + b.dy < 160) →
      (if to_int (b.y + b.dy) ≤ 0 ∨ to_int (b.y + b.dy) ≥ 160 then to_int (-b.dy) else b.dy) =
        b.dy := by
    intro h
    have h1 : is_int (b.y + b.dy) := by unfold is_int; omega
    rw [to_int_of_is_int h1]
    have : ¬ (b.y + b.dy ≤ 0 ∨ b.y + b.dy ≥ 160) := by omega
    rw [if_neg this]
  rw [hX]
  refine ⟨?_, ?_, ?_, ?_, ?_⟩
  · intro h
    obtain ⟨hx, hy, hp, ha⟩ := reset (Or.inl h)
    rw [hx, hy] at hp ha
    have h' : ¬ (b.x + b.dx ≥ 240) := by omega
    simp only [hp, ha, if_false, h, h', if_true, hx, hy, add_zero, true_and]
    exact ⟨hdy1, hdy2⟩
  · intro h
    obtain ⟨hx, hy, hp, ha⟩ := reset (Or.inr h)
    rw [hx, hy] at hp ha
    have h' : ¬ (b.x + b.dx ≤ 0) := by omega
    simp only [hp, ha, if_false, h, h', if_true, hx, hy, add_zero, true_and]
    exact ⟨hdy1, hdy2⟩
  · intro h1 h2
    have h : b.x + b.dx ≤ 0 := by omega
    obtain ⟨hx, hy, hp, ha⟩ := reset (Or.inl h)
    rw [hx, hy] at hp ha
    simp only [hp, ha, if_false, h, if_true, hx, hy, true_and]
    exact h2
  · show sc.player_score + (if b.x + b.dx ≥ 240 then 1 else 0) ≤ 2147483647
    split_ifs <;> omega
  · show sc.ai_score + (if b.x + b.dx ≤ 0 then 1 else 0) ≤ 2147483647
    split_ifs <;> omega

/-- C6 at the specification's test input: ball at `x = -1`, `dx = -1`, paddles as
`main` creates them. -/
theorem C6_scoring_witness :
    ((20 : Nat) = 20 ∧ (5 : Nat) = 5 ∧ (225 : Nat) = 225 ∧ (5 : Int) = 5) ∧
    (is_int ((-1 : Int) + (-1)) ∧ (0 : Int) < 2147483647) ∧
    (update_ball ⟨-1, 50, 5, -1, 1, 2⟩ ⟨20, 60, 5, 25, 0⟩ ⟨225, 10, 5, 30, 1⟩ ⟨0, 0⟩).2.ai_score
      = 0 + 1 ∧
    (update_ball ⟨-1, 50, 5, -1, 1, 2⟩ ⟨20, 60, 5, 25, 0⟩ ⟨225, 10, 5, 30, 1⟩ ⟨0, 0⟩).1.x = 120 ∧
    (update_ball ⟨-1, 50, 5, -1, 1, 2⟩ ⟨20, 60, 5, 25, 0⟩ ⟨225, 10, 5, 30, 1⟩ ⟨0, 0⟩).1.y = 80 ∧
    (update_ball ⟨-1, 50, 5, -1, 1, 2⟩ ⟨20, 60, 5, 25, 0⟩ ⟨225, 10, 5, 30, 1⟩ ⟨0, 0⟩).1.dx = -1 :=
  ⟨⟨rfl, rfl, rfl, rfl⟩, by decide,
   (C6_scoring_resets_to_centre_keeping_dx ⟨-1, 50, 5, -1, 1, 2⟩ ⟨20, 60, 5, 25, 0⟩
      ⟨225, 10, 5, 30, 1⟩ ⟨0, 0⟩ rfl rfl rfl rfl rfl (by decide) (by decide)
      (by decide)).2.2.1 rfl rfl⟩

/-- C7, as stated, fails: the claim speaks of every ball, but the program
computes in 32-bit `int`.  For the ball `x = -2147483648`, `dx = -2147483626`,
`y = 69`, `dy = 1` and the paddles of `main`, the sum `x + dx` is `<= 0`, so in
the claim's arithmetic the ball is reset to (120, 80), outside both paddles, and
keeps `dx`; the program's moved point is (22, 70), inside the player paddle, and
it negates `dx`.  For the ball `x = -2147483626`, `dx = -2147483648` the
program's moved point is again (22, 70), inside the player paddle and missed by
the AI test, and it executes `dx = -dx`, whose 32-bit result is again
`-2147483648`, not `-dx`. -/
theorem C7_counterexample_int_overflow :
    (¬ ai_paddle_hit (moved_x ⟨-2147483648, 69, 5, -2147483626, 1, 2⟩)
        (moved_y ⟨-2147483648, 69, 5, -2147483626, 1, 2⟩) 5 ⟨225, 10, 5, 30, 1⟩ ∧
      ¬ (¬ in_paddle_rect (moved_x ⟨-2147483648, 69, 5, -2147483626, 1, 2⟩)
            (moved_y ⟨-2147483648, 69, 5, -2147483626, 1, 2⟩) ⟨20, 60, 5, 25, 0⟩ →
          (update_ball ⟨-2147483648, 69, 5, -2147483626, 1, 2⟩ ⟨20, 60, 5, 25, 0⟩
            ⟨225, 10, 5, 30, 1⟩ ⟨0, 0⟩).1.dx = -2147483626)) ∧
    (update_ball ⟨-2147483648, 69, 5, -2147483626, 1, 2⟩ ⟨20, 60, 5, 25, 0⟩
      ⟨225, 10, 5, 30, 1⟩ ⟨0, 0⟩).1 = ⟨22, 70, 5, 2147483626, 1, 2⟩ ∧
    (update_ball ⟨-2147483626, 69, 5, -2147483648, 1, 2⟩ ⟨20, 60, 5, 25, 0⟩
      ⟨225, 10, 5, 30, 1⟩ ⟨0, 0⟩).1 = ⟨22, 70, 5, -2147483648, 1, 2⟩ ∧
    (¬ ai_paddle_hit 22 70 5 ⟨225, 10, 5, 30, 1⟩ ∧
      ¬ (in_paddle_rect 22 70 ⟨20, 60, 5, 25, 0⟩ →
          (update_ball ⟨-2147483626, 69, 5, -2147483648, 1, 2⟩ ⟨20, 60, 5, 25, 0⟩
            ⟨225, 10, 5, 30, 1⟩ ⟨0, 0⟩).1.dx = -(-2147483648))) := by
  decide

/-- C7, amended: for every ball in which `x + dx`, `y + dy` and `-dx` are
representable as `int` (and `size` is an `int` value): when the AI-paddle test
is false at the ball's position after the move and any scoring reset,
`update_ball` negates `dx` if the ball's reference point lies in the player's
closed rectangle and keeps `dx` if it does not; the size plays no part, so a
size-5 ball with `x < player.x <= x + size` keeps its `dx`; and there is no
debounce: along any run in which, at every tick, these values are representable
and the point lies in the rectangle (and misses the AI paddle), `dx` is negated
at every tick. -/
theorem C7_player_paddle_tests_reference_point (b : ball) (player ai_paddle : paddle)
    (sc : scores) (hx : is_int (b.x + b.dx)) (hy : is_int (b.y + b.dy))
    (hdx : is_int (-b.dx)) (hsz : is_int b.size)
    (hai : ¬ ai_paddle_hit (moved_x b) (moved_y b) b.size ai_paddle) :
    ((update_ball b player ai_paddle sc).1.x = moved_x b ∧
      (update_ball b player ai_paddle sc).1.y = moved_y b) ∧
    (in_paddle_rect (moved_x b) (moved_y b) player →
      (update_ball b player ai_paddle sc).1.dx = -b.dx) ∧
    (¬ in_paddle_rect (moved_x b) (moved_y b) player →
      (update_ball b player ai_paddle sc).1.dx = b.dx) ∧
    (b.size = 5 → moved_x b < player.x → (player.x : Int) ≤ moved_x b + b.size →
      (update_ball b player ai_paddle sc).1.dx = b.dx) ∧
    (∀ (pl ai : Nat → paddle) (n : Nat),
      (∀ k, k < n →
        is_int ((ball_run pl ai b sc k).1.x + (ball_run pl ai b sc k).1.dx) ∧
        is_int ((ball_run pl ai b sc k).1.y + (ball_run pl ai b sc k).1.dy) ∧
        is_int (-(ball_run pl ai b sc k).1.dx) ∧
        is_int (ball_run pl ai b sc k).1.size ∧
        in_paddle_rect (moved_x (ball_run pl ai b sc k).1) (moved_y (ball_run pl ai b sc k).1)
          (pl k) ∧
        ¬ ai_paddle_hit (moved_x (ball_run pl ai b sc k).1) (moved_y (ball_run pl ai b sc k).1)
          (ball_run pl ai b sc k).1.size (ai k)) →
      ∀ k, k < n → (ball_run pl ai b sc (k + 1)).1.dx = -(ball_run pl ai b sc k).1.dx) := by
  have key : ∀ (b : ball) (player ai_paddle : paddle) (sc : scores),
      is_int (b.x + b.dx) → is_int (b.y + b.dy) → is_int (-b.dx) → is_int b.size →
      ¬ ai_paddle_hit (moved_x b) (moved_y b) b.size ai_paddle →
      (update_ball b player ai_paddle sc).1.x = moved_x b ∧
      (update_ball b player ai_paddle sc).1.y = moved_y b ∧
      (update_ball b player ai_paddle sc).1.dx =
        if in_paddle_rect (moved_x b) (moved_y b) player then -b.dx else b.dx := by
    intro b player ai_paddle sc hx hy hdx hsz hai
    have hai' : ¬ ai_paddle_test (moved_x b) (moved_y b) b.size ai_paddle :=
      fun h => hai (ai_paddle_test_of_hit _ _ _ _ (moved_x_range b) hsz h)
    rw [update_ball_wrap, next_x_eq b hx, next_y_eq b hx hy, to_int_of_is_int hdx]
    simp only [hai', if_false]
    exact ⟨trivial, trivial, trivial⟩
  obtain ⟨k1, k2, k3⟩ := key b player ai_paddle sc hx hy hdx hsz hai
  refine ⟨⟨k1, k2⟩, ?_, ?_, ?_, ?_⟩
  · intro h; rw [k3, if_pos h]
  · intro h; rw [k3, if_neg h]
  · intro _ hlt _
    have h : ¬ in_paddle_rect (moved_x b) (moved_y b) player := by
      unfold in_paddle_rect; omega
    rw [k3, if_neg h]
  · intro pl ai n hall k hk
    obtain ⟨h1, h2, h3, h4, hin, hmiss⟩ := hall k hk
    show (update_ball _ _ _ _).1.dx = _
    rw [(key _ (pl k) (ai k) _ h1 h2 h3 h4 hmiss).2.2, if_pos hin]

/-- C7 at a concrete input: a ball moving to the point (23, 71), inside the
player paddle `main` creates, has `dx` negated. -/
theorem C7_player_paddle_witness :
    (is_int ((22 : Int) + 1) ∧ is_int ((70 : Int) + 1) ∧ is_int (-(1 : Int)) ∧
      is_int (5 : Int)) ∧
    ¬ ai_paddle_hit (moved_x ⟨22, 70, 5, 1, 1, 2⟩) (moved_y ⟨22, 70, 5, 1, 1, 2⟩) 5
        ⟨225, 10, 5, 30, 1⟩ ∧
    in_paddle_rect (moved_x ⟨22, 70, 5, 1, 1, 2⟩) (moved_y ⟨22, 70, 5, 1, 1, 2⟩)
        ⟨20, 60, 5, 25, 0⟩ ∧
    (update_ball ⟨22, 70, 5, 1, 1, 2⟩ ⟨20, 60, 5, 25, 0⟩ ⟨225, 10, 5, 30, 1⟩ ⟨0, 0⟩).1.dx = -1 :=
  ⟨by decide, by decide, by decide,
   (C7_player_paddle_tests_reference_point ⟨22, 70, 5, 1, 1, 2⟩ ⟨20, 60, 5, 25, 0⟩
      ⟨225, 10, 5, 30, 1⟩ ⟨0, 0⟩ (by decide) (by decide) (by decide) (by decide)
      (by decide)).2.1 (by decide)⟩

/-- C8, as stated, fails: the claim speaks of every ball and of the sum
`x + size`, but the program computes in 32-bit `int`.  For the ball `x = 199`,
`y = 19`, `size = 2147483647`, `dx = dy = 1` and the paddles of `main`, the
moved point (200, 20) misses the player paddle and satisfies the claim's test
(`x + size >= 225`, `x <= 230`, `10 <= y <= 40`), so the claim has `dx` negated;
the program's `x + size` is negative and it keeps `dx`. -/
theorem C8_counterexample_int_overflow :
    ¬ in_paddle_rect (moved_x ⟨199, 19, 2147483647, 1, 1, 2⟩)
        (moved_y ⟨199, 19, 2147483647, 1, 1, 2⟩) ⟨20, 60, 5, 25, 0⟩ ∧
    ¬ ((moved_x ⟨199, 19, 2147483647, 1, 1, 2⟩ + 2147483647 ≥ ((225 : Nat) : Int) ∧
          moved_x ⟨199, 19, 2147483647, 1, 1, 2⟩ ≤ ((225 : Nat) : Int) + (5 : Nat) ∧
          ((10 : Nat) : Int) ≤ moved_y ⟨199, 19, 2147483647, 1, 1, 2⟩ ∧
          moved_y ⟨199, 19, 2147483647, 1, 1, 2⟩ ≤ ((10 : Nat) : Int) + (30 : Nat)) →
        (update_ball ⟨199, 19, 2147483647, 1, 1, 2⟩ ⟨20, 60, 5, 25, 0⟩ ⟨225, 10, 5, 30, 1⟩
          ⟨0, 0⟩).1.dx = -1) ∧
    (update_ball ⟨199, 19, 2147483647, 1, 1, 2⟩ ⟨20, 60, 5, 25, 0⟩ ⟨225, 10, 5, 30, 1⟩
      ⟨0, 0⟩).1 = ⟨200, 20, 2147483647, 1, 1, 2⟩ := by
  decide

/-- C8, amended: for every ball in which `x + dx`, `y + dy`, `-dx` and `x + size`
at the new position are representable as `int`: when the player-paddle test is
false at the ball's position after the move and any scoring reset,
`update_ball` negates `dx` if `x + size >= ai.x`, `x <= ai.x + ai.width` and
`ai.y <= y <= ai.y + ai.height`, and keeps `dx` otherwise; so a ball with
`x < ai.x <= x + size` whose `y` is in range bounces, while the size is not
added on the right-hand or vertical tests. -/
theorem C8_ai_paddle_adds_size_on_leading_edge (b : ball) (player ai_paddle : paddle)
    (sc : scores) (hx : is_int (b.x + b.dx)) (hy : is_int (b.y + b.dy))
    (hs : is_int (moved_x b + b.size)) (hdx : is_int (-b.dx))
    (hpl : ¬ in_paddle_rect (moved_x b) (moved_y b) player) :
    ((update_ball b player ai_paddle sc).1.x = moved_x b ∧
      (update_ball b player ai_paddle sc).1.y = moved_y b) ∧
    ((moved_x b + b.size ≥ (ai_paddle.x : Int) ∧
        moved_x b ≤ (ai_paddle.x : Int) + ai_paddle.width ∧
        (ai_paddle.y : Int) ≤ moved_y b ∧
        moved_y b ≤ (ai_paddle.y : Int) + ai_paddle.height) →
      (update_ball b player ai_paddle sc).1.dx = -b.dx) ∧
    (¬ (moved_x b + b.size ≥ (ai_paddle.x : Int) ∧
        moved_x b ≤ (ai_paddle.x : Int) + ai_paddle.width ∧
        (ai_paddle.y : Int) ≤ moved_y b ∧
        moved_y b ≤ (ai_paddle.y : Int) + ai_paddle.height) →
      (update_ball b player ai_paddle sc).1.dx = b.dx) ∧
    (moved_x b < ai_paddle.x → (ai_paddle.x : Int) ≤ moved_x b + b.size →
      (ai_paddle.y : Int) ≤ moved_y b → moved_y b ≤ (ai_paddle.y : Int) + ai_paddle.height →
      (update_ball b player ai_paddle sc).1.dx = -b.dx) ∧
    (moved_x b > (ai_paddle.x : Int) + ai_paddle.width →
      (update_ball b player ai_paddle sc).1.dx = b.dx) ∧
    (moved_y b < ai_paddle.y → (update_ball b player ai_paddle sc).1.dx = b.dx) ∧
    (moved_y b > (ai_paddle.y : Int) + ai_paddle.height →
      (update_ball b player ai_paddle sc).1.dx = b.dx) := by
  have hdx' : (update_ball b player ai_paddle sc).1.dx =
      if ai_paddle_hit (moved_x b) (moved_y b) b.size ai_paddle then -b.dx else b.dx := by
    rw [update_ball_wrap, next_x_eq b hx, next_y_eq b hx hy]
    simp only [hpl, if_false, to_int_of_is_int hdx]
    exact if_congr (ai_paddle_test_iff _ _ _ _ hs) rfl rfl
  have hpos : (update_ball b player ai_paddle sc).1.x = moved_x b ∧
      (update_ball b player ai_paddle sc).1.y = moved_y b := by
    rw [update_ball_wrap, next_x_eq b hx, next_y_eq b hx hy]
    exact ⟨rfl, rfl⟩
  have miss : ¬ ai_paddle_hit (moved_x b) (moved_y b) b.size ai_paddle →
      (update_ball b player ai_paddle sc).1.dx = b.dx := by
    intro h; rw [hdx', if_neg h]
  have hit : ai_paddle_hit (moved_x b) (moved_y b) b.size ai_paddle →
      (update_ball b player ai_paddle sc).1.dx = -b.dx := by
    intro h; rw [hdx', if_pos h]
  refine ⟨hpos, ?_, ?_, ?_, ?_, ?_, ?_⟩
  · intro h; exact hit h
  · intro h; exact miss h
  · intro h1 h2 h3 h4
    exact hit ⟨by omega, by omega, h3, h4⟩
  · intro h; exact miss (by unfold ai_paddle_hit; omega)
  · intro h; exact miss (by unfold ai_paddle_hit; omega)
  · intro h; exact miss (by unfold ai_paddle_hit; omega)

/-- C8 at a concrete input: the point moves to x = 221 < 225 <= 221 + 5, y = 21
in the AI paddle's range, and the ball bounces. -/
theorem C8_ai_paddle_witness :
    (is_int ((220 : Int) + 1) ∧ is_int ((20 : Int) + 1) ∧
      is_int (moved_x ⟨220, 20, 5, 1, 1, 2⟩ + 5) ∧ is_int (-(1 : Int))) ∧
    ¬ in_paddle_rect (moved_x ⟨220, 20, 5, 1, 1, 2⟩) (moved_y ⟨220, 20, 5, 1, 1, 2⟩)
        ⟨20, 60, 5, 25, 0⟩ ∧
    (moved_x ⟨220, 20, 5, 1, 1, 2⟩ < 225 ∧ (225 : Int) ≤ moved_x ⟨220, 20, 5, 1, 1, 2⟩ + 5) ∧
    (update_ball ⟨220, 20, 5, 1, 1, 2⟩ ⟨20, 60, 5, 25, 0⟩ ⟨225, 10, 5, 30, 1⟩ ⟨0, 0⟩).1.dx = -1 :=
  ⟨by decide, by decide, by decide,
   (C8_ai_paddle_adds_size_on_leading_edge ⟨220, 20, 5, 1, 1, 2⟩ ⟨20, 60, 5, 25, 0⟩
      ⟨225, 10, 5, 30, 1⟩ ⟨0, 0⟩ (by decide) (by decide) (by decide) (by decide)
      (by decide)).2.2.2.1 (by decide) (by decide) (by decide) (by decide)⟩

/-! ## Paddles -/

/-- Result of `handle_buttons` on a paddle that fits on the screen: `y` moves
by the two button effects, without wrapping. -/
theorem handle_buttons_on_screen (p : paddle) (down_read up_read : Nat)
    (h : p.y + p.height ≤ 160) :
    (handle_buttons p down_read up_read).x = p.x ∧
    (handle_buttons p down_read up_read).width = p.width ∧
    (handle_buttons p down_read up_read).height = p.height ∧
    (handle_buttons p down_read up_read).color = p.color ∧
    (handle_buttons p down_read up_read).y + p.height ≤ 160 ∧
    (handle_buttons p down_read up_read).y ≤ p.y + 1 ∧
    p.y ≤ (handle_buttons p down_read up_read).y + 1 := by
  unfold handle_buttons
  simp only [HEIGHT, to_ushort]
  split_ifs with h1 h2 h2 <;> (try dsimp only at *) <;>
    refine ⟨rfl, rfl, rfl, rfl, ?_, ?_, ?_⟩ <;> omega

/-- C9: for every paddle with `y + height <= 160` and every value of the button
register (at either read), after `handle_buttons` the paddle still has `0 <= y`
and `y + height <= 160`, and `y` differs from its old value by at most 1, so the
unsigned 16-bit `y` has not wrapped. -/
theorem C9_handle_buttons_keeps_paddle_on_screen (p : paddle) (down_read up_read : Nat)
    (h : p.y + p.height ≤ 160) :
    (0 : Int) ≤ (handle_buttons p down_read up_read).y ∧
    (handle_buttons p down_read up_read).y + (handle_buttons p down_read up_read).height ≤ 160 ∧
    -1 ≤ ((handle_buttons p down_read up_read).y : Int) - p.y ∧
    ((handle_buttons p down_read up_read).y : Int) - p.y ≤ 1 := by
  obtain ⟨_, _, hh, _, h1, h2, h3⟩ := handle_buttons_on_screen p down_read up_read h
  rw [hh]
  refine ⟨?_, ?_, ?_, ?_⟩ <;> omega

/-- C9 at a concrete input: the player paddle at the top of the screen with
only "up" pressed (bit 6 clear) stays at `y = 0`. -/
theorem C9_handle_buttons_witness :
    0 + 25 ≤ 160 ∧
    (0 : Int) ≤ (handle_buttons ⟨20, 0, 5, 25, 0⟩ 0x3BF 0x3BF).y ∧
    (handle_buttons ⟨20, 0, 5, 25, 0⟩ 0x3BF 0x3BF).y +
      (handle_buttons ⟨20, 0, 5, 25, 0⟩ 0x3BF 0x3BF).height ≤ 160 :=
  ⟨by decide,
   (C9_handle_buttons_keeps_paddle_on_screen ⟨20, 0, 5, 25, 0⟩ 0x3BF 0x3BF (by decide)).1,
   (C9_handle_buttons_keeps_paddle_on_screen ⟨20, 0, 5, 25, 0⟩ 0x3BF 0x3BF (by decide)).2.1⟩

/-- One `update_ai_paddle` call on a 30-pixel paddle keeps the pair
(position, direction) in the set: moving down with `y <= 129`, or moving up
with `1 <= y <= 130`; and it moves the paddle by one pixel. -/
theorem update_ai_paddle_step (p : paddle) (d : Int) (hh : p.height = 30)
    (hinv : (d = 1 ∧ p.y ≤ 129) ∨ (d = -1 ∧ 1 ≤ p.y ∧ p.y ≤ 130)) :
    (update_ai_paddle p d).1.x = p.x ∧
    (update_ai_paddle p d).1.width = p.width ∧
    (update_ai_paddle p d).1.height = 30 ∧
    (update_ai_paddle p d).1.color = p.color ∧
    (((update_ai_paddle p d).2 = 1 ∧ (update_ai_paddle p d).1.y ≤ 129) ∨
      ((update_ai_paddle p d).2 = -1 ∧ 1 ≤ (update_ai_paddle p d).1.y ∧
        (update_ai_paddle p d).1.y ≤ 130)) ∧
    ((update_ai_paddle p d).1.y = p.y + 1 ∨ (update_ai_paddle p d).1.y + 1 = p.y) := by
  unfold update_ai_paddle
  simp only [to_ushort_to_int]
  simp only [HEIGHT, to_ushort]
  split_ifs with h1 h2 <;> (try dsimp only at *) <;>
    refine ⟨rfl, rfl, hh, rfl, ?_, ?_⟩ <;> omega

theorem ai_run_inv (p : paddle) (hy : p.y = 10) (hh : p.height = 30) (n : Nat) :
    (ai_run p n).1.height = 30 ∧
    (((ai_run p n).2 = 1 ∧ (ai_run p n).1.y ≤ 129) ∨
      ((ai_run p n).2 = -1 ∧ 1 ≤ (ai_run p n).1.y ∧ (ai_run p n).1.y ≤ 130)) := by
  induction n with
  | zero => exact ⟨hh, Or.inl ⟨rfl, by show p.y ≤ 129; omega⟩⟩
  | succ n ih =>
    obtain ⟨_, _, h3, _, h5, _⟩ := update_ai_paddle_step _ _ ih.1 ih.2
    exact ⟨h3, h5⟩

/-- C10: from the AI paddle `main` creates (`y = 10`, `height = 30`) and the
initial direction +1, after every number `n >= 0` of `update_ai_paddle` calls
the paddle has `0 <= y <= 130 = 160 - height` (no wrap of the unsigned 16-bit
`y`, the paddle stays on the screen), and each call changes `y` by exactly 1. -/
theorem C10_ai_paddle_stays_on_screen (p : paddle) (hy : p.y = 10) (hh : p.height = 30)
    (n : Nat) :
    (0 : Int) ≤ (ai_run p n).1.y ∧
    (ai_run p n).1.y ≤ 130 ∧
    (ai_run p n).1.y + (ai_run p n).1.height ≤ 160 ∧
    ((ai_run p (n + 1)).1.y = (ai_run p n).1.y + 1 ∨
      (ai_run p (n + 1)).1.y + 1 = (ai_run p n).1.y) := by
  obtain ⟨h1, h2⟩ := ai_run_inv p hy hh n
  obtain ⟨_, _, _, _, _, h6⟩ := update_ai_paddle_step _ _ h1 h2
  rw [h1]
  refine ⟨by omega, by omega, by omega, h6⟩

/-- C10 at the paddle of `main`, after 3 calls: the paddle is at `y = 13`. -/
theorem C10_ai_paddle_witness :
    ((10 : Nat) = 10 ∧ (30 : Nat) = 30) ∧
    (ai_run ⟨225, 10, 5, 30, 1⟩ 3).1.y ≤ 130 ∧
    (ai_run ⟨225, 10, 5, 30, 1⟩ 3).1.y = 13 :=
  ⟨⟨rfl, rfl⟩, (C10_ai_paddle_stays_on_screen ⟨225, 10, 5, 30, 1⟩ rfl rfl 3).2.1, by decide⟩

/-! ## Buffer swap -/

theorem flip_buffers_front : flip_buffers 0x404 front_buffer = (0x404, back_buffer) := by
  decide

theorem flip_buffers_back : flip_buffers 0x404 back_buffer = (0x414, front_buffer) := by
  decide

theorem flip_buffers_front' : flip_buffers 0x414 front_buffer = (0x404, back_buffer) := by
  decide

/-- The run of `flip_buffers` calls has period 2 from the first call on. -/
theorem flip_run_eq (k : Nat) :
    flip_run (2 * k + 1) = (0x404, back_buffer) ∧ flip_run (2 * k + 2) = (0x414, front_buffer) := by
  induction k with
  | zero =>
    have h1 : flip_run 1 = (0x404, back_buffer) := by
      show flip_buffers (flip_run 0).1 (flip_run 0).2 = _
      exact flip_buffers_front
    refine ⟨h1, ?_⟩
    show flip_buffers (flip_run 1).1 (flip_run 1).2 = _
    rw [h1]; exact flip_buffers_back
  | succ k ih =>
    have h1 : flip_run (2 * (k + 1) + 1) = (0x404, back_buffer) := by
      show flip_buffers (flip_run (2 * k + 2)).1 (flip_run (2 * k + 2)).2 = _
      rw [ih.2]; exact flip_buffers_front'
    refine ⟨h1, ?_⟩
    show flip_buffers (flip_run (2 * (k + 1) + 1)).1 (flip_run (2 * (k + 1) + 1)).2 = _
    rw [h1]; exact flip_buffers_back

/-- C4 as stated fails at N = 1: the first `flip_buffers` call receives
`front_buffer`, clears `SHOW_BACK`, and the front buffer stays the visible one
although N is odd. -/
theorem C4_counterexample_first_flip_keeps_front_visible :
    ¬ ((1 % 2 = 0 → (flip_run 1).1 &&& SHOW_BACK = 0 ∧
          displayed_buffer (flip_run 1).1 = front_buffer) ∧
       (1 % 2 = 1 → (flip_run 1).1 &&& SHOW_BACK ≠ 0 ∧
          displayed_buffer (flip_run 1).1 = back_buffer)) := by
  decide

/-- C4, amended: from `main`'s initial state, after N calls of `flip_buffers`,
each applied to the draw target the previous call returned, the front buffer is
the visible one (`SHOW_BACK` clear) if N = 0 or N is odd, and the back buffer
is the visible one (`SHOW_BACK` set) if N is even and N >= 2. -/
theorem C4_flip_alternation_from_first_call (N : Nat) :
    ((N = 0 ∨ N % 2 = 1) →
      (flip_run N).1 &&& SHOW_BACK = 0 ∧ displayed_buffer (flip_run N).1 = front_buffer) ∧
    ((2 ≤ N ∧ N % 2 = 0) →
      (flip_run N).1 &&& SHOW_BACK ≠ 0 ∧ displayed_buffer (flip_run N).1 = back_buffer) := by
  constructor
  · rintro (h | h)
    · subst h; decide
    · obtain ⟨k, rfl⟩ : ∃ k, N = 2 * k + 1 := ⟨N / 2, by omega⟩
      rw [(flip_run_eq k).1]; decide
  · rintro ⟨h2, h⟩
    obtain ⟨k, rfl⟩ : ∃ k, N = 2 * k + 2 := ⟨N / 2 - 1, by omega⟩
    rw [(flip_run_eq k).2]; decide

/-! ## Loops -/

/-- Rule for a `for` loop that runs `n` times with counter values
`ctr 0, ..., ctr (n - 1)`: an invariant carried by every iteration holds at
the exit, and the loop does exit when the fuel exceeds `n`. -/
theorem for_loop_rule {σ : Type} (next : Int → Int) (body : Int → σ → Option σ) (bound : Int)
    (ctr : Nat → Int) (n : Nat) (Inv : Nat → σ → Prop)
    (hlt : ∀ j, j < n → ctr j < bound) (hge : bound ≤ ctr n)
    (hnext : ∀ j, j < n → next (ctr j) = ctr (j + 1))
    (hstep : ∀ j t, j < n → Inv j t → ∃ t', body (ctr j) t = some t' ∧ Inv (j + 1) t')
    (fuel : Nat) (hfuel : n < fuel) (s : σ) (h0 : Inv 0 s) :
    ∃ t, for_loop next body bound fuel (ctr 0) s = some t ∧ Inv n t := by
  have aux : ∀ fuel j s, j ≤ n → n - j < fuel → Inv j s →
      ∃ t, for_loop next body bound fuel (ctr j) s = some t ∧ Inv n t := by
    intro fuel
    induction fuel with
    | zero => intro j s _ h; omega
    | succ fuel ih =>
      intro j s hj hf hi
      by_cases hjn : j = n
      · subst hjn
        have : ¬ ctr j < bound := by omega
        exact ⟨s, by simp [for_loop, this], hi⟩
      · have hjlt : j < n := by omega
        obtain ⟨t', hb, hi'⟩ := hstep j s hjlt hi
        obtain ⟨t, ht, hin⟩ := ih (j + 1) t' (by omega) (by omega) hi'
        refine ⟨t, ?_, hin⟩
        simp [for_loop, hlt j hjlt, hb, hnext j hjlt, ht]
  exact aux fuel 0 s (by omega) (by omega) h0

theorem Paints.refl (m : Mem) (base color : Nat) : Paints m m base color (fun _ => False) := by
  intro k; simp

theorem Paints.trans {m m1 m2 : Mem} {base color : Nat} {W1 W2 : Nat → Prop}
    (h1 : Paints m m1 base color W1) (h2 : Paints m1 m2 base color W2) :
    Paints m m2 base color (fun k => W1 k ∨ W2 k) := by
  intro k
  constructor
  · intro h
    by_cases hw : W2 k
    · exact (h2 k).1 hw
    · rw [(h2 k).2 hw]
      exact (h1 k).1 (h.resolve_right hw)
  · intro h
    rw [(h2 k).2 (fun hw => h (Or.inr hw)), (h1 k).2 (fun hw => h (Or.inl hw))]

theorem Paints.congr {m m' : Mem} {base color : Nat} {W W' : Nat → Prop}
    (h : Paints m m' base color W) (hw : ∀ k, W k ↔ W' k) : Paints m m' base color W' := by
  intro k
  rw [← hw k]
  exact h k

theorem put_pixel_paints (m : Mem) (base d : Nat) (row col : Int) (color : Nat) :
    Paints m (put_pixel m (base + 2 * d) row col color) base (color % 256)
      (fun k => k = pixel_index d row col) := by
  intro k
  rw [put_pixel_byte]
  unfold pixel_index
  constructor
  · intro h; simp [h]
  · intro h; simp [h]

/-- A loop whose `j`-th iteration paints the bytes `Wf j` paints their union. -/
theorem paint_loop (next : Int → Int) (body : Int → Mem → Option Mem) (bound : Int)
    (ctr : Nat → Int) (n : Nat) (base color : Nat) (Wf : Nat → Nat → Prop)
    (hlt : ∀ j, j < n → ctr j < bound) (hge : bound ≤ ctr n)
    (hnext : ∀ j, j < n → next (ctr j) = ctr (j + 1))
    (hbody : ∀ j, j < n → ∀ m, ∃ m', body (ctr j) m = some m' ∧ Paints m m' base color (Wf j))
    (fuel : Nat) (hfuel : n < fuel) (m : Mem) :
    ∃ m', for_loop next body bound fuel (ctr 0) m = some m' ∧
      Paints m m' base color (fun k => ∃ j, j < n ∧ Wf j k) := by
  have h := for_loop_rule next body bound ctr n
    (fun i m' => Paints m m' base color (fun k => ∃ j, j < i ∧ Wf j k))
    hlt hge hnext ?_ fuel hfuel m ?_
  · exact h
  · intro j t hj hp
    obtain ⟨t', hb, hp'⟩ := hbody j hj t
    refine ⟨t', hb, (hp.trans hp').congr ?_⟩
    intro k
    constructor
    · rintro (⟨i, hi, hw⟩ | hw)
      · exact ⟨i, by omega, hw⟩
      · exact ⟨j, by omega, hw⟩
    · rintro ⟨i, hi, hw⟩
      by_cases hij : i = j
      · subst hij; exact Or.inr hw
      · exact Or.inl ⟨i, by omega, hw⟩
  · exact (Paints.refl m base color).congr (fun k => by simp)

/-- The two nested loops of a rectangle fill: rows `r0 .. r0 + n - 1`, columns
`c0 .. c0 + w - 1`, one `put_pixel` each. -/
theorem fill_rect_paints (next : Int → Int) (base d color : Nat) (r0 c0 rb cb : Int) (n w : Nat)
    (hrb : rb = r0 + n) (hcb : cb = c0 + w)
    (hnr : ∀ j : Nat, j < n → next (r0 + j) = r0 + j + 1)
    (hnc : ∀ i : Nat, i < w → next (c0 + i) = c0 + i + 1)
    (hn : n < LOOP_FUEL) (hw : w < LOOP_FUEL) (m : Mem) :
    ∃ m', for_loop next (fun row mem =>
          for_loop next (fun col mem => some (put_pixel mem (base + 2 * d) row col color))
            cb LOOP_FUEL c0 mem) rb LOOP_FUEL r0 m = some m' ∧
      Paints m m' base (color % 256)
        (fun k => ∃ j, j < n ∧ ∃ i, i < w ∧ k = pixel_index d (r0 + j) (c0 + i)) := by
  have inner : ∀ (row : Int) (m : Mem), ∃ m',
      for_loop next (fun col mem => some (put_pixel mem (base + 2 * d) row col color))
        cb LOOP_FUEL c0 m = some m' ∧
      Paints m m' base (color % 256) (fun k => ∃ i, i < w ∧ k = pixel_index d row (c0 + i)) := by
    intro row m
    have h := paint_loop next
      (fun col mem => some (put_pixel mem (base + 2 * d) row col color)) cb
      (fun i => c0 + i) w base (color % 256) (fun i k => k = pixel_index d row (c0 + i))
      (fun j hj => by beta_reduce; omega) (by beta_reduce; omega)
      (fun j hj => by rw [hnc j hj]; push_cast; ring)
      (fun j _ m => ⟨_, rfl, put_pixel_paints m base d row (c0 + j) color⟩)
      LOOP_FUEL hw m
    simpa using h
  have h := paint_loop next (fun row mem =>
      for_loop next (fun col mem => some (put_pixel mem (base + 2 * d) row col color))
        cb LOOP_FUEL c0 mem) rb
    (fun j => r0 + j) n base (color % 256)
    (fun j k => ∃ i, i < w ∧ k = pixel_index d (r0 + j) (c0 + i))
    (fun j hj => by beta_reduce; omega) (by beta_reduce; omega)
    (fun j hj => by rw [hnr j hj]; push_cast; ring)
    (fun j _ m => inner (r0 + j) m)
    LOOP_FUEL hn m
  simpa using h

/-- The edge-strip loops of `update_screen`: every row 0..159, columns 0..2
and 239, 238, 237. -/
theorem strips_paint (base d color : Nat) (m : Mem) :
    ∃ m', for_loop short_incr (fun row mem =>
          for_loop short_incr (fun col mem =>
              some (put_pixel (put_pixel mem (base + 2 * d) row col color) (base + 2 * d) row
                (WIDTH - 1 - col) color))
            3 LOOP_FUEL 0 mem) HEIGHT LOOP_FUEL 0 m = some m' ∧
      Paints m m' base (color % 256)
        (fun k => ∃ j, j < 160 ∧ ∃ i, i < 3 ∧
          (k = pixel_index d (j : Nat) (i : Nat) ∨ k = pixel_index d (j : Nat) (239 - (i : Nat)))) := by
  have inner : ∀ (row : Int) (m : Mem), ∃ m',
      for_loop short_incr (fun col mem =>
          some (put_pixel (put_pixel mem (base + 2 * d) row col color) (base + 2 * d) row
            (WIDTH - 1 - col) color)) 3 LOOP_FUEL 0 m = some m' ∧
      Paints m m' base (color % 256) (fun k => ∃ i, i < 3 ∧
          (k = pixel_index d row (i : Nat) ∨ k = pixel_index d row (239 - (i : Nat)))) := by
    intro row m
    have h := paint_loop short_incr
      (fun col mem =>
          some (put_pixel (put_pixel mem (base + 2 * d) row col color) (base + 2 * d) row
            (WIDTH - 1 - col) color)) 3
      (fun i => (i : Int)) 3 base (color % 256)
      (fun i k => k = pixel_index d row (i : Nat) ∨ k = pixel_index d row (239 - (i : Nat)))
      (fun j hj => by beta_reduce; omega) (by norm_num)
      (fun j hj => by simp only [short_incr, to_short]; omega)
      (fun j _ m => ⟨_, rfl, by
        have h1 := put_pixel_paints m base d row (j : Nat) color
        have h2 := put_pixel_paints (put_pixel m (base + 2 * d) row (j : Nat) color) base d row
          (WIDTH - 1 - (j : Nat)) color
        have e : WIDTH - 1 - (j : Int) = 239 - (j : Nat) := by simp only [WIDTH]; ring
        rw [e] at h2 ⊢
        exact h1.trans h2⟩)
      LOOP_FUEL (by decide) m
    simpa using h
  have h := paint_loop short_incr (fun row mem =>
          for_loop short_incr (fun col mem =>
              some (put_pixel (put_pixel mem (base + 2 * d) row col color) (base + 2 * d) row
                (WIDTH - 1 - col) color))
            3 LOOP_FUEL 0 mem) HEIGHT
    (fun j => (j : Int)) 160 base (color % 256)
    (fun j k => ∃ i, i < 3 ∧
          (k = pixel_index d (j : Nat) (i : Nat) ∨ k = pixel_index d (j : Nat) (239 - (i : Nat))))
    (fun j hj => by simp only [HEIGHT]; omega) (by simp [HEIGHT])
    (fun j hj => by simp only [short_incr, to_short]; omega)
    (fun j _ m => inner (j : Nat) m)
    LOOP_FUEL (by decide) m
  simpa using h

/-- The net loop of `update_screen`: rows 0, 4, ..., 156 of column 120. -/
theorem net_paints (base d color : Nat) (m : Mem) :
    ∃ m', for_loop (fun row => to_short (row + 4))
        (fun row mem => some (put_pixel mem (base + 2 * d) row (WIDTH / 2) color))
        HEIGHT LOOP_FUEL 0 m = some m' ∧
      Paints m m' base (color % 256)
        (fun k => ∃ j : Nat, j < 40 ∧ k = pixel_index d (4 * (j : Int)) 120) := by
  have h := paint_loop (fun row => to_short (row + 4))
    (fun row mem => some (put_pixel mem (base + 2 * d) row (WIDTH / 2) color)) HEIGHT
    (fun j => 4 * (j : Int)) 40 base (color % 256)
    (fun j k => k = pixel_index d (4 * (j : Int)) 120)
    (fun j hj => by simp only [HEIGHT]; omega) (by simp [HEIGHT])
    (fun j hj => by simp only [to_short]; omega)
    (fun j _ m => ⟨_, rfl, by
      have h1 := put_pixel_paints m base d (4 * (j : Int)) (WIDTH / 2) color
      have e : WIDTH / 2 = 120 := by decide
      rw [e] at h1 ⊢
      exact h1⟩)
    LOOP_FUEL (by decide) m
  simpa using h

/-! ## Effect of the drawing functions on the pixels of the two buffers -/

theorem pixel_at_shift (mem : Mem) (base d r c : Nat) :
    pixel_at mem (base + 2 * d) r c = byte_at mem base (2 * d + (r * 240 + c)) := by
  unfold pixel_at byte_at
  have e1 : base + 2 * d + 2 * ((r * 240 + c) / 2) = base + 2 * ((2 * d + (r * 240 + c)) / 2) := by
    omega
  have e2 : (2 * d + (r * 240 + c)) % 2 = c % 2 := by omega
  rw [e1, e2]

theorem paints_pixel {m m' : Mem} {base color : Nat} {W : Nat → Prop}
    (h : Paints m m' base color W) (d r c : Nat) :
    (W (2 * d + (r * 240 + c)) → pixel_at m' (base + 2 * d) r c = color) ∧
    (¬ W (2 * d + (r * 240 + c)) →
      pixel_at m' (base + 2 * d) r c = pixel_at m (base + 2 * d) r c) := by
  rw [pixel_at_shift, pixel_at_shift]
  exact h _

/-- Bytes the program can reach from rows -3..167 and columns -3..246 of a
buffer: the buffer's first 40327 bytes, or the last 723 bytes of the 128 KiB
window that the 16-bit halfword offset spans. -/
theorem pixel_index_range (d : Nat) (row col : Int) (hr0 : -3 ≤ row) (hr1 : row < 168)
    (hc0 : -3 ≤ col) (hc1 : col < 247) :
    (2 * d ≤ pixel_index d row col ∧ pixel_index d row col ≤ 2 * d + 40326) ∨
    (2 * d + 130349 ≤ pixel_index d row col ∧ pixel_index d row col < 2 * d + 131072) := by
  unfold pixel_index
  by_cases h : 0 ≤ row * 240 + col
  · left
    have hm : (row * 240 + col) % 131072 = row * 240 + col :=
      Int.emod_eq_of_lt h (by omega)
    rw [hm]
    omega
  · right
    have hm : (row * 240 + col) % 131072 = row * 240 + col + 131072 := by
      rw [← Int.add_emod_self]
      exact Int.emod_eq_of_lt (by omega) (by omega)
    rw [hm]
    omega

theorem pixel_index_of_grid (d : Nat) (row col : Int) (hr0 : 0 ≤ row) (hr1 : row ≤ 160)
    (hc0 : 0 ≤ col) (hc1 : col < 240) :
    pixel_index d row col = 2 * d + (row * 240 + col).toNat := by
  unfold pixel_index
  have hm : (row * 240 + col) % 131072 = row * 240 + col :=
    Int.emod_eq_of_lt (by omega) (by omega)
  rw [hm]

/-- What a painting reachable from rows -3..167, columns -3..246 of one buffer
does to the grids: every pixel of that buffer holds the colour or its old
value, and the other buffer's grid is untouched. -/
theorem paints_kept_other {m m' : Mem} {base col : Nat} {W : Nat → Prop} (d d' : Nat)
    (hd : (d = 0 ∧ d' = 20480) ∨ (d = 20480 ∧ d' = 0))
    (h : Paints m m' base col W)
    (hrange : ∀ k, W k → (2 * d ≤ k ∧ k ≤ 2 * d + 40326) ∨ (2 * d + 130349 ≤ k ∧ k < 2 * d + 131072)) :
    (∀ r c, r < 160 → c < 240 →
      pixel_at m' (base + 2 * d) r c = col ∨
      pixel_at m' (base + 2 * d) r c = pixel_at m (base + 2 * d) r c) ∧
    (∀ r c, r < 160 → c < 240 →
      pixel_at m' (base + 2 * d') r c = pixel_at m (base + 2 * d') r c) := by
  constructor
  · intro r c _ _
    by_cases hw : W (2 * d + (r * 240 + c))
    · exact Or.inl ((paints_pixel h d r c).1 hw)
    · exact Or.inr ((paints_pixel h d r c).2 hw)
  · intro r c hr hc
    apply (paints_pixel h d' r c).2
    intro hw
    have := hrange _ hw
    omega

/-- Pixels of a rectangle fill. -/
theorem fill_rect_pixels {m m' : Mem} {base col : Nat} (d d' : Nat)
    (hd : (d = 0 ∧ d' = 20480) ∨ (d = 20480 ∧ d' = 0))
    (r0 c0 : Int) (n w : Nat) (hr0 : -3 ≤ r0) (hr1 : r0 + n ≤ 168) (hc0 : -3 ≤ c0)
    (hc1 : c0 + w ≤ 247)
    (h : Paints m m' base col
      (fun k => ∃ j, j < n ∧ ∃ i, i < w ∧ k = pixel_index d (r0 + j) (c0 + i))) :
    (∀ r c : Nat, r < 160 → c < 240 → (r0 ≤ r ∧ (r : Int) < r0 + n ∧ c0 ≤ c ∧ (c : Int) < c0 + w) →
      pixel_at m' (base + 2 * d) r c = col) ∧
    (∀ r c, r < 160 → c < 240 →
      pixel_at m' (base + 2 * d) r c = col ∨
      pixel_at m' (base + 2 * d) r c = pixel_at m (base + 2 * d) r c) ∧
    (∀ r c, r < 160 → c < 240 →
      pixel_at m' (base + 2 * d') r c = pixel_at m (base + 2 * d') r c) ∧
    (0 ≤ r0 → r0 + n ≤ 160 → 0 ≤ c0 → c0 + w ≤ 240 → ∀ r c : Nat, r < 160 → c < 240 →
      ¬ (r0 ≤ r ∧ (r : Int) < r0 + n ∧ c0 ≤ c ∧ (c : Int) < c0 + w) →
      pixel_at m' (base + 2 * d) r c = pixel_at m (base + 2 * d) r c) := by
  have hko := paints_kept_other d d' hd h (by
    rintro k ⟨j, hj, i, hi, rfl⟩
    exact pixel_index_range d _ _ (by omega) (by omega) (by omega) (by omega))
  refine ⟨?_, hko.1, hko.2, ?_⟩
  · intro r c hr hc hin
    apply (paints_pixel h d r c).1
    refine ⟨(r - r0).toNat, by omega, (c - c0).toNat, by omega, ?_⟩
    have e1 : r0 + ((r - r0).toNat : Int) = (r : Int) := by omega
    have e2 : c0 + ((c - c0).toNat : Int) = (c : Int) := by omega
    rw [e1, e2, pixel_index_of_grid d r c (by omega) (by omega) (by omega) (by omega)]
    omega
  · intro g0 g1 g2 g3 r c hr hc hout
    apply (paints_pixel h d r c).2
    rintro ⟨j, hj, i, hi, he⟩
    rw [pixel_index_of_grid d _ _ (by omega) (by omega) (by omega) (by omega)] at he
    apply hout
    omega

/-- Pixels of the edge-strip pass. -/
theorem strips_pixels {m m' : Mem} {base col : Nat} (d d' : Nat)
    (hd : (d = 0 ∧ d' = 20480) ∨ (d = 20480 ∧ d' = 0))
    (h : Paints m m' base col
      (fun k => ∃ j, j < 160 ∧ ∃ i, i < 3 ∧
        (k = pixel_index d (j : Nat) (i : Nat) ∨ k = pixel_index d (j : Nat) (239 - (i : Nat))))) :
    (∀ r c : Nat, r < 160 → c < 240 → (c < 3 ∨ 237 ≤ c) →
      pixel_at m' (base + 2 * d) r c = col) ∧
    (∀ r c, r < 160 → c < 240 →
      pixel_at m' (base + 2 * d) r c = col ∨
      pixel_at m' (base + 2 * d) r c = pixel_at m (base + 2 * d) r c) ∧
    (∀ r c, r < 160 → c < 240 →
      pixel_at m' (base + 2 * d') r c = pixel_at m (base + 2 * d') r c) := by
  have hko := paints_kept_other d d' hd h (by
    rintro k ⟨j, hj, i, hi, rfl | rfl⟩
    · exact pixel_index_range d _ _ (by omega) (by omega) (by omega) (by omega)
    · exact pixel_index_range d _ _ (by omega) (by omega) (by omega) (by omega))
  refine ⟨?_, hko.1, hko.2⟩
  intro r c hr hc hin
  apply (paints_pixel h d r c).1
  rcases hin with hlt | hge
  · refine ⟨r, hr, c, hlt, Or.inl ?_⟩
    rw [pixel_index_of_grid d r c (by omega) (by omega) (by omega) (by omega)]
    omega
  · refine ⟨r, hr, 239 - c, by omega, Or.inr ?_⟩
    rw [pixel_index_of_grid d r _ (by omega) (by omega) (by omega) (by omega)]
    omega

/-- Pixels of the net pass. -/
theorem net_pixels {m m' : Mem} {base col : Nat} (d d' : Nat)
    (hd : (d = 0 ∧ d' = 20480) ∨ (d = 20480 ∧ d' = 0))
    (h : Paints m m' base col
      (fun k => ∃ j : Nat, j < 40 ∧ k = pixel_index d (4 * (j : Int)) 120)) :
    (∀ r c : Nat, r < 160 → c < 240 →
      pixel_at m' (base + 2 * d) r c =
        if net_pixel r c then col else pixel_at m (base + 2 * d) r c) ∧
    (∀ r c, r < 160 → c < 240 →
      pixel_at m' (base + 2 * d') r c = pixel_at m (base + 2 * d') r c) := by
  have hko := paints_kept_other d d' hd h (by
    rintro k ⟨j, hj, rfl⟩
    exact pixel_index_range d _ _ (by omega) (by omega) (by omega) (by omega))
  refine ⟨?_, hko.2⟩
  intro r c hr hc
  by_cases hn : net_pixel r c
  · rw [if_pos hn]
    apply (paints_pixel h d r c).1
    obtain ⟨h1, h2⟩ := hn
    refine ⟨r / 4, by omega, ?_⟩
    rw [pixel_index_of_grid d _ _ (by omega) (by omega) (by omega) (by omega)]
    omega
  · rw [if_neg hn]
    apply (paints_pixel h d r c).2
    rintro ⟨j, hj, he⟩
    rw [pixel_index_of_grid d _ _ (by omega) (by omega) (by omega) (by omega)] at he
    apply hn
    unfold net_pixel
    omega

/-- Pixels after `draw_ball` for a ball at `0 <= x < 240`, `0 <= y <= 160`. -/
theorem draw_ball_pixels (m : Mem) (d d' : Nat)
    (hd : (d = 0 ∧ d' = 20480) ∨ (d = 20480 ∧ d' = 0)) (b : ball)
    (hx : 0 ≤ b.x ∧ b.x < 240) (hy : 0 ≤ b.y ∧ b.y ≤ 160) :
    (∀ r c : Nat, r < 160 → c < 240 →
      pixel_at (draw_ball m (front_buffer + 2 * d) b) (front_buffer + 2 * d) r c =
        if is_ball_pixel b r c then b.color % 256 else pixel_at m (front_buffer + 2 * d) r c) ∧
    (∀ r c, r < 160 → c < 240 →
      pixel_at (draw_ball m (front_buffer + 2 * d) b) (front_buffer + 2 * d') r c =
        pixel_at m (front_buffer + 2 * d') r c) := by
  have h := put_pixel_paints m front_buffer d b.y b.x b.color
  have hko := paints_kept_other d d' hd h (by
    rintro k rfl
    exact pixel_index_range d _ _ (by omega) (by omega) (by omega) (by omega))
  refine ⟨?_, hko.2⟩
  intro r c hr hc
  unfold draw_ball
  by_cases hb : is_ball_pixel b r c
  · rw [if_pos hb]
    apply (paints_pixel h d r c).1
    obtain ⟨h1, h2⟩ := hb
    rw [pixel_index_of_grid d _ _ (by omega) (by omega) (by omega) (by omega)]
    omega
  · rw [if_neg hb]
    apply (paints_pixel h d r c).2
    intro he
    rw [pixel_index_of_grid d _ _ (by omega) (by omega) (by omega) (by omega)] at he
    apply hb
    unfold is_ball_pixel
    omega

/-- Pixels after `draw_paddle` for a paddle inside the screen: its rectangle
holds the paddle's colour, every other pixel of the grid and the whole grid of
the other buffer are unchanged. -/
theorem draw_paddle_pixels (m : Mem) (d d' : Nat)
    (hd : (d = 0 ∧ d' = 20480) ∨ (d = 20480 ∧ d' = 0)) (p : paddle)
    (hx : p.x + p.width ≤ 240) (hy : p.y + p.height ≤ 160) :
    ∃ m', draw_paddle m (front_buffer + 2 * d) p = some m' ∧
      (∀ r c : Nat, r < 160 → c < 240 →
        pixel_at m' (front_buffer + 2 * d) r c =
          if in_paddle p r c then p.color % 256 else pixel_at m (front_buffer + 2 * d) r c) ∧
      (∀ r c, r < 160 → c < 240 →
        pixel_at m' (front_buffer + 2 * d') r c = pixel_at m (front_buffer + 2 * d') r c) := by
  have ex : to_short (p.x : Int) = p.x := by unfold to_short; omega
  have ey : to_short (p.y : Int) = p.y := by unfold to_short; omega
  obtain ⟨m', hm', hp⟩ := fill_rect_paints short_incr front_buffer d p.color
    (to_short p.y) (to_short p.x) ((p.y : Int) + p.height) ((p.x : Int) + p.width)
    p.height p.width (by omega) (by omega)
    (fun j hj => by simp only [short_incr, to_short]; omega)
    (fun j hj => by simp only [short_incr, to_short]; omega)
    (by unfold LOOP_FUEL; omega) (by unfold LOOP_FUEL; omega) m
  refine ⟨m', hm', ?_⟩
  rw [ex, ey] at hp
  obtain ⟨h1, -, h3, h4⟩ := fill_rect_pixels d d' hd p.y p.x p.height p.width
    (by omega) (by omega) (by omega) (by omega) hp
  refine ⟨?_, h3⟩
  intro r c hr hc
  by_cases hin : in_paddle p r c
  · rw [if_pos hin]
    unfold in_paddle at hin
    exact h1 r c hr hc (by omega)
  · rw [if_neg hin]
    apply h4 (by omega) (by omega) (by omega) (by omega) r c hr hc
    unfold in_paddle at hin
    omega

theorem kept_black {a b col : Nat} (h : a = col ∨ a = b) (hb : b = col) : a = col := by
  rcases h with h | h
  · exact h
  · rw [h, hb]

/-- Pixels after `update_screen` in a state of the frame loop: on the draw
target every net pixel holds the net colour, every other pixel the erase
passes cover holds the background, every remaining pixel holds the background
or its old value; the other buffer's grid is unchanged. -/
theorem update_screen_pixels (s : State) (he : Entities_ok s) (d d' : Nat)
    (hd : (d = 0 ∧ d' = 20480) ∨ (d = 20480 ∧ d' = 0)) (hb : s.buffer = front_buffer + 2 * d) :
    ∃ m', update_screen s.mem s.buffer s.black s.player s.ai_paddle s.net_color s.b = some m' ∧
      (∀ r c : Nat, r < 160 → c < 240 → net_pixel r c →
        pixel_at m' (front_buffer + 2 * d) r c = 4) ∧
      (∀ r c : Nat, r < 160 → c < 240 → ¬ net_pixel r c → erased s r c →
        pixel_at m' (front_buffer + 2 * d) r c = 3) ∧
      (∀ r c : Nat, r < 160 → c < 240 → ¬ net_pixel r c →
        pixel_at m' (front_buffer + 2 * d) r c = 3 ∨
        pixel_at m' (front_buffer + 2 * d) r c = pixel_at s.mem (front_buffer + 2 * d) r c) ∧
      (∀ r c : Nat, r < 160 → c < 240 →
        pixel_at m' (front_buffer + 2 * d') r c = pixel_at s.mem (front_buffer + 2 * d') r c) := by
  obtain ⟨hpx, hpw, hph, hpy, -, hax, haw, hah, -, hay, hbs, -, hbx, hby, -, -, -, -, hblack, hnet, -⟩ := he
  have c3 : (3 : Nat) % 256 = 3 := rfl
  have c4 : (4 : Nat) % 256 = 4 := rfl
  -- the five passes
  obtain ⟨m1, hm1, hp1⟩ := fill_rect_paints short_incr front_buffer d 3
    (to_short ((s.player.y : Int) - 3)) (to_short ((s.player.x : Int) - 3))
    ((s.player.y : Int) + s.player.height + 3) ((s.player.x : Int) + s.player.width + 3)
    (s.player.height + 6) (s.player.width + 6)
    (by unfold to_short; omega) (by unfold to_short; omega)
    (fun j hj => by simp only [short_incr, to_short]; omega)
    (fun j hj => by simp only [short_incr, to_short]; omega)
    (by unfold LOOP_FUEL; omega) (by unfold LOOP_FUEL; omega) s.mem
  obtain ⟨m2, hm2, hp2⟩ := fill_rect_paints short_incr front_buffer d 3
    (to_short ((s.ai_paddle.y : Int) - 3)) (to_short ((s.ai_paddle.x : Int) - 3))
    ((s.ai_paddle.y : Int) + s.ai_paddle.height + 3)
    ((s.ai_paddle.x : Int) + s.ai_paddle.width + 3)
    (s.ai_paddle.height + 6) (s.ai_paddle.width + 6)
    (by unfold to_short; omega) (by unfold to_short; omega)
    (fun j hj => by simp only [short_incr, to_short]; omega)
    (fun j hj => by simp only [short_incr, to_short]; omega)
    (by unfold LOOP_FUEL; omega) (by unfold LOOP_FUEL; omega) m1
  obtain ⟨m3, hm3, hp3⟩ := fill_rect_paints short_incr front_buffer d 3
    (to_short (s.b.y - 3)) (to_short (s.b.x - 3))
    (s.b.y + s.b.size + 3) (s.b.x + s.b.size + 3) 11 11
    (by unfold to_short; omega) (by unfold to_short; omega)
    (fun j hj => by simp only [short_incr, to_short]; omega)
    (fun j hj => by simp only [short_incr, to_short]; omega)
    (by decide) (by decide) m2
  obtain ⟨m4, hm4, hp4⟩ := strips_paint front_buffer d 3 m3
  obtain ⟨m5, hm5, hp5⟩ := net_paints front_buffer d 4 m4
  refine ⟨m5, ?_, ?_⟩
  · have i1 : to_int (to_int (s.b.y + s.b.size) + 3) = s.b.y + s.b.size + 3 := by
      unfold to_int; omega
    have i2 : to_int (to_int (s.b.x + s.b.size) + 3) = s.b.x + s.b.size + 3 := by
      unfold to_int; omega
    have i3 : to_int (s.b.y - 3) = s.b.y - 3 := by unfold to_int; omega
    have i4 : to_int (s.b.x - 3) = s.b.x - 3 := by unfold to_int; omega
    have hclear : update_screen_clear s.mem (front_buffer + 2 * d) 3 s.player s.ai_paddle s.b =
        some m4 := by
      unfold update_screen_clear
      rw [i1, i2, i3, i4, hm1, Option.bind_eq_bind, Option.some_bind, hm2, Option.some_bind, hm3,
        Option.some_bind]
      exact hm4
    rw [hb, hblack, hnet]
    unfold update_screen
    rw [hclear, Option.bind_eq_bind, Option.some_bind]
    exact hm5
  -- their effect on the pixels
  have e1 : to_short ((s.player.y : Int) - 3) = s.player.y - 3 := by unfold to_short; omega
  have e2 : to_short ((s.player.x : Int) - 3) = s.player.x - 3 := by unfold to_short; omega
  have e3 : to_short ((s.ai_paddle.y : Int) - 3) = s.ai_paddle.y - 3 := by
    unfold to_short; omega
  have e4 : to_short ((s.ai_paddle.x : Int) - 3) = s.ai_paddle.x - 3 := by
    unfold to_short; omega
  have e5 : to_short (s.b.y - 3) = s.b.y - 3 := by unfold to_short; omega
  have e6 : to_short (s.b.x - 3) = s.b.x - 3 := by unfold to_short; omega
  rw [c3, e1, e2] at hp1
  rw [c3, e3, e4] at hp2
  rw [c3, e5, e6] at hp3
  rw [c3] at hp4
  rw [c4] at hp5
  obtain ⟨p1, k1, o1, -⟩ := fill_rect_pixels d d' hd _ _ _ _
    (by omega) (by omega) (by omega) (by omega) hp1
  obtain ⟨p2, k2, o2, -⟩ := fill_rect_pixels d d' hd _ _ _ _
    (by omega) (by omega) (by omega) (by omega) hp2
  obtain ⟨p3, k3, o3, -⟩ := fill_rect_pixels d d' hd _ _ _ _
    (by omega) (by omega) (by omega) (by omega) hp3
  obtain ⟨p4, k4, o4⟩ := strips_pixels d d' hd hp4
  obtain ⟨p5, o5⟩ := net_pixels d d' hd hp5
  refine ⟨?_, ?_, ?_, ?_⟩
  · intro r c hr hc hn
    rw [p5 r c hr hc, if_pos hn]
  · intro r c hr hc hn her
    rw [p5 r c hr hc, if_neg hn]
    rcases her with h | h | h | h
    · unfold in_halo at h
      have q1 := p1 r c hr hc (by omega)
      have q2 := kept_black (k2 r c hr hc) q1
      have q3 := kept_black (k3 r c hr hc) q2
      exact kept_black (k4 r c hr hc) q3
    · unfold in_halo at h
      have q2 := p2 r c hr hc (by omega)
      have q3 := kept_black (k3 r c hr hc) q2
      exact kept_black (k4 r c hr hc) q3
    · unfold in_halo at h
      have q3 := p3 r c hr hc (by omega)
      exact kept_black (k4 r c hr hc) q3
    · exact p4 r c hr hc h
  · intro r c hr hc hn
    rw [p5 r c hr hc, if_neg hn]
    rcases k4 r c hr hc with h | h
    · exact Or.inl h
    · rw [h]
      rcases k3 r c hr hc with h | h
      · exact Or.inl h
      · rw [h]
        rcases k2 r c hr hc with h | h
        · exact Or.inl h
        · rw [h]
          exact k1 r c hr hc
  · intro r c hr hc
    rw [o5 r c hr hc, o4 r c hr hc, o3 r c hr hc, o2 r c hr hc, o1 r c hr hc]

/-! ## The frame loop -/

/-- One `update_ball` step on a ball of the frame loop: the position stays in
`1 <= x <= 239`, `0 <= y <= 160`, the vertical velocity stays a unit pointing
into the screen at the walls, and the old position lies in the erase halo of
the new one or in an edge strip. -/
theorem ball_step_facts (b : ball) (hx : 1 ≤ b.x ∧ b.x ≤ 239) (hy : 0 ≤ b.y ∧ b.y ≤ 160)
    (hdx : b.dx = 1 ∨ b.dx = -1) (hdy : b.dy = 1 ∨ b.dy = -1)
    (ht : b.y = 0 → b.dy = 1) (hb : b.y = 160 → b.dy = -1) :
    (1 ≤ moved_x b ∧ moved_x b ≤ 239) ∧ (0 ≤ moved_y b ∧ moved_y b ≤ 160) ∧
    ((if b.y + b.dy ≤ 0 ∨ b.y + b.dy ≥ 160 then -b.dy else b.dy) = 1 ∨
      (if b.y + b.dy ≤ 0 ∨ b.y + b.dy ≥ 160 then -b.dy else b.dy) = -1) ∧
    (moved_y b = 0 → (if b.y + b.dy ≤ 0 ∨ b.y + b.dy ≥ 160 then -b.dy else b.dy) = 1) ∧
    (moved_y b = 160 → (if b.y + b.dy ≤ 0 ∨ b.y + b.dy ≥ 160 then -b.dy else b.dy) = -1) ∧
    (∀ r c : Nat, (r : Int) = b.y → (c : Int) = b.x →
      (moved_y b - 3 ≤ r ∧ (r : Int) < moved_y b + 5 + 3 ∧ moved_x b - 3 ≤ c ∧
        (c : Int) < moved_x b + 5 + 3) ∨ c < 3 ∨ 237 ≤ c) := by
  unfold moved_x moved_y
  have ht' := not_or_of_imp ht
  have hb' := not_or_of_imp hb
  clear ht hb
  rcases hdx with h1 | h1 <;> rcases hdy with h2 | h2 <;> refine ⟨?_, ?_, ?_, ?_, ?_, ?_⟩
  all_goals first
    | (intro r c hr hc; split_ifs <;> omega)
    | (intro h0; split_ifs at h0 ⊢ <;> omega)
    | (split_ifs <;> omega)

/-- The simulation step of one iteration keeps the entity facts, and every
pixel of the entities before the step is covered by the erase passes run on
the entities after the step. -/
theorem entities_step (s s' : State) (reads : Nat × Nat) (he : Entities_ok s)
    (hp : s'.player = handle_buttons s.player reads.1 reads.2)
    (ha : s'.ai_paddle = (update_ai_paddle s.ai_paddle s.ai_direction).1)
    (hdir : s'.ai_direction = (update_ai_paddle s.ai_paddle s.ai_direction).2)
    (hb : s'.b = (update_ball s.b s'.player s'.ai_paddle s.sc).1)
    (hblack : s'.black = s.black) (hnet : s'.net_color = s.net_color)
    (hbuf : s'.buffer = front_buffer ∨ s'.buffer = back_buffer) :
    Entities_ok s' ∧
    (∀ r c : Nat, r < 160 → c < 240 →
      (in_paddle s.player r c ∨ in_paddle s.ai_paddle r c ∨ is_ball_pixel s.b r c) →
      erased s' r c) := by
  have hP := handle_buttons_on_screen s.player reads.1 reads.2
    (by have := he.player_y; have := he.player_height; omega)
  rw [← hp] at hP
  obtain ⟨P1, P2, P3, P4, P5, P6, P7⟩ := hP
  have hA := update_ai_paddle_step s.ai_paddle s.ai_direction he.ai_height he.ai_y
  rw [← ha, ← hdir] at hA
  obtain ⟨A1, A2, A3, A4, A5, A6⟩ := hA
  obtain ⟨B1, B2, B3, B4, B5, B6⟩ := ball_step_facts s.b he.ball_x he.ball_y he.ball_dx
    he.ball_dy he.ball_top he.ball_bottom
  rw [update_ball_in_frame s.b _ _ _ he.ball_x he.ball_y he.ball_dx he.ball_dy he.ball_size]
    at hb
  have bx : s'.b.x = moved_x s.b := by rw [hb]
  have by' : s'.b.y = moved_y s.b := by rw [hb]
  have bs : s'.b.size = s.b.size := by rw [hb]
  have bc : s'.b.color = s.b.color := by rw [hb]
  have bdy : s'.b.dy = if s.b.y + s.b.dy ≤ 0 ∨ s.b.y + s.b.dy ≥ 160 then -s.b.dy else s.b.dy := by
    rw [hb]
  have bdx : s'.b.dx = s.b.dx ∨ s'.b.dx = -s.b.dx := by
    rw [hb]
    dsimp only
    split_ifs <;> simp
  constructor
  · exact {
      player_x := P1.trans he.player_x
      player_width := P2.trans he.player_width
      player_height := P3.trans he.player_height
      player_y := by have := he.player_height; omega
      player_color := by rw [P4]; exact he.player_color
      ai_x := A1.trans he.ai_x
      ai_width := A2.trans he.ai_width
      ai_height := A3
      ai_color := by rw [A4]; exact he.ai_color
      ai_y := A5
      ball_size := bs.trans he.ball_size
      ball_color := by rw [bc]; exact he.ball_color
      ball_x := by rw [bx]; exact B1
      ball_y := by rw [by']; exact B2
      ball_dx := by
        rcases he.ball_dx with h | h <;> rcases bdx with h' | h' <;> rw [h'] <;> rw [h] <;> simp
      ball_dy := by rw [bdy]; exact B3
      ball_top := by rw [by', bdy]; exact B4
      ball_bottom := by rw [by', bdy]; exact B5
      black_eq := hblack.trans he.black_eq
      net_eq := hnet.trans he.net_eq
      buffer_eq := hbuf }
  · intro r c hr hc hin
    unfold erased in_halo
    rcases hin with h | h | h
    · unfold in_paddle at h
      have := he.player_height
      left
      rw [P1, P2, P3]
      omega
    · unfold in_paddle at h
      have := he.ai_height
      right; left
      rw [A1, A2, A3]
      omega
    · unfold is_ball_pixel at h
      right; right
      have := B6 r c h.1 h.2
      rw [bx, by', bs, he.ball_size]
      omega

theorem buffer_offsets (buffer : Nat) (h : buffer = front_buffer ∨ buffer = back_buffer) :
    ∃ d d', ((d = 0 ∧ d' = 20480) ∨ (d = 20480 ∧ d' = 0)) ∧
      buffer = front_buffer + 2 * d ∧ other_buffer buffer = front_buffer + 2 * d' ∧
      other_buffer (other_buffer buffer) = buffer ∧
      (other_buffer buffer = front_buffer ∨ other_buffer buffer = back_buffer) := by
  rcases h with h | h
  · refine ⟨0, 20480, Or.inl ⟨rfl, rfl⟩, ?_⟩
    rw [h]; decide
  · refine ⟨20480, 0, Or.inr ⟨rfl, rfl⟩, ?_⟩
    rw [h]; decide

/-- One draw phase from a state satisfying the loop invariant: it terminates,
leaves the draw target and the display control alone, keeps the entity facts,
leaves on the draw target the background and the net outside the entities it
has just drawn, and leaves the other buffer ready to be the next target. -/
theorem draw_phase_spec (s : State) (reads : Nat × Nat) (h : Loop_inv s) :
    ∃ s', draw_phase s reads = some s' ∧ s'.buffer = s.buffer ∧
      s'.display_control = s.display_control ∧ Entities_ok s' ∧
      (∀ r c, r < 160 → c < 240 → ¬ in_paddle s'.player r c → ¬ in_paddle s'.ai_paddle r c →
        ¬ is_ball_pixel s'.b r c →
        pixel_at s'.mem s'.buffer r c = if net_pixel r c then s'.net_color else s'.black) ∧
      (∀ r c, r < 160 → c < 240 → ¬ net_pixel r c → ¬ erased s' r c →
        pixel_at s'.mem (other_buffer s'.buffer) r c = s'.black) := by
  obtain ⟨he, hshown, htarget⟩ := h
  obtain ⟨d, d', hd, hb, ho, -, -⟩ := buffer_offsets s.buffer he.buffer_eq
  obtain ⟨m1, hm1, n1, e1, k1, o1⟩ := update_screen_pixels s he d d' hd hb
  -- the state after the simulation step, with the memory still to be drawn
  let s1 : State :=
    { s with mem := m1, player := handle_buttons s.player reads.1 reads.2,
             ai_paddle := (update_ai_paddle s.ai_paddle s.ai_direction).1,
             ai_direction := (update_ai_paddle s.ai_paddle s.ai_direction).2,
             b := (update_ball s.b (handle_buttons s.player reads.1 reads.2)
                    (update_ai_paddle s.ai_paddle s.ai_direction).1 s.sc).1,
             sc := (update_ball s.b (handle_buttons s.player reads.1 reads.2)
                    (update_ai_paddle s.ai_paddle s.ai_direction).1 s.sc).2 }
  obtain ⟨he1, hcov⟩ := entities_step s s1 reads he rfl rfl rfl rfl rfl rfl he.buffer_eq
  obtain ⟨m2, hm2, p2, o2⟩ := draw_paddle_pixels m1 d d' hd s1.player
    (by have := he1.player_x; have := he1.player_width; omega)
    (by have := he1.player_y; have := he1.player_height; omega)
  obtain ⟨m3, hm3, p3, o3⟩ := draw_paddle_pixels m2 d d' hd s1.ai_paddle
    (by have := he1.ai_x; have := he1.ai_width; omega)
    (by have := he1.ai_y; have := he1.ai_height; omega)
  obtain ⟨p4, o4⟩ := draw_ball_pixels m3 d d' hd s1.b
    (by have := he1.ball_x; omega) he1.ball_y
  rw [← hb] at hm2 hm3 p2 p3 p4 n1 e1 k1 o4
  rw [← ho] at o1 o2 o3 o4
  refine ⟨{ s1 with mem := draw_ball m3 s.buffer s1.b }, ?_, rfl, rfl, ?_, ?_, ?_⟩
  · unfold draw_phase
    rw [hm1, Option.bind_eq_bind, Option.some_bind]
    dsimp only
    rw [hm2, Option.some_bind, hm3, Option.some_bind]
  · exact (entities_step s { s1 with mem := draw_ball m3 s.buffer s1.b } reads he rfl rfl rfl rfl
      rfl rfl he.buffer_eq).1
  · intro r c hr hc hp ha hball
    show pixel_at (draw_ball m3 s.buffer s1.b) s.buffer r c = if net_pixel r c then s.net_color
      else s.black
    rw [p4 r c hr hc, if_neg hball, p3 r c hr hc, if_neg ha, p2 r c hr hc, if_neg hp,
      he.net_eq, he.black_eq]
    by_cases hn : net_pixel r c
    · rw [if_pos hn]; exact n1 r c hr hc hn
    · rw [if_neg hn]
      by_cases her : erased s r c
      · exact e1 r c hr hc hn her
      · apply kept_black (k1 r c hr hc hn)
        rw [htarget r c hr hc hn her, he.black_eq]
  · intro r c hr hc hn her
    show pixel_at (draw_ball m3 s.buffer s1.b) (other_buffer s.buffer) r c = s.black
    rw [o4 r c hr hc, o3 r c hr hc, o2 r c hr hc, o1 r c hr hc]
    apply hshown r c hr hc hn
    · intro hin; exact her (hcov r c hr hc (Or.inl hin))
    · intro hin; exact her (hcov r c hr hc (Or.inr (Or.inl hin)))
    · intro hin; exact her (hcov r c hr hc (Or.inr (Or.inr hin)))

/-- The writes of one draw phase from a state satisfying the loop invariant:
the phase is `update_screen`, two `draw_paddle` calls and `draw_ball`, each on
the draw target `s.buffer`, and after each of them every pixel of the other
buffer's grid reads what it read before the phase. -/
theorem draw_phase_writes (s : State) (reads : Nat × Nat) (h : Loop_inv s) :
    ∃ s' m1 m2 m3, draw_phase s reads = some s' ∧
      update_screen s.mem s.buffer s.black s.player s.ai_paddle s.net_color s.b = some m1 ∧
      draw_paddle m1 s.buffer s'.player = some m2 ∧
      draw_paddle m2 s.buffer s'.ai_paddle = some m3 ∧
      s'.mem = draw_ball m3 s.buffer s'.b ∧
      ∀ r c, r < 160 → c < 240 →
        pixel_at m1 (other_buffer s.buffer) r c = pixel_at s.mem (other_buffer s.buffer) r c ∧
        pixel_at m2 (other_buffer s.buffer) r c = pixel_at s.mem (other_buffer s.buffer) r c ∧
        pixel_at m3 (other_buffer s.buffer) r c = pixel_at s.mem (other_buffer s.buffer) r c ∧
        pixel_at s'.mem (other_buffer s.buffer) r c =
          pixel_at s.mem (other_buffer s.buffer) r c := by
  obtain ⟨he, -, -⟩ := h
  obtain ⟨d, d', hd, hb, ho, -, -⟩ := buffer_offsets s.buffer he.buffer_eq
  obtain ⟨m1, hm1, -, -, -, o1⟩ := update_screen_pixels s he d d' hd hb
  let s1 : State :=
    { s with mem := m1, player := handle_buttons s.player reads.1 reads.2,
             ai_paddle := (update_ai_paddle s.ai_paddle s.ai_direction).1,
             ai_direction := (update_ai_paddle s.ai_paddle s.ai_direction).2,
             b := (update_ball s.b (handle_buttons s.player reads.1 reads.2)
                    (update_ai_paddle s.ai_paddle s.ai_direction).1 s.sc).1,
             sc := (update_ball s.b (handle_buttons s.player reads.1 reads.2)
                    (update_ai_paddle s.ai_paddle s.ai_direction).1 s.sc).2 }
  obtain ⟨he1, -⟩ := entities_step s s1 reads he rfl rfl rfl rfl rfl rfl he.buffer_eq
  obtain ⟨m2, hm2, -, o2⟩ := draw_paddle_pixels m1 d d' hd s1.player
    (by have := he1.player_x; have := he1.player_width; omega)
    (by have := he1.player_y; have := he1.player_height; omega)
  obtain ⟨m3, hm3, -, o3⟩ := draw_paddle_pixels m2 d d' hd s1.ai_paddle
    (by have := he1.ai_x; have := he1.ai_width; omega)
    (by have := he1.ai_y; have := he1.ai_height; omega)
  obtain ⟨-, o4⟩ := draw_ball_pixels m3 d d' hd s1.b
    (by have := he1.ball_x; omega) he1.ball_y
  rw [← hb] at hm2 hm3 o4
  rw [← ho] at o1 o2 o3 o4
  refine ⟨{ s1 with mem := draw_ball m3 s.buffer s1.b }, m1, m2, m3, ?_, hm1, hm2, hm3, rfl, ?_⟩
  · unfold draw_phase
    rw [hm1, Option.bind_eq_bind, Option.some_bind]
    dsimp only
    rw [hm2, Option.some_bind, hm3, Option.some_bind]
  · intro r c hr hc
    refine ⟨o1 r c hr hc, ?_, ?_, ?_⟩
    · rw [o2 r c hr hc, o1 r c hr hc]
    · rw [o3 r c hr hc, o2 r c hr hc, o1 r c hr hc]
    · show pixel_at (draw_ball m3 s.buffer s1.b) (other_buffer s.buffer) r c = _
      rw [o4 r c hr hc, o3 r c hr hc, o2 r c hr hc, o1 r c hr hc]

/-- A draw target that is one of the two buffers and is not the displayed
buffer: the displayed buffer is the other one. -/
theorem displayed_is_other (display_control buffer : Nat)
    (h : buffer = front_buffer ∨ buffer = back_buffer)
    (hne : buffer ≠ displayed_buffer display_control) :
    displayed_buffer display_control = other_buffer buffer := by
  unfold displayed_buffer other_buffer at *
  have hfb : ¬ (back_buffer = front_buffer) := by decide
  rcases h with h | h <;> subst h <;> split_ifs at hne ⊢ <;> simp_all

theorem clear_show_back (x : Nat) : (x &&& (2 ^ 32 - 1 - 16)) &&& 16 = 0 := by
  rw [Nat.and_assoc]
  have : (2 ^ 32 - 1 - 16) &&& 16 = 0 := by decide
  rw [this, Nat.and_zero]

theorem set_show_back (x : Nat) : ((x ||| 16) % 2 ^ 32) &&& 16 ≠ 0 := by
  have e16 : (16 : Nat) = 2 ^ 4 := by norm_num
  have hb : ((x ||| 2 ^ 4) % 2 ^ 32).testBit 4 = true := by
    rw [Nat.testBit_mod_two_pow, Nat.testBit_or, Nat.testBit_two_pow_self]
    simp
  rw [e16, Nat.and_two_pow, hb]
  decide

/-- After `flip_buffers` on one of the two buffers, the display shows the
buffer that was passed in and the returned pointer is the other buffer. -/
theorem flip_buffers_spec (display_control buffer : Nat)
    (h : buffer = front_buffer ∨ buffer = back_buffer) :
    (flip_buffers display_control buffer).2 = other_buffer buffer ∧
    displayed_buffer (flip_buffers display_control buffer).1 = buffer ∧
    (flip_buffers display_control buffer).2 ≠
      displayed_buffer (flip_buffers display_control buffer).1 := by
  rcases h with h | h
  · subst h
    have e : (flip_buffers display_control front_buffer) =
        (display_control &&& (2 ^ 32 - 1 - SHOW_BACK), back_buffer) := by
      simp [flip_buffers]
    have hd : displayed_buffer (display_control &&& (2 ^ 32 - 1 - SHOW_BACK)) = front_buffer := by
      unfold displayed_buffer SHOW_BACK
      rw [clear_show_back]
      simp
    rw [e]
    refine ⟨?_, hd, ?_⟩
    · show back_buffer = other_buffer front_buffer
      decide
    · rw [hd]
      show back_buffer ≠ front_buffer
      decide
  · subst h
    have e : (flip_buffers display_control back_buffer) =
        ((display_control ||| SHOW_BACK) % 2 ^ 32, front_buffer) := by
      have : ¬ (back_buffer = front_buffer) := by decide
      simp [flip_buffers, this]
    have hd : displayed_buffer ((display_control ||| SHOW_BACK) % 2 ^ 32) = back_buffer := by
      unfold displayed_buffer SHOW_BACK
      rw [if_pos (set_show_back display_control)]
    rw [e]
    refine ⟨?_, hd, ?_⟩
    · show front_buffer = other_buffer back_buffer
      decide
    · rw [hd]
      show front_buffer ≠ back_buffer
      decide

/-- One full iteration from a state satisfying the loop invariant: it
terminates in a state satisfying the invariant, whose draw target is the other
buffer and is not the displayed one. -/
theorem iteration_spec (s : State) (reads : Nat × Nat) (h : Loop_inv s) :
    ∃ s', iteration s reads = some s' ∧ Loop_inv s' ∧
      s'.buffer ≠ displayed_buffer s'.display_control := by
  obtain ⟨s1, h1, hbuf, -, he1, hdrawn, hnext⟩ := draw_phase_spec s reads h
  have hb1 : s1.buffer = front_buffer ∨ s1.buffer = back_buffer := he1.buffer_eq
  obtain ⟨f1, f2, f3⟩ := flip_buffers_spec s1.display_control s1.buffer hb1
  obtain ⟨d, d', hd, hb, ho, hoo, hob⟩ := buffer_offsets s1.buffer hb1
  refine ⟨{ s1 with display_control := (flip_buffers s1.display_control s1.buffer).1,
                    buffer := (flip_buffers s1.display_control s1.buffer).2 }, ?_, ?_, f3⟩
  · unfold iteration
    rw [h1, Option.bind_eq_bind, Option.some_bind]
  · refine ⟨?_, ?_, ?_⟩
    · exact { he1 with buffer_eq := by show (flip_buffers _ _).2 = _ ∨ _; rw [f1]; exact hob }
    · intro r c hr hc hn hp ha hball
      show pixel_at s1.mem (other_buffer (flip_buffers _ _).2) r c = s1.black
      rw [f1, hoo, hdrawn r c hr hc hp ha hball, if_neg hn]
    · intro r c hr hc hn her
      show pixel_at s1.mem (flip_buffers _ _).2 r c = s1.black
      rw [f1]
      exact hnext r c hr hc hn her

/-- Pixels after `clear_screen`: the whole grid of the buffer holds the colour,
the grid of the other buffer is unchanged. -/
theorem clear_screen_pixels (m : Mem) (d d' : Nat)
    (hd : (d = 0 ∧ d' = 20480) ∨ (d = 20480 ∧ d' = 0)) (color : Nat) :
    ∃ m', clear_screen m (front_buffer + 2 * d) color = some m' ∧
      (∀ r c : Nat, r < 160 → c < 240 →
        pixel_at m' (front_buffer + 2 * d) r c = color % 256) ∧
      (∀ r c : Nat, r < 160 → c < 240 →
        pixel_at m' (front_buffer + 2 * d') r c = pixel_at m (front_buffer + 2 * d') r c) := by
  obtain ⟨m', hm', hp⟩ := fill_rect_paints ushort_incr front_buffer d color 0 0 HEIGHT WIDTH
    160 240 (by decide) (by decide)
    (fun j hj => by simp only [ushort_incr]; omega)
    (fun j hj => by simp only [ushort_incr]; omega)
    (by decide) (by decide) m
  refine ⟨m', hm', ?_⟩
  obtain ⟨h1, -, h3, -⟩ := fill_rect_pixels d d' hd 0 0 160 240
    (by omega) (by omega) (by omega) (by omega) hp
  exact ⟨fun r c hr hc => h1 r c hr hc (by omega), h3⟩

/-- The state `main` reaches before its loop: it exists for every initial
memory, its entities are the ones `main` creates, the display control is
`MODE4 | BG2`, the draw target is the front buffer, and both grids hold the
background colour. -/
theorem main_init_spec (mem : Mem) :
    ∃ s, main_init mem = some s ∧ Loop_inv s ∧ s.buffer = front_buffer ∧
      s.display_control = MODE4 ||| BG2 ∧
      s.player = ⟨20, 60, 5, 25, 0⟩ ∧ s.ai_paddle = ⟨225, 10, 5, 30, 1⟩ ∧
      s.b = ⟨120, 80, 5, 1, 1, 2⟩ ∧ s.ai_direction = 1 ∧ s.sc = ⟨0, 0⟩ := by
  have e0 : ∀ m i r g b, (add_color m i r g b).2.1 = to_int (i + 1) := fun _ _ _ _ _ => rfl
  have e1 : ∀ m i r g b,
      (add_color m i r g b).2.2 = (to_int (to_int (i + 1) - 1) % 256).toNat :=
    fun _ _ _ _ _ => rfl
  obtain ⟨mc, hmc⟩ : ∃ mc, main_init mem =
      (clear_screen mc (front_buffer + 2 * 0) 3).bind (fun m =>
        (clear_screen m (front_buffer + 2 * 20480) 3).bind (fun m' =>
          some ⟨m', MODE4 ||| BG2, front_buffer, ⟨20, 60, 5, 25, 0⟩, ⟨225, 10, 5, 30, 1⟩,
            ⟨120, 80, 5, 1, 1, 2⟩, 3, 4, 1, ⟨0, 0⟩, 5⟩)) := by
    refine ⟨(add_color (add_color (add_color (add_color (add_color mem 0 15 15 15).1 1 15 15 15).1
      2 15 15 15).1 3 0 0 0).1 4 15 15 15).1, ?_⟩
    unfold main_init
    simp only [e0, e1]
    have i1 : to_int (0 + 1) = 1 := by decide
    have i2 : to_int (1 + 1) = 2 := by decide
    have i3 : to_int (2 + 1) = 3 := by decide
    have i4 : to_int (3 + 1) = 4 := by decide
    have i5 : to_int (4 + 1) = 5 := by decide
    have n0 : (to_int (1 - 1) % 256).toNat = 0 := by decide
    have n1 : (to_int (2 - 1) % 256).toNat = 1 := by decide
    have n2 : (to_int (3 - 1) % 256).toNat = 2 := by decide
    have n3 : (to_int (4 - 1) % 256).toNat = 3 := by decide
    have n4 : (to_int (5 - 1) % 256).toNat = 4 := by decide
    have w1 : to_ushort (WIDTH - 15) = 225 := by decide
    have w2 : WIDTH / 2 = 120 := by decide
    have w3 : HEIGHT / 2 = 80 := by decide
    have b1 : back_buffer = front_buffer + 2 * 20480 := by decide
    rw [i1, i2, i3, i4, i5, n0, n1, n2, n3, n4, w1, w2, w3, b1]
    rfl
  obtain ⟨m1, hm1, p1, o1⟩ := clear_screen_pixels mc 0 20480 (Or.inl ⟨rfl, rfl⟩) 3
  obtain ⟨m2, hm2, p2, o2⟩ := clear_screen_pixels m1 20480 0 (Or.inr ⟨rfl, rfl⟩) 3
  refine ⟨⟨m2, MODE4 ||| BG2, front_buffer, ⟨20, 60, 5, 25, 0⟩, ⟨225, 10, 5, 30, 1⟩,
    ⟨120, 80, 5, 1, 1, 2⟩, 3, 4, 1, ⟨0, 0⟩, 5⟩, ?_, ?_, rfl, rfl, rfl, rfl, rfl, rfl, rfl⟩
  · rw [hmc, hm1, Option.some_bind, hm2, Option.some_bind]
  · refine ⟨?_, ?_, ?_⟩
    · exact {
        player_x := rfl
        player_width := rfl
        player_height := rfl
        player_y := by norm_num
        player_color := by norm_num
        ai_x := rfl
        ai_width := rfl
        ai_height := rfl
        ai_color := by norm_num
        ai_y := Or.inl ⟨rfl, by norm_num⟩
        ball_size := rfl
        ball_color := by norm_num
        ball_x := by norm_num
        ball_y := by norm_num
        ball_dx := Or.inl rfl
        ball_dy := Or.inl rfl
        ball_top := by norm_num
        ball_bottom := by norm_num
        black_eq := rfl
        net_eq := rfl
        buffer_eq := Or.inl rfl }
    · intro r c hr hc _ _ _ _
      show pixel_at m2 (other_buffer front_buffer) r c = 3
      have e : other_buffer front_buffer = front_buffer + 2 * 20480 := by decide
      rw [e]
      exact p2 r c hr hc
    · intro r c hr hc _ _
      show pixel_at m2 front_buffer r c = 3
      have e : front_buffer = front_buffer + 2 * 0 := by decide
      rw [e, o2 r c hr hc]
      exact p1 r c hr hc

/-- The frame loop runs forever: for every initial memory and every sequence
of button reads, the state at the top of the loop exists after any number of
iterations and satisfies the loop invariant; after the first iteration the
draw target is never the displayed buffer. -/
theorem main_loop_spec (mem : Mem) (inputs : Nat → Nat × Nat) (n : Nat) :
    ∃ s, main_loop mem inputs n = some s ∧ Loop_inv s ∧
      (1 ≤ n → s.buffer ≠ displayed_buffer s.display_control) := by
  induction n with
  | zero =>
    obtain ⟨s, hs, hi, -⟩ := main_init_spec mem
    exact ⟨s, hs, hi, fun h => absurd h (by decide)⟩
  | succ n ih =>
    obtain ⟨s, hs, hi, -⟩ := ih
    obtain ⟨s', hs', hi', hd⟩ := iteration_spec s (inputs n) hi
    refine ⟨s', ?_, hi', fun _ => hd⟩
    show (main_loop mem inputs n).bind _ = _
    rw [hs, Option.some_bind, hs']

/-- C2: in the frame loop of `main`, started from any memory (both buffers are
cleared to the background colour by `main` itself) and run with any sequence
of button-register reads, every iteration reaches the end of its draw phase,
and there every pixel of the draw target's 240x160 grid that lies outside
both paddles' current rectangles and is not the ball's drawn pixel reads the
background colour (index 3), or the net colour (index 4) when it is a net
pixel `(r, 120)` with `r mod 4 = 0`. -/
theorem C2_draw_target_clean_outside_entities (mem : Mem) (inputs : Nat → Nat × Nat) (n : Nat) :
    ∃ s s', main_loop mem inputs n = some s ∧ draw_phase s (inputs n) = some s' ∧
      s'.black = 3 ∧ s'.net_color = 4 ∧
      ∀ r c, r < 160 → c < 240 → ¬ in_paddle s'.player r c → ¬ in_paddle s'.ai_paddle r c →
        ¬ ((r : Int) = s'.b.y ∧ (c : Int) = s'.b.x) →
        pixel_at s'.mem s'.buffer r c =
          if c = 120 ∧ r % 4 = 0 then s'.net_color else s'.black := by
  obtain ⟨s, hs, hi, -⟩ := main_loop_spec mem inputs n
  obtain ⟨s', hs', -, -, he, hdrawn, -⟩ := draw_phase_spec s (inputs n) hi
  exact ⟨s, s', hs, hs', he.black_eq, he.net_eq, fun r c hr hc hp ha hb =>
    hdrawn r c hr hc hp ha hb⟩

/-- C3 as stated fails in the first iteration: `main` starts with
`buffer = front_buffer` while the display control `MODE4 | BG2` has `SHOW_BACK`
clear, so the first draw phase writes into the displayed buffer. -/
theorem C3_counterexample_first_iteration_draws_on_displayed_buffer :
    ∃ s s', main_loop (fun _ => 0) (fun _ => (0, 0)) 0 = some s ∧
      draw_phase s (0, 0) = some s' ∧
      s.buffer = displayed_buffer s.display_control ∧
      s'.buffer = displayed_buffer s'.display_control := by
  obtain ⟨s, hs, hi, hb, hd, -⟩ := main_init_spec (fun _ => 0)
  obtain ⟨s', hs', hb', hd', -⟩ := draw_phase_spec s (0, 0) hi
  have e : front_buffer = displayed_buffer (MODE4 ||| BG2) := by decide
  refine ⟨s, s', hs, hs', ?_, ?_⟩
  · rw [hb, hd]; exact e
  · rw [hb', hd', hb, hd]; exact e

/-- C3, amended: in every iteration of the frame loop of `main`, the draw phase
is `update_screen`, `draw_paddle` for each paddle and `draw_ball`, all called on
the draw target `buffer`, and it changes neither the draw target nor the display
control.  In every iteration after the first, the draw target is not the buffer
the `SHOW_BACK` bit selects for display, and the writes of the draw phase leave
the displayed picture alone: after `update_screen`, after each `draw_paddle` and
after `draw_ball`, every pixel of the displayed buffer's 240x160 grid reads what
it read when the iteration began.  In the first iteration the draw target is
`front_buffer`, the displayed buffer. -/
theorem C3_draw_target_hidden_after_first_iteration (mem : Mem) (inputs : Nat → Nat × Nat)
    (n : Nat) :
    ∃ s s', main_loop mem inputs n = some s ∧ draw_phase s (inputs n) = some s' ∧
      s'.buffer = s.buffer ∧ s'.display_control = s.display_control ∧
      (1 ≤ n → s.buffer ≠ displayed_buffer s.display_control) ∧
      (n = 0 → s.buffer = front_buffer ∧ displayed_buffer s.display_control = front_buffer) ∧
      ∃ m1 m2 m3,
        update_screen s.mem s.buffer s.black s.player s.ai_paddle s.net_color s.b = some m1 ∧
        draw_paddle m1 s.buffer s'.player = some m2 ∧
        draw_paddle m2 s.buffer s'.ai_paddle = some m3 ∧
        s'.mem = draw_ball m3 s.buffer s'.b ∧
        (1 ≤ n → ∀ r c, r < 160 → c < 240 →
          pixel_at m1 (displayed_buffer s.display_control) r c =
            pixel_at s.mem (displayed_buffer s.display_control) r c ∧
          pixel_at m2 (displayed_buffer s.display_control) r c =
            pixel_at s.mem (displayed_buffer s.display_control) r c ∧
          pixel_at m3 (displayed_buffer s.display_control) r c =
            pixel_at s.mem (displayed_buffer s.display_control) r c ∧
          pixel_at s'.mem (displayed_buffer s'.display_control) r c =
            pixel_at s.mem (displayed_buffer s.display_control) r c) := by
  obtain ⟨s, hs, hi, hhid⟩ := main_loop_spec mem inputs n
  obtain ⟨s', hs', hb', hd', -⟩ := draw_phase_spec s (inputs n) hi
  obtain ⟨s2, m1, m2, m3, hs2, w1, w2, w3, w4, wo⟩ := draw_phase_writes s (inputs n) hi
  have e2 : s2 = s' := Option.some.inj (hs2.symm.trans hs')
  subst e2
  refine ⟨s, s2, hs, hs', hb', hd', hhid, ?_, m1, m2, m3, w1, w2, w3, w4, ?_⟩
  · intro h0
    subst h0
    obtain ⟨s0, hs0, -, hb, hd, -⟩ := main_init_spec mem
    have e : s = s0 := Option.some.inj (hs.symm.trans hs0)
    rw [e, hb, hd]
    exact ⟨rfl, by decide⟩
  · intro h1 r c hr hc
    rw [hd', displayed_is_other s.display_control s.buffer hi.ent.buffer_eq (hhid h1)]
    exact wo r c hr hc

/-! ## Pixel surface: rectangles and the net -/

/-- C12: for every memory content, every buffer and every paddle that lies
inside the screen (`x + width <= 240`, `y + height <= 160`), `draw_paddle`
returns, and afterwards every pixel `(r, c)` with `y <= r < y + height` and
`x <= c < x + width` reads the paddle's colour while every other pixel of the
240x160 grid reads what it read before. -/
theorem C12_draw_paddle_fills_exactly_its_rectangle (mem : Mem) (buffer : Nat) (p : paddle)
    (hx : p.x + p.width ≤ 240) (hy : p.y + p.height ≤ 160) (hc : p.color ≤ 255) :
    ∃ mem', draw_paddle mem buffer p = some mem' ∧
      (∀ r c : Nat, r < 160 → c < 240 →
        (p.y ≤ r ∧ r < p.y + p.height ∧ p.x ≤ c ∧ c < p.x + p.width) →
        pixel_at mem' buffer r c = p.color) ∧
      (∀ r c : Nat, r < 160 → c < 240 →
        ¬ (p.y ≤ r ∧ r < p.y + p.height ∧ p.x ≤ c ∧ c < p.x + p.width) →
        pixel_at mem' buffer r c = pixel_at mem buffer r c) := by
  have ex : to_short (p.x : Int) = p.x := by unfold to_short; omega
  have ey : to_short (p.y : Int) = p.y := by unfold to_short; omega
  have hcol : p.color % 256 = p.color := by omega
  obtain ⟨m', hm', hp⟩ := fill_rect_paints short_incr buffer 0 p.color
    (to_short p.y) (to_short p.x) ((p.y : Int) + p.height) ((p.x : Int) + p.width)
    p.height p.width (by omega) (by omega)
    (fun j hj => by simp only [short_incr, to_short]; omega)
    (fun j hj => by simp only [short_incr, to_short]; omega)
    (by unfold LOOP_FUEL; omega) (by unfold LOOP_FUEL; omega) mem
  refine ⟨m', hm', ?_⟩
  rw [ex, ey, hcol] at hp
  obtain ⟨h1, -, -, h4⟩ := fill_rect_pixels 0 20480 (Or.inl ⟨rfl, rfl⟩) p.y p.x p.height p.width
    (by omega) (by omega) (by omega) (by omega) hp
  constructor
  · intro r c hr hc' hin
    exact h1 r c hr hc' (by omega)
  · intro r c hr hc' hout
    exact h4 (by omega) (by omega) (by omega) (by omega) r c hr hc' (by omega)

/-- C12 at the player paddle `main` creates, on the front buffer. -/
theorem C12_draw_paddle_witness :
    (20 + 5 ≤ 240 ∧ 60 + 25 ≤ 160 ∧ 0 ≤ 255) ∧
    ∃ mem', draw_paddle (fun _ => 771) front_buffer ⟨20, 60, 5, 25, 0⟩ = some mem' ∧
      pixel_at mem' front_buffer 60 20 = 0 ∧
      pixel_at mem' front_buffer 59 20 = pixel_at (fun _ => 771) front_buffer 59 20 :=
  ⟨by decide,
   (C12_draw_paddle_fills_exactly_its_rectangle (fun _ => 771) front_buffer ⟨20, 60, 5, 25, 0⟩
      (by decide) (by decide) (by decide)).elim
     (fun mem' h => ⟨mem', h.1, h.2.1 60 20 (by decide) (by decide) (by decide),
       h.2.2 59 20 (by decide) (by decide) (by decide)⟩)⟩

/-! ## Simulation step: velocity, scores, frame -/

theorem ball_run_succ (pl ai : Nat → paddle) (b : ball) (sc : scores) (n : Nat) :
    ball_run pl ai b sc (n + 1) =
      update_ball (ball_run pl ai b sc n).1 (pl n) (ai n) (ball_run pl ai b sc n).2 := rfl

/-- One `update_ball` call keeps unit velocities. -/
theorem update_ball_unit_velocity (b : ball) (player ai_paddle : paddle) (sc : scores)
    (hdx : |b.dx| = 1) (hdy : |b.dy| = 1) :
    |(update_ball b player ai_paddle sc).1.dx| = 1 ∧
    |(update_ball b player ai_paddle sc).1.dy| = 1 := by
  have hx : b.dx = 1 ∨ b.dx = -1 := (abs_eq (by norm_num)).mp hdx
  have hy : b.dy = 1 ∨ b.dy = -1 := (abs_eq (by norm_num)).mp hdy
  rw [update_ball_wrap]
  dsimp only
  constructor
  · rcases hx with h | h <;> rw [h] <;> split_ifs <;> decide
  · rcases hy with h | h <;> rw [h] <;> split_ifs <;> decide

/-- C14: unit velocity is an invariant of `update_ball`: from `|dx| = 1` and
`|dy| = 1`, with any paddles and scores, the result has `|dx| = 1` and
`|dy| = 1`; hence it holds after every tick of a run from the ball `main`
creates (`dx = dy = 1`), whatever the paddles do, and in every state of the
frame loop of `main`. -/
theorem C14_unit_velocity_invariant :
    (∀ (b : ball) (player ai_paddle : paddle) (sc : scores), |b.dx| = 1 → |b.dy| = 1 →
      |(update_ball b player ai_paddle sc).1.dx| = 1 ∧
      |(update_ball b player ai_paddle sc).1.dy| = 1) ∧
    (∀ (pl ai : Nat → paddle) (sc : scores) (n : Nat),
      |(ball_run pl ai ⟨120, 80, 5, 1, 1, 2⟩ sc n).1.dx| = 1 ∧
      |(ball_run pl ai ⟨120, 80, 5, 1, 1, 2⟩ sc n).1.dy| = 1) ∧
    (∀ (mem : Mem) (inputs : Nat → Nat × Nat) (n : Nat),
      ∃ s, main_loop mem inputs n = some s ∧ |s.b.dx| = 1 ∧ |s.b.dy| = 1) := by
  refine ⟨update_ball_unit_velocity, ?_, ?_⟩
  · intro pl ai sc n
    induction n with
    | zero => exact ⟨by show |(1 : Int)| = 1; decide, by show |(1 : Int)| = 1; decide⟩
    | succ n ih =>
      rw [ball_run_succ]
      exact update_ball_unit_velocity _ _ _ _ ih.1 ih.2
  · intro mem inputs n
    obtain ⟨s, hs, hi, -⟩ := main_loop_spec mem inputs n
    refine ⟨s, hs, ?_, ?_⟩
    · rcases hi.ent.ball_dx with h | h <;> rw [h] <;> decide
    · rcases hi.ent.ball_dy with h | h <;> rw [h] <;> decide

/-- Entities after a draw phase: the paddles are the results of
`handle_buttons` and `update_ai_paddle`, the ball and the scores the result of
`update_ball` on them; nothing else of the state but the memory changes. -/
theorem draw_phase_entities (s s' : State) (reads : Nat × Nat)
    (h : draw_phase s reads = some s') :
    s'.player = handle_buttons s.player reads.1 reads.2 ∧
    s'.ai_paddle = (update_ai_paddle s.ai_paddle s.ai_direction).1 ∧
    s'.ai_direction = (update_ai_paddle s.ai_paddle s.ai_direction).2 ∧
    s'.b = (update_ball s.b s'.player s'.ai_paddle s.sc).1 ∧
    s'.sc = (update_ball s.b s'.player s'.ai_paddle s.sc).2 ∧
    s'.buffer = s.buffer ∧ s'.display_control = s.display_control ∧
    s'.black = s.black ∧ s'.net_color = s.net_color := by
  unfold draw_phase at h
  rw [Option.bind_eq_bind] at h
  obtain ⟨m1, -, h⟩ := Option.bind_eq_some.mp h
  dsimp only at h
  obtain ⟨m2, -, h⟩ := Option.bind_eq_some.mp h
  obtain ⟨m3, -, h⟩ := Option.bind_eq_some.mp h
  have e := Option.some.inj h
  subst e
  exact ⟨rfl, rfl, rfl, rfl, rfl, rfl, rfl, rfl, rfl⟩

/-- Entities after a full iteration: those of its draw phase. -/
theorem iteration_entities (s s' : State) (reads : Nat × Nat)
    (h : iteration s reads = some s') :
    s'.player = handle_buttons s.player reads.1 reads.2 ∧
    s'.ai_paddle = (update_ai_paddle s.ai_paddle s.ai_direction).1 ∧
    s'.ai_direction = (update_ai_paddle s.ai_paddle s.ai_direction).2 ∧
    s'.b = (update_ball s.b s'.player s'.ai_paddle s.sc).1 ∧
    s'.sc = (update_ball s.b s'.player s'.ai_paddle s.sc).2 := by
  unfold iteration at h
  rw [Option.bind_eq_bind] at h
  obtain ⟨s1, h1, h⟩ := Option.bind_eq_some.mp h
  have e := Option.some.inj h
  subst e
  obtain ⟨e1, e2, e3, e4, e5, -⟩ := draw_phase_entities s s1 reads h1
  exact ⟨e1, e2, e3, e4, e5⟩

theorem main_loop_succ (mem : Mem) (inputs : Nat → Nat × Nat) (n : Nat) (s' : State)
    (h : main_loop mem inputs (n + 1) = some s') :
    ∃ s, main_loop mem inputs n = some s ∧ iteration s (inputs n) = some s' :=
  Option.bind_eq_some.mp h

/-- C16: the per-tick simulation never changes geometry or colour.
`handle_buttons` and `update_ai_paddle` return the paddle they were given with
at most `y` changed; `update_ball` returns a ball with the size and colour it
was given; and in the frame loop the paddles after a tick are exactly the
results of `handle_buttons` and `update_ai_paddle`, so `update_ball` has
changed no field of either paddle. -/
theorem C16_simulation_keeps_geometry_and_colour :
    (∀ (p : paddle) (down_read up_read : Nat),
      handle_buttons p down_read up_read =
        { p with y := (handle_buttons p down_read up_read).y }) ∧
    (∀ (p : paddle) (ai_direction : Int),
      (update_ai_paddle p ai_direction).1 =
        { p with y := (update_ai_paddle p ai_direction).1.y }) ∧
    (∀ (b : ball) (player ai_paddle : paddle) (sc : scores),
      (update_ball b player ai_paddle sc).1 =
        { b with x := (update_ball b player ai_paddle sc).1.x,
                 y := (update_ball b player ai_paddle sc).1.y,
                 dx := (update_ball b player ai_paddle sc).1.dx,
                 dy := (update_ball b player ai_paddle sc).1.dy }) ∧
    (∀ (s s' : State) (reads : Nat × Nat), draw_phase s reads = some s' →
      s'.player = handle_buttons s.player reads.1 reads.2 ∧
      s'.ai_paddle = (update_ai_paddle s.ai_paddle s.ai_direction).1 ∧
      s'.b = (update_ball s.b s'.player s'.ai_paddle s.sc).1 ∧
      s'.sc = (update_ball s.b s'.player s'.ai_paddle s.sc).2 ∧
      (s'.player.x = s.player.x ∧ s'.player.width = s.player.width ∧
        s'.player.height = s.player.height ∧ s'.player.color = s.player.color) ∧
      (s'.ai_paddle.x = s.ai_paddle.x ∧ s'.ai_paddle.width = s.ai_paddle.width ∧
        s'.ai_paddle.height = s.ai_paddle.height ∧ s'.ai_paddle.color = s.ai_paddle.color) ∧
      (s'.b.size = s.b.size ∧ s'.b.color = s.b.color)) := by
  have hb : ∀ (p : paddle) (down_read up_read : Nat),
      handle_buttons p down_read up_read =
        { p with y := (handle_buttons p down_read up_read).y } := by
    intro p d u
    unfold handle_buttons
    dsimp only
    split_ifs <;> rfl
  have ha : ∀ (p : paddle) (ai_direction : Int),
      (update_ai_paddle p ai_direction).1 =
        { p with y := (update_ai_paddle p ai_direction).1.y } := by
    intro p d
    unfold update_ai_paddle
    dsimp only
    split_ifs <;> rfl
  have hu : ∀ (b : ball) (player ai_paddle : paddle) (sc : scores),
      (update_ball b player ai_paddle sc).1 =
        { b with x := (update_ball b player ai_paddle sc).1.x,
                 y := (update_ball b player ai_paddle sc).1.y,
                 dx := (update_ball b player ai_paddle sc).1.dx,
                 dy := (update_ball b player ai_paddle sc).1.dy } := by
    intro b player ai_paddle sc
    rw [update_ball_wrap]
  refine ⟨hb, ha, hu, ?_⟩
  intro s s' reads h
  obtain ⟨e1, e2, -, e4, e5, -⟩ := draw_phase_entities s s' reads h
  refine ⟨e1, e2, e4, e5, ?_, ?_, ?_⟩
  · rw [e1, hb]; exact ⟨rfl, rfl, rfl, rfl⟩
  · rw [e2, ha]; exact ⟨rfl, rfl, rfl, rfl⟩
  · rw [e4, hu]; exact ⟨rfl, rfl⟩

/-! ## Paddle rules in detail -/

/-- C17 as stated fails: for a paddle of height 200 at `y = 1` moving up, the
move gives `y = 0`, both conditions hold, and the stored direction ends as
down (+1), not up (-1): the second check is the `else` branch of the first. -/
theorem C17_counterexample_first_check_wins :
    ¬ ((((update_ai_paddle ⟨225, 1, 5, 200, 1⟩ (-1)).1.y : Int) ≤ 0 ∧
        ((update_ai_paddle ⟨225, 1, 5, 200, 1⟩ (-1)).1.y : Int) +
          (update_ai_paddle ⟨225, 1, 5, 200, 1⟩ (-1)).1.height ≥ 160) →
      (update_ai_paddle ⟨225, 1, 5, 200, 1⟩ (-1)).2 = -1) := by
  decide

/-- C17, amended: in `update_ai_paddle`, when after the move both conditions
hold at once, `y <= 0` and `y + height >= 160`, the first check's assignment
wins: the stored direction ends as down (+1). -/
theorem C17_first_check_wins_when_both_hold (p : paddle) (ai_direction : Int)
    (h1 : ((update_ai_paddle p ai_direction).1.y : Int) ≤ 0)
    (h2 : ((update_ai_paddle p ai_direction).1.y : Int) +
      (update_ai_paddle p ai_direction).1.height ≥ 160) :
    (update_ai_paddle p ai_direction).2 = 1 := by
  have _ := h2
  unfold update_ai_paddle at h1 ⊢
  dsimp only at h1 ⊢
  split_ifs at h1 ⊢ with g1 g2
  · rfl
  · exact absurd h1 g1
  · exact absurd h1 g1

/-- C17 amended, at the paddle of height 200 at `y = 1` moving up. -/
theorem C17_first_check_witness :
    (((update_ai_paddle ⟨225, 1, 5, 200, 1⟩ (-1)).1.y : Int) ≤ 0 ∧
      ((update_ai_paddle ⟨225, 1, 5, 200, 1⟩ (-1)).1.y : Int) +
        (update_ai_paddle ⟨225, 1, 5, 200, 1⟩ (-1)).1.height ≥ 160) ∧
    (update_ai_paddle ⟨225, 1, 5, 200, 1⟩ (-1)).2 = 1 :=
  ⟨by decide,
   C17_first_check_wins_when_both_hold ⟨225, 1, 5, 200, 1⟩ (-1) (by decide) (by decide)⟩

/-- A button counts as pressed exactly when its bit in the register is 0. -/
theorem button_pressed_iff (reg button : Nat) (hb : button < 65536) :
    button_pressed reg button ≠ 0 ↔ reg &&& button = 0 := by
  unfold button_pressed
  have hle : reg &&& button ≤ button := Nat.and_le_right
  have hm : (reg &&& button) % 65536 = reg &&& button := Nat.mod_eq_of_lt (by omega)
  rw [hm]
  dsimp only
  split_ifs with h
  · simp [h]
  · simp [h]

/-- C18: `handle_buttons` evaluates its two checks independently and in order,
a button counting as pressed exactly when its bit in the register read is 0.
Only down: `y + 1` if `y + height < 160`, else unchanged.  Only up: `y - 1` if
`y > 0`, else unchanged.  Both: unchanged when `y + height < 160`, `y - 1` when
`y + height >= 160` and `y > 0`.  Neither: unchanged. -/
theorem C18_handle_buttons_case_table (p : paddle) (down_read up_read : Nat)
    (hy : p.y < 65536) :
    (button_pressed down_read BUTTON_DOWN ≠ 0 ↔ down_read &&& BUTTON_DOWN = 0) ∧
    (button_pressed up_read BUTTON_UP ≠ 0 ↔ up_read &&& BUTTON_UP = 0) ∧
    (down_read &&& BUTTON_DOWN = 0 → up_read &&& BUTTON_UP ≠ 0 →
      (p.y + p.height < 160 → (handle_buttons p down_read up_read).y = p.y + 1) ∧
      (¬ p.y + p.height < 160 → (handle_buttons p down_read up_read).y = p.y)) ∧
    (down_read &&& BUTTON_DOWN ≠ 0 → up_read &&& BUTTON_UP = 0 →
      (p.y > 0 → (handle_buttons p down_read up_read).y = p.y - 1) ∧
      (¬ p.y > 0 → (handle_buttons p down_read up_read).y = p.y)) ∧
    (down_read &&& BUTTON_DOWN = 0 → up_read &&& BUTTON_UP = 0 →
      (p.y + p.height < 160 → (handle_buttons p down_read up_read).y = p.y) ∧
      (p.y + p.height ≥ 160 → p.y > 0 → (handle_buttons p down_read up_read).y = p.y - 1)) ∧
    (down_read &&& BUTTON_DOWN ≠ 0 → up_read &&& BUTTON_UP ≠ 0 →
      (handle_buttons p down_read up_read).y = p.y) := by
  have hd := button_pressed_iff down_read BUTTON_DOWN (by decide)
  have hu := button_pressed_iff up_read BUTTON_UP (by decide)
  refine ⟨hd, hu, ?_, ?_, ?_, ?_⟩
  all_goals
    intro gd gu
    unfold handle_buttons
    simp only [hd, hu, gd, gu, HEIGHT, to_ushort, true_and, false_and, if_false, not_true_eq_false,
      not_false_eq_true]
  · constructor <;> intro g <;> split_ifs <;> (try dsimp only) <;> omega
  · constructor <;> intro g <;> split_ifs <;> (try dsimp only) <;> omega
  · constructor
    · intro g; split_ifs <;> (try dsimp only at *) <;> omega
    · intro g g'; split_ifs <;> (try dsimp only at *) <;> omega

/-- C18 at the player paddle of `main` with only "down" pressed (bit 7 clear). -/
theorem C18_handle_buttons_witness :
    (60 : Nat) < 65536 ∧
    (0x37F &&& BUTTON_DOWN = 0 ∧ 0x37F &&& BUTTON_UP ≠ 0) ∧
    (handle_buttons ⟨20, 60, 5, 25, 0⟩ 0x37F 0x37F).y = 60 + 1 :=
  ⟨by decide, by decide,
   ((C18_handle_buttons_case_table ⟨20, 60, 5, 25, 0⟩ 0x37F 0x37F (by decide)).2.2.1
      (by decide) (by decide)).1 (by decide)⟩

theorem mask_testBit (i : Nat) (h32 : i < 32) (h4 : i ≠ 4) :
    Nat.testBit (2 ^ 32 - 1 - SHOW_BACK) i = true := by
  unfold SHOW_BACK
  interval_cases i <;> first | exact absurd rfl h4 | decide

/-- C19: for `b` equal to `front_buffer` or `back_buffer` and every 32-bit
value of the display control, `flip_buffers` returns the other buffer, leaves
bit 4 (`SHOW_BACK`) set exactly when `b` is `back_buffer`, so that `b` is the
displayed buffer, and changes no other bit; hence the returned buffer is not
the displayed one, and flipping the returned buffer returns `b`. -/
theorem C19_flip_buffers_shows_its_argument (display_control b : Nat)
    (hb : b = front_buffer ∨ b = back_buffer) (hdc : display_control < 2 ^ 32) :
    (b = front_buffer → (flip_buffers display_control b).2 = back_buffer) ∧
    (b = back_buffer → (flip_buffers display_control b).2 = front_buffer) ∧
    ((flip_buffers display_control b).1 &&& SHOW_BACK ≠ 0 ↔ b = back_buffer) ∧
    displayed_buffer (flip_buffers display_control b).1 = b ∧
    (∀ i, i ≠ 4 →
      Nat.testBit (flip_buffers display_control b).1 i = Nat.testBit display_control i) ∧
    (flip_buffers display_control b).2 ≠ displayed_buffer (flip_buffers display_control b).1 ∧
    (flip_buffers (flip_buffers display_control b).1 (flip_buffers display_control b).2).2 = b := by
  have hne : back_buffer ≠ front_buffer := by decide
  have hhigh : ∀ i, 32 ≤ i → Nat.testBit display_control i = false := fun i hi =>
    Nat.testBit_lt_two_pow (lt_of_lt_of_le hdc (Nat.pow_le_pow_right (by norm_num) hi))
  obtain ⟨f1, f2, f3⟩ := flip_buffers_spec display_control b hb
  rcases hb with hb | hb
  · subst hb
    have e : flip_buffers display_control front_buffer =
        (display_control &&& (2 ^ 32 - 1 - SHOW_BACK), back_buffer) := by
      simp [flip_buffers]
    have e2 : ∀ x, (flip_buffers x back_buffer).2 = front_buffer := by
      intro x; simp [flip_buffers, hne]
    refine ⟨fun _ => by rw [e], fun h => absurd h.symm hne, ?_, f2, ?_, f3, ?_⟩
    · rw [e]
      constructor
      · intro h
        exact absurd (clear_show_back display_control) h
      · intro h
        exact absurd h.symm hne
    · intro i hi
      rw [e]
      show Nat.testBit (display_control &&& (2 ^ 32 - 1 - SHOW_BACK)) i = _
      rw [Nat.testBit_and]
      by_cases h32 : i < 32
      · rw [mask_testBit i h32 hi, Bool.and_true]
      · rw [hhigh i (by omega), Bool.false_and]
    · rw [e]
      exact e2 _
  · subst hb
    have e : flip_buffers display_control back_buffer =
        ((display_control ||| SHOW_BACK) % 2 ^ 32, front_buffer) := by
      simp [flip_buffers, hne]
    have e2 : ∀ x, (flip_buffers x front_buffer).2 = back_buffer := by
      intro x; simp [flip_buffers]
    refine ⟨fun h => absurd h hne, fun _ => by rw [e], ?_, f2, ?_, f3, ?_⟩
    · rw [e]
      constructor
      · intro _; rfl
      · intro _; exact set_show_back display_control
    · intro i hi
      rw [e]
      show Nat.testBit ((display_control ||| SHOW_BACK) % 2 ^ 32) i = _
      have h16 : Nat.testBit SHOW_BACK i = false := by
        show Nat.testBit (2 ^ 4) i = false
        rw [Nat.testBit_two_pow]
        simp
        omega
      rw [Nat.testBit_mod_two_pow, Nat.testBit_or, h16, Bool.or_false]
      by_cases h32 : i < 32
      · simp [h32]
      · rw [hhigh i (by omega)]; simp
    · rw [e]
      exact e2 _

/-- C19 at the display control `main` writes, for the back buffer. -/
theorem C19_flip_buffers_witness :
    ((back_buffer = front_buffer ∨ back_buffer = back_buffer) ∧ MODE4 ||| BG2 < 2 ^ 32) ∧
    (flip_buffers (MODE4 ||| BG2) back_buffer).2 = front_buffer ∧
    displayed_buffer (flip_buffers (MODE4 ||| BG2) back_buffer).1 = back_buffer :=
  ⟨by decide,
   (C19_flip_buffers_shows_its_argument (MODE4 ||| BG2) back_buffer (by decide) (by decide)).2.1
     rfl,
   (C19_flip_buffers_shows_its_argument (MODE4 ||| BG2) back_buffer (by decide)
     (by decide)).2.2.2.1⟩

/-! ## Loops that exit and loops that do not -/

theorem to_short_range (n : Int) : -32768 ≤ to_short n ∧ to_short n ≤ 32767 := by
  unfold to_short; omega

/-- A `short`-counter loop whose bound fits a `short` exits, whatever the
start value, when its body always returns. -/
theorem short_loop_exits {σ : Type} (body : Int → σ → Option σ) (bound v : Int)
    (hb : bound ≤ 32767) (hv : -32768 ≤ v ∧ v ≤ 32767)
    (hbody : ∀ i t, ∃ t', body i t = some t') (s : σ) :
    ∃ t, for_loop short_incr body bound LOOP_FUEL v s = some t := by
  have h := for_loop_rule short_incr body bound (fun j => v + j) (bound - v).toNat
    (fun _ _ => True)
    (fun j hj => by beta_reduce; omega) (by beta_reduce; omega)
    (fun j hj => by simp only [short_incr, to_short]; omega)
    (fun j t _ _ => by
      obtain ⟨t', ht'⟩ := hbody (v + j) t
      exact ⟨t', ht', trivial⟩)
    LOOP_FUEL (by unfold LOOP_FUEL; omega) s trivial
  obtain ⟨t, ht, -⟩ := h
  exact ⟨t, by simpa using ht⟩

/-- An erase pass of `update_screen` (two nested `short`-counter loops around
`put_pixel`) returns when both of its bounds fit a `short`. -/
theorem erase_pass_exits (buffer color : Nat) (rb cb r0 c0 : Int) (hrb : rb ≤ 32767)
    (hcb : cb ≤ 32767) (m : Mem) :
    ∃ m', for_loop short_incr (fun row mem =>
        for_loop short_incr (fun col mem => some (put_pixel mem buffer row col color))
          cb LOOP_FUEL (to_short c0) mem) rb LOOP_FUEL (to_short r0) m = some m' :=
  short_loop_exits _ rb (to_short r0) hrb (to_short_range r0)
    (fun _ t => short_loop_exits _ cb (to_short c0) hcb (to_short_range c0)
      (fun _ _ => ⟨_, rfl⟩) t) m

/-- A loop whose counter stays below the bound for ever, and whose body always
returns, exhausts every fuel: it never exits. -/
theorem for_loop_never_exits {σ : Type} (next : Int → Int) (body : Int → σ → Option σ)
    (bound : Int) (S : Int → Prop) (hS : ∀ v, S v → v < bound ∧ S (next v))
    (hbody : ∀ v s, S v → ∃ s', body v s = some s') :
    ∀ fuel v s, S v → for_loop next body bound fuel v s = none := by
  intro fuel
  induction fuel with
  | zero => intro v s _; rfl
  | succ fuel ih =>
    intro v s hv
    obtain ⟨s', hs'⟩ := hbody v s hv
    simp [for_loop, (hS v hv).1, hs', ih (next v) s' (hS v hv).2]

/-- The first erase pass of `update_screen` for a paddle at `y = 40000`: the
`short` row counter can never reach the bound 40028, so the loop exhausts any
fuel. -/
theorem erase_pass_of_far_paddle_never_exits (fuel : Nat) (m : Mem) :
    for_loop short_incr (fun row mem =>
        for_loop short_incr (fun col mem => some (put_pixel mem front_buffer row col 3))
          (((⟨20, 40000, 5, 25, 0⟩ : paddle).x : Int) + (⟨20, 40000, 5, 25, 0⟩ : paddle).width + 3)
          LOOP_FUEL (to_short (((⟨20, 40000, 5, 25, 0⟩ : paddle).x : Int) - 3)) mem)
      (((⟨20, 40000, 5, 25, 0⟩ : paddle).y : Int) + (⟨20, 40000, 5, 25, 0⟩ : paddle).height + 3)
      fuel (to_short (((⟨20, 40000, 5, 25, 0⟩ : paddle).y : Int) - 3)) m = none := by
  apply for_loop_never_exits short_incr _ _ (fun v => -32768 ≤ v ∧ v ≤ 32767)
  · intro v hv
    refine ⟨?_, to_short_range _⟩
    show v < ((40000 : Nat) : Int) + ((25 : Nat) : Int) + 3
    omega
  · intro v s _
    exact short_loop_exits _ _ _ (by decide) (to_short_range _) (fun _ _ => ⟨_, rfl⟩) s
  · exact to_short_range _

/-- The net loop of `update_screen` on any buffer: it returns, every net pixel
`(r, 120)`, `r mod 4 = 0`, then reads the colour, and every other pixel of the
grid reads what it read before. -/
theorem net_loop_pixels (buffer net_color : Nat) (m : Mem) :
    ∃ m', update_screen_net m buffer net_color = some m' ∧
      ∀ r c : Nat, r < 160 → c < 240 →
        pixel_at m' buffer r c =
          if net_pixel r c then net_color % 256 else pixel_at m buffer r c := by
  obtain ⟨m', hm', hp⟩ := net_paints buffer 0 net_color m
  exact ⟨m', hm', (net_pixels 0 20480 (Or.inl ⟨rfl, rfl⟩) hp).1⟩

/-- The four clearing loops of `update_screen` return when the bounds of the
three erase rectangles fit a `short`. -/
theorem update_screen_clear_exits (mem : Mem) (buffer color : Nat) (p ai_paddle : paddle)
    (b : ball) (hp : p.x + p.width + 3 ≤ 32767 ∧ p.y + p.height + 3 ≤ 32767)
    (ha : ai_paddle.x + ai_paddle.width + 3 ≤ 32767 ∧ ai_paddle.y + ai_paddle.height + 3 ≤ 32767)
    (hb : to_int (to_int (b.x + b.size) + 3) ≤ 32767 ∧
      to_int (to_int (b.y + b.size) + 3) ≤ 32767) :
    ∃ m4, update_screen_clear mem buffer color p ai_paddle b = some m4 := by
  obtain ⟨m1, hm1⟩ := erase_pass_exits buffer color ((p.y : Int) + p.height + 3)
    ((p.x : Int) + p.width + 3) ((p.y : Int) - 3) ((p.x : Int) - 3) (by omega) (by omega) mem
  obtain ⟨m2, hm2⟩ := erase_pass_exits buffer color
    ((ai_paddle.y : Int) + ai_paddle.height + 3) ((ai_paddle.x : Int) + ai_paddle.width + 3)
    ((ai_paddle.y : Int) - 3) ((ai_paddle.x : Int) - 3) (by omega) (by omega) m1
  obtain ⟨m3, hm3⟩ := erase_pass_exits buffer color (to_int (to_int (b.y + b.size) + 3))
    (to_int (to_int (b.x + b.size) + 3)) (to_int (b.y - 3)) (to_int (b.x - 3)) hb.2 hb.1 m2
  obtain ⟨m4, hm4, -⟩ := strips_paint buffer 0 color m3
  refine ⟨m4, ?_⟩
  unfold update_screen_clear
  rw [hm1, Option.bind_eq_bind, Option.some_bind, hm2, Option.some_bind, hm3,
    Option.some_bind]
  exact hm4

/-- C11 as stated fails: for a paddle at `y = 40000` (a value of its
`unsigned short` field) the first erase loop of `update_screen` compares a
`short` row counter with the bound 40028 and never exits, so `update_screen`
does not return and no pixel is ever "after update_screen". -/
theorem C11_counterexample_update_screen_never_returns :
    update_screen (fun _ => 0) front_buffer 3 ⟨20, 40000, 5, 25, 0⟩ ⟨225, 10, 5, 30, 1⟩ 4
        ⟨120, 80, 5, 1, 1, 2⟩ = none ∧
    ¬ ∃ mem', update_screen (fun _ => 0) front_buffer 3 ⟨20, 40000, 5, 25, 0⟩
        ⟨225, 10, 5, 30, 1⟩ 4 ⟨120, 80, 5, 1, 1, 2⟩ = some mem' ∧
      ∀ r, r < 160 → r % 4 = 0 → pixel_at mem' front_buffer r 120 = 4 := by
  have h : update_screen (fun _ => 0) front_buffer 3 ⟨20, 40000, 5, 25, 0⟩ ⟨225, 10, 5, 30, 1⟩ 4
      ⟨120, 80, 5, 1, 1, 2⟩ = none := by
    unfold update_screen update_screen_clear
    rw [erase_pass_of_far_paddle_never_exits LOOP_FUEL (fun _ => 0)]
    rfl
  refine ⟨h, ?_⟩
  rintro ⟨mem', hm, -⟩
  rw [h] at hm
  exact Option.noConfusion hm

/-- C11, amended: for every memory content, every buffer, and every state of
the paddles and ball in which the bounds of the three erase rectangles
(`x + width + 3`, `y + height + 3` of each paddle, `x + size + 3`,
`y + size + 3` of the ball, as the program computes them) are at most 32767,
`update_screen` returns and afterwards every pixel `(r, 120)` with
`0 <= r < 160` and `r mod 4 = 0` reads `net_color`; and the net-drawing loop of
`update_screen` changes no other pixel: with `m4` the memory `update_screen` has
reached when its clearing loops are done, the result of `update_screen` is the
result of the net loop on `m4`, and in it the pixels `(r, 120)` with
`r mod 4 != 0`, the pixels `(r, 121)` that share a halfword, and all the rest
of the grid read what they read in `m4`.  The same holds of the net loop
started on any memory. -/
theorem C11_net_drawn_by_update_screen (mem : Mem) (buffer color : Nat) (p ai_paddle : paddle)
    (net_color : Nat) (b : ball)
    (hp : p.x + p.width + 3 ≤ 32767 ∧ p.y + p.height + 3 ≤ 32767)
    (ha : ai_paddle.x + ai_paddle.width + 3 ≤ 32767 ∧ ai_paddle.y + ai_paddle.height + 3 ≤ 32767)
    (hb : to_int (to_int (b.x + b.size) + 3) ≤ 32767 ∧
      to_int (to_int (b.y + b.size) + 3) ≤ 32767) (hn : net_color ≤ 255) :
    (∃ mem', update_screen mem buffer color p ai_paddle net_color b = some mem' ∧
      ∀ r, r < 160 → r % 4 = 0 → pixel_at mem' buffer r 120 = net_color) ∧
    (∃ m4 mem', update_screen_clear mem buffer color p ai_paddle b = some m4 ∧
      update_screen_net m4 buffer net_color = some mem' ∧
      update_screen mem buffer color p ai_paddle net_color b = some mem' ∧
      (∀ r, r < 160 → r % 4 = 0 → pixel_at mem' buffer r 120 = net_color) ∧
      (∀ r, r < 160 → r % 4 ≠ 0 → pixel_at mem' buffer r 120 = pixel_at m4 buffer r 120) ∧
      (∀ r, r < 160 → pixel_at mem' buffer r 121 = pixel_at m4 buffer r 121) ∧
      (∀ r c, r < 160 → c < 240 → ¬ (c = 120 ∧ r % 4 = 0) →
        pixel_at mem' buffer r c = pixel_at m4 buffer r c)) ∧
    (∀ m : Mem, ∃ m', update_screen_net m buffer net_color = some m' ∧
      (∀ r, r < 160 → r % 4 = 0 → pixel_at m' buffer r 120 = net_color) ∧
      (∀ r, r < 160 → r % 4 ≠ 0 → pixel_at m' buffer r 120 = pixel_at m buffer r 120) ∧
      (∀ r, r < 160 → pixel_at m' buffer r 121 = pixel_at m buffer r 121) ∧
      (∀ r c, r < 160 → c < 240 → ¬ (c = 120 ∧ r % 4 = 0) →
        pixel_at m' buffer r c = pixel_at m buffer r c)) := by
  have hcol : net_color % 256 = net_color := by omega
  have net : ∀ m : Mem, ∃ m', update_screen_net m buffer net_color = some m' ∧
      (∀ r, r < 160 → r % 4 = 0 → pixel_at m' buffer r 120 = net_color) ∧
      (∀ r, r < 160 → r % 4 ≠ 0 → pixel_at m' buffer r 120 = pixel_at m buffer r 120) ∧
      (∀ r, r < 160 → pixel_at m' buffer r 121 = pixel_at m buffer r 121) ∧
      (∀ r c, r < 160 → c < 240 → ¬ (c = 120 ∧ r % 4 = 0) →
        pixel_at m' buffer r c = pixel_at m buffer r c) := by
    intro m
    obtain ⟨m', hm', hpx⟩ := net_loop_pixels buffer net_color m
    have h2 : ∀ r c, r < 160 → c < 240 → ¬ (c = 120 ∧ r % 4 = 0) →
        pixel_at m' buffer r c = pixel_at m buffer r c := by
      intro r c hr hc hnot
      rw [hpx r c hr hc, if_neg (show ¬ net_pixel r c from hnot)]
    refine ⟨m', hm', ?_, ?_, ?_, h2⟩
    · intro r hr h4
      rw [hpx r 120 hr (by decide), if_pos (show net_pixel r 120 from ⟨rfl, h4⟩), hcol]
    · intro r hr h4
      exact h2 r 120 hr (by decide) (fun h => h4 h.2)
    · intro r hr
      exact h2 r 121 hr (by decide) (fun h => absurd h.1 (by decide))
  obtain ⟨m4, hm4⟩ := update_screen_clear_exits mem buffer color p ai_paddle b hp ha hb
  obtain ⟨m5, hm5, n1, n2, n3, n4⟩ := net m4
  have hus : update_screen mem buffer color p ai_paddle net_color b = some m5 := by
    unfold update_screen
    rw [hm4, Option.bind_eq_bind, Option.some_bind]
    exact hm5
  exact ⟨⟨m5, hus, n1⟩, ⟨m4, m5, hm4, hm5, hus, n1, n2, n3, n4⟩, net⟩

/-- C11 amended, at the entities `main` creates, on a cleared front buffer. -/
theorem C11_net_witness :
    ((20 + 5 + 3 ≤ 32767 ∧ 60 + 25 + 3 ≤ 32767) ∧ (225 + 5 + 3 ≤ 32767 ∧ 10 + 30 + 3 ≤ 32767) ∧
      (to_int (to_int ((120 : Int) + 5) + 3) ≤ 32767 ∧
        to_int (to_int ((80 : Int) + 5) + 3) ≤ 32767) ∧ 4 ≤ 255) ∧
    ∃ mem', update_screen (fun _ => 771) front_buffer 3 ⟨20, 60, 5, 25, 0⟩ ⟨225, 10, 5, 30, 1⟩ 4
        ⟨120, 80, 5, 1, 1, 2⟩ = some mem' ∧
      pixel_at mem' front_buffer 80 120 = 4 :=
  ⟨by decide,
   (C11_net_drawn_by_update_screen (fun _ => 771) front_buffer 3 ⟨20, 60, 5, 25, 0⟩
      ⟨225, 10, 5, 30, 1⟩ 4 ⟨120, 80, 5, 1, 1, 2⟩ (by decide) (by decide) (by decide)
      (by decide)).1.elim
     (fun mem' h => ⟨mem', h.1, h.2 80 (by decide) (by decide)⟩)⟩

/-! ## The ball on the screen -/

/-- The last write of a draw phase is the `put_pixel` of `draw_ball`. -/
theorem draw_phase_last_write (s s' : State) (reads : Nat × Nat)
    (h : draw_phase s reads = some s') :
    ∃ m, s'.mem = draw_ball m s'.buffer s'.b := by
  unfold draw_phase at h
  rw [Option.bind_eq_bind] at h
  obtain ⟨m1, -, h⟩ := Option.bind_eq_some.mp h
  dsimp only at h
  obtain ⟨m2, -, h⟩ := Option.bind_eq_some.mp h
  obtain ⟨m3, -, h⟩ := Option.bind_eq_some.mp h
  have e := Option.some.inj h
  subst e
  exact ⟨m3, rfl⟩

/-- The pixel `put_pixel` writes, read back. -/
theorem put_pixel_reads (m : Mem) (buffer r c color : Nat) (hr : r < 160) (hc : c < 240) :
    pixel_at (put_pixel m buffer r c color) buffer r c = color % 256 := by
  rw [pixel_at_eq_byte_at]
  have h := put_pixel_byte m buffer 0 r c color (r * 240 + c)
  simp only [Nat.mul_zero, Nat.add_zero, Nat.zero_add] at h
  rw [h]
  have hm : ((r : Int) * 240 + c) % 131072 = (r : Int) * 240 + c :=
    Int.emod_eq_of_lt (by omega) (by omega)
  rw [hm]
  have : r * 240 + c = ((r : Int) * 240 + c).toNat := by omega
  rw [if_pos this]

/-- One tick of the frame loop while the ball of `main` is on its first
diagonal: from `(120 + n, 80 + n)` with `n < 80` it moves to
`(121 + n, 81 + n)`, touching neither paddle, and `dy` turns to -1 exactly
when row 160 is reached. -/
theorem first_diagonal_step (s s' : State) (reads : Nat × Nat) (n : Nat) (hn : n < 80)
    (hi : Loop_inv s) (hb : s.b = ⟨120 + n, 80 + n, 5, 1, 1, 2⟩)
    (h : draw_phase s reads = some s') :
    s'.b = ⟨120 + (n + 1 : Nat), 80 + (n + 1 : Nat), 5, 1, if n + 1 = 80 then -1 else 1, 2⟩ := by
  obtain ⟨s1, h1, -, -, he, -⟩ := draw_phase_spec s reads hi
  have e : s1 = s' := Option.some.inj (h1.symm.trans h)
  subst e
  obtain ⟨-, -, -, e4, -⟩ := draw_phase_entities s s1 reads h
  rw [update_ball_in_frame s.b _ _ _ hi.ent.ball_x hi.ent.ball_y hi.ent.ball_dx hi.ent.ball_dy
    hi.ent.ball_size] at e4
  have hx : moved_x s.b = 120 + (n + 1 : Nat) := by
    rw [hb]; unfold moved_x; dsimp only; push_cast; split_ifs <;> omega
  have hy : moved_y s.b = 80 + (n + 1 : Nat) := by
    rw [hb]; unfold moved_y; dsimp only; push_cast; split_ifs <;> omega
  have hp : ¬ in_paddle_rect (moved_x s.b) (moved_y s.b) s1.player := by
    rw [hx]; unfold in_paddle_rect
    have := he.player_x; have := he.player_width
    push_cast; omega
  have ha : ¬ ai_paddle_hit (moved_x s.b) (moved_y s.b) s.b.size s1.ai_paddle := by
    rw [hx, hb]; unfold ai_paddle_hit
    have := he.ai_x
    push_cast; omega
  rw [if_neg ha, if_neg hp, hx, hy] at e4
  rw [e4, hb]
  dsimp only
  congr 1
  by_cases h80 : n + 1 = 80
  · have : (80 : Int) + n + 1 ≤ 0 ∨ (80 : Int) + n + 1 ≥ 160 := by omega
    rw [if_pos this, if_pos h80]
  · have : ¬ ((80 : Int) + n + 1 ≤ 0 ∨ (80 : Int) + n + 1 ≥ 160) := by omega
    rw [if_neg this, if_neg h80]

/-- The first 80 ticks of `main`, whatever the buttons: the ball runs down its
first diagonal. -/
theorem main_loop_first_diagonal (mem : Mem) (inputs : Nat → Nat × Nat) (n : Nat)
    (hn : n ≤ 80) :
    ∃ s, main_loop mem inputs n = some s ∧ Loop_inv s ∧
      s.b = ⟨120 + n, 80 + n, 5, 1, if n = 80 then -1 else 1, 2⟩ := by
  induction n with
  | zero =>
    obtain ⟨s, hs, hi, -, -, -, -, hb, -⟩ := main_init_spec mem
    refine ⟨s, hs, hi, ?_⟩
    rw [hb]; simp
  | succ n ih =>
    obtain ⟨s, hs, hi, hb⟩ := ih (by omega)
    have hne : ¬ (n = 80) := by omega
    rw [if_neg hne] at hb
    obtain ⟨s', hs', hi', -⟩ := iteration_spec s (inputs n) hi
    refine ⟨s', ?_, hi', ?_⟩
    · show (main_loop mem inputs n).bind _ = _
      rw [hs, Option.some_bind, hs']
    · unfold iteration at hs'
      rw [Option.bind_eq_bind] at hs'
      obtain ⟨s1, h1, h2⟩ := Option.bind_eq_some.mp hs'
      have e := Option.some.inj h2
      subst e
      exact first_diagonal_step s s1 (inputs n) n (by omega) hi hb h1

/-- C13, the code at its first tick: after the draw phase of the first
iteration of `main`, for any memory and button reads, the ball is at
`(x, y) = (121, 81)` with size 5 and colour 2; its reference pixel `(81, 121)`
reads the ball's colour, but the pixel `(81, 122)` of its 5 x 5 footprint reads
the background colour 3: `draw_ball` writes one pixel, not the footprint. -/
theorem C13_draw_ball_writes_one_pixel_of_the_footprint (mem : Mem)
    (inputs : Nat → Nat × Nat) :
    ∃ s s', main_loop mem inputs 0 = some s ∧ draw_phase s (inputs 0) = some s' ∧
      s'.b.x = 121 ∧ s'.b.y = 81 ∧ s'.b.size = 5 ∧ s'.b.color = 2 ∧
      (s'.b.y ≤ 81 ∧ (81 : Int) < s'.b.y + s'.b.size ∧
        s'.b.x ≤ 122 ∧ (122 : Int) < s'.b.x + s'.b.size) ∧
      pixel_at s'.mem s'.buffer 81 121 = 2 ∧
      pixel_at s'.mem s'.buffer 81 122 = 3 ∧
      pixel_at s'.mem s'.buffer 81 122 ≠ s'.b.color := by
  obtain ⟨s, hs, hi, hb⟩ := main_loop_first_diagonal mem inputs 0 (by decide)
  obtain ⟨s', hs', -, -, he, hdrawn, -⟩ := draw_phase_spec s (inputs 0) hi
  have hb' := first_diagonal_step s s' (inputs 0) 0 (by decide) hi
    (by rw [hb]; simp) hs'
  have bx : s'.b.x = 121 := by rw [hb']; simp
  have by' : s'.b.y = 81 := by rw [hb']; simp
  have bs : s'.b.size = 5 := by rw [hb']
  have bc : s'.b.color = 2 := by rw [hb']
  obtain ⟨m, hm⟩ := draw_phase_last_write s s' (inputs 0) hs'
  have h122 : pixel_at s'.mem s'.buffer 81 122 = 3 := by
    rw [hdrawn 81 122 (by decide) (by decide)
      (by unfold in_paddle; have := he.player_x; have := he.player_width; omega)
      (by unfold in_paddle; have := he.ai_x; omega)
      (by unfold is_ball_pixel; rw [bx]; omega)]
    rw [if_neg (by decide), he.black_eq]
  refine ⟨s, s', hs, hs', bx, by', bs, bc, ?_, ?_, h122, ?_⟩
  · rw [bx, by', bs]; decide
  · rw [hm]
    unfold draw_ball
    rw [bx, by', bc]
    exact put_pixel_reads m s'.buffer 81 121 2 (by decide) (by decide)
  · rw [h122, bc]; decide

/-- C20: ball position bounds.  After `update_ball` from any pre-state
`1 <= x <= 239`.  Along the run of `main`, for any memory and button reads,
`0 <= y <= 160` holds after every tick, and the velocity points back into the
screen on both walls, so the ball does not oscillate on a wall.  The upper
bound is attained: for `n <= 80` ticks the ball is at `(120 + n, 80 + n)`, so
after exactly 80 ticks it is at (200, 160) with `dy = -1`; the draw phase of
that tick ends with `draw_ball` writing row 160, which is no pixel of the
grid rows 0..159. -/
theorem C20_ball_position_bounds :
    (∀ (b : ball) (player ai_paddle : paddle) (sc : scores),
      1 ≤ (update_ball b player ai_paddle sc).1.x ∧
      (update_ball b player ai_paddle sc).1.x ≤ 239) ∧
    (∀ (mem : Mem) (inputs : Nat → Nat × Nat) (n : Nat),
      ∃ s, main_loop mem inputs n = some s ∧ 0 ≤ s.b.y ∧ s.b.y ≤ 160 ∧
        (s.b.y = 0 → s.b.dy = 1) ∧ (s.b.y = 160 → s.b.dy = -1)) ∧
    (∀ (mem : Mem) (inputs : Nat → Nat × Nat) (n : Nat), n ≤ 80 →
      ∃ s, main_loop mem inputs n = some s ∧ s.b.x = 120 + n ∧ s.b.y = 80 + n ∧
        s.b.dy = if n = 80 then -1 else 1) ∧
    (∀ (mem : Mem) (inputs : Nat → Nat × Nat),
      ∃ s, main_loop mem inputs 80 = some s ∧ s.b.x = 200 ∧ s.b.y = 160 ∧ s.b.dy = -1) ∧
    (∀ (mem : Mem) (inputs : Nat → Nat × Nat),
      ∃ s s' m, main_loop mem inputs 79 = some s ∧ draw_phase s (inputs 79) = some s' ∧
        s'.b.x = 200 ∧ s'.b.y = 160 ∧
        s'.mem = put_pixel m s'.buffer 160 200 s'.b.color ∧
        ∀ r c : Nat, r < 160 → c < 240 → ¬ is_ball_pixel s'.b r c) := by
  refine ⟨?_, ?_, ?_, ?_, ?_⟩
  · intro b player ai_paddle sc
    rw [update_ball_wrap]
    show 1 ≤ next_x b ∧ next_x b ≤ 239
    unfold next_x
    split_ifs <;> omega
  · intro mem inputs n
    obtain ⟨s, hs, hi, -⟩ := main_loop_spec mem inputs n
    exact ⟨s, hs, hi.ent.ball_y.1, hi.ent.ball_y.2, hi.ent.ball_top, hi.ent.ball_bottom⟩
  · intro mem inputs n hn
    obtain ⟨s, hs, -, hb⟩ := main_loop_first_diagonal mem inputs n hn
    exact ⟨s, hs, by rw [hb], by rw [hb], by rw [hb]⟩
  · intro mem inputs
    obtain ⟨s, hs, -, hb⟩ := main_loop_first_diagonal mem inputs 80 (by decide)
    refine ⟨s, hs, ?_, ?_, ?_⟩
    · rw [hb]; simp
    · rw [hb]; simp
    · rw [hb]; simp
  · intro mem inputs
    obtain ⟨s, hs, hi, hb⟩ := main_loop_first_diagonal mem inputs 79 (by decide)
    obtain ⟨s', hs', -⟩ := draw_phase_spec s (inputs 79) hi
    have hb' := first_diagonal_step s s' (inputs 79) 79 (by decide) hi
      (by rw [hb]; simp) hs'
    have bx : s'.b.x = 200 := by rw [hb']; simp
    have by' : s'.b.y = 160 := by rw [hb']; simp
    obtain ⟨m, hm⟩ := draw_phase_last_write s s' (inputs 79) hs'
    refine ⟨s, s', m, hs, hs', bx, by', ?_, ?_⟩
    · rw [hm]
      unfold draw_ball
      rw [bx, by']
    · intro r c hr _ hball
      unfold is_ball_pixel at hball
      rw [by'] at hball
      omega

end Pong
